import Mathlib

/-!
# whois-api-go: a shallow embedding and its verified properties

The development follows the Go sources `options.go`, `whoisapi.go` and `models.go`.

* Go strings are byte sequences; they are embedded as `List (Fin 256)`.
* `url.Values` (a Go `map[string][]string`) is embedded as an association list
  read through `Values.Get`, which returns the first binding of a key.
* The standard-library routines the sources call (`strconv.Itoa`, `strings.ToUpper`,
  `url.QueryEscape`, `url.ParseQuery`, `Values.Encode`, ...) are embedded after their
  Go implementation, restricted to the mode in which the sources call them.
-/

set_option autoImplicit false
set_option linter.dupNamespace false

namespace Whois

/-! ## Go strings -/

/-- One byte of a Go string. -/
abbrev Byte := Fin 256

/-- Go `string`: an immutable sequence of bytes. -/
abbrev GoString := List Byte

/-- Byte of an ASCII character of a literal. -/
def byteOf (c : Char) : Byte := Fin.ofNat c.toNat

/-- Go string literal (the literals of this program are ASCII). -/
def lit (s : String) : GoString := s.data.map byteOf

/-- Lexicographic byte order on Go strings (`<` on `string`). -/
def strLt : GoString → GoString → Bool
  | [], [] => false
  | [], _ :: _ => true
  | _ :: _, [] => false
  | a :: as, b :: bs => if a.val < b.val then true else if b.val < a.val then false else strLt as bs

/-! ## strconv, strings -/

namespace strconv

/-- Decimal digits of `n`, most significant first, pushed in front of `acc`. -/
def digitsAux : Nat → Nat → GoString → GoString
  | 0, _, acc => acc
  | fuel + 1, n, acc =>
    let acc1 : GoString := Fin.ofNat (48 + n % 10) :: acc
    if n / 10 = 0 then acc1 else digitsAux fuel (n / 10) acc1

/-- Decimal representation of a natural number. -/
def formatNat (n : Nat) : GoString := digitsAux (n + 1) n []

/-- Go `strconv.Itoa`: decimal representation of a signed integer. -/
def Itoa (value : Int) : GoString :=
  if value < 0 then (45 : Byte) :: formatNat value.natAbs else formatNat value.toNat

end strconv

namespace strings

/-- ASCII upper-casing of one byte (`'a'..'z'` move to `'A'..'Z'`). -/
def upperByte (c : Byte) : Byte :=
  if 97 ≤ c.val ∧ c.val ≤ 122 then Fin.ofNat (c.val - 32) else c

/-- Go `strings.ToUpper`. A string of ASCII bytes is mapped byte by byte; for a string
with a byte outside ASCII Go maps `unicode.ToUpper` over the decoded runes, which is the
parameter `upperUnicode` (the Unicode case tables are not part of this development). -/
def ToUpper (upperUnicode : GoString → GoString) (s : GoString) : GoString :=
  if s.all (fun c => decide (c.val < 128)) then s.map upperByte else upperUnicode s

end strings

/-! ## net/url -/

namespace url

/-- Go `url.Values`: maps a key to a list of values. -/
abbrev Values := List (GoString × List GoString)

/-- Map lookup `v[key]` together with presence. -/
def Values.Get (v : Values) (key : GoString) : Option (List GoString) :=
  match v with
  | [] => none
  | (k, vs) :: rest => if k = key then some vs else Values.Get rest key

/-- Removal of every binding of `key`. -/
def Values.Del (v : Values) (key : GoString) : Values :=
  v.filter (fun e => decide (e.1 ≠ key))

/-- Go `Values.Set`: `v[key] = []string{value}`, replacing any existing values. -/
def Values.Set (v : Values) (key value : GoString) : Values :=
  (key, [value]) :: v.Del key

/-- Map update `m[key] = append(m[key], value)`. -/
def Values.Add (v : Values) (key value : GoString) : Values :=
  (key, (v.Get key).getD [] ++ [value]) :: v.Del key

/-- Go `shouldEscape(c, encodeQueryComponent)`: everything but the unreserved
characters (letters, digits, `-`, `_`, `.`, `~`) is escaped. -/
def shouldEscape (c : Byte) : Bool :=
  if (97 ≤ c.val ∧ c.val ≤ 122) ∨ (65 ≤ c.val ∧ c.val ≤ 90) ∨ (48 ≤ c.val ∧ c.val ≤ 57) then false
  else if c.val = 45 ∨ c.val = 95 ∨ c.val = 46 ∨ c.val = 126 then false
  else true

/-- The digit `"0123456789ABCDEF"[n]`. -/
def upperhex (n : Nat) : Byte :=
  if n < 10 then Fin.ofNat (48 + n) else Fin.ofNat (55 + n)

/-- Go `url.QueryEscape`: a space becomes `+`, any other byte that should be escaped
becomes `%XX`. -/
def QueryEscape : GoString → GoString
  | [] => []
  | c :: rest =>
    if c = 32 then (43 : Byte) :: QueryEscape rest
    else if shouldEscape c then
      (37 : Byte) :: upperhex (c.val / 16) :: upperhex (c.val % 16) :: QueryEscape rest
    else c :: QueryEscape rest

/-- Go `ishex`. -/
def ishex (c : Byte) : Bool :=
  (48 ≤ c.val ∧ c.val ≤ 57) ∨ (97 ≤ c.val ∧ c.val ≤ 102) ∨ (65 ≤ c.val ∧ c.val ≤ 70)

/-- Go `unhex`. -/
def unhex (c : Byte) : Nat :=
  if 48 ≤ c.val ∧ c.val ≤ 57 then c.val - 48
  else if 97 ≤ c.val ∧ c.val ≤ 102 then c.val - 97 + 10
  else if 65 ≤ c.val ∧ c.val ≤ 70 then c.val - 65 + 10
  else 0

/-- Go `url.QueryUnescape`: `%XX` becomes the byte `XX`, `+` becomes a space; `none`
stands for the `EscapeError` of a `%` not followed by two hex digits. -/
def QueryUnescape : GoString → Option GoString
  | [] => some []
  | c :: rest =>
    if c = 37 then
      match rest with
      | h :: l :: rest2 =>
        if ishex h && ishex l then
          (QueryUnescape rest2).map (fun t => Fin.ofNat (unhex h * 16 + unhex l) :: t)
        else none
      | _ => none
    else if c = 43 then (QueryUnescape rest).map (fun t => (32 : Byte) :: t)
    else (QueryUnescape rest).map (fun t => c :: t)

/-- Go `strings.Cut(s, sep)` for a one-byte separator: the text before the first `sep`
and the text after it (the whole of `s` and the empty string when `sep` is absent). -/
def cut (sep : Byte) : GoString → GoString × GoString
  | [] => ([], [])
  | c :: rest =>
    if c = sep then ([], rest)
    else ((c :: (cut sep rest).1), (cut sep rest).2)

/-- The loop of Go `parseQuery`: pieces are cut at `&`; a piece with a `;`, an empty
piece and a piece whose key or value does not unescape are skipped; every other piece
appends its value to the values of its key. -/
def parseQueryLoop : Nat → Values → GoString → Values
  | 0, m, _ => m
  | fuel + 1, m, query =>
    if query = [] then m
    else
      let key := (cut 38 query).1
      let query1 := (cut 38 query).2
      if key.contains (59 : Byte) then parseQueryLoop fuel m query1
      else if key = [] then parseQueryLoop fuel m query1
      else
        match QueryUnescape (cut 61 key).1, QueryUnescape (cut 61 key).2 with
        | some k, some value => parseQueryLoop fuel (m.Add k value) query1
        | _, _ => parseQueryLoop fuel m query1

/-- Go `URL.Query()`: `ParseQuery(u.RawQuery)` with the error dropped. -/
def ParseQuery (query : GoString) : Values :=
  parseQueryLoop (query.length + 1) [] query

/-- Insertion of a key into a sorted list of keys. -/
def insertKey (k : GoString) : List GoString → List GoString
  | [] => [k]
  | x :: xs => if strLt k x then k :: x :: xs else x :: insertKey k xs

/-- The keys of the map, each once, in increasing order (`slices.Sort(keys)`). -/
def sortedKeys (v : Values) : List GoString :=
  v.foldr (fun e acc => if e.1 ∈ acc then acc else insertKey e.1 acc) []

/-- The pairs `key=value` of one key, each escaped. -/
def encodePairs (keyEscaped : GoString) (vs : List GoString) : List GoString :=
  vs.map (fun x => keyEscaped ++ (61 : Byte) :: QueryEscape x)

/-- The pieces written one after the other, with a `&` before every piece but the
first. -/
def joinAmp : List GoString → GoString
  | [] => []
  | [p] => p
  | p :: q :: rest => p ++ (38 : Byte) :: joinAmp (q :: rest)

/-- Go `Values.Encode`: the pairs `key=value`, escaped, ordered by key and joined
with `&`. -/
def Values.Encode (v : Values) : GoString :=
  joinAmp ((sortedKeys v).flatMap (fun k => encodePairs (QueryEscape k) ((v.Get k).getD [])))

end url

/-! ## The environment -/

namespace time

/-- A non-nil Go `*time.Location`: the local zone of the host or a zone made by
`FixedZone(name, offset)`. The nil pointer, which stands for UTC, is `none` in
`Time.loc`. -/
inductive Location where
  | Local
  | Fixed (name : GoString) (offset : Int)
  deriving DecidableEq, Repr

/-- Go `time.Time`: the fields `wall`, `ext` and `loc`. For a time without a monotonic
clock reading `wall` is the nanosecond within the second and `ext` the seconds since
January 1, year 1, 00:00:00 UTC. -/
structure Time where
  wall : Nat
  ext : Int
  loc : Option Location
  deriving DecidableEq, Repr

/-- The zone data of the host, Go `time.Local`, as far as `Parse` and `Format` read
it. -/
structure LocalZone where
  /-- `Location.lookup(sec)`: the abbreviation and the offset (seconds east of UTC) in
  effect at the Unix second `sec` -/
  lookup : Int → GoString × Int
  /-- `Location.lookupName(name, unix)`: the offset of the zone with that abbreviation,
  if the location has one -/
  lookupName : GoString → Int → Option Int

/-- Seconds from January 1, year 1 to January 1, 1970 (`unixToInternal`). -/
def unixToInternal : Int := 62135596800

/-- Seconds from the absolute epoch (January 1 of `absoluteZeroYear`) to January 1,
year 1 (`internalToAbsolute`, the negation of `absoluteToInternal`). -/
def internalToAbsolute : Int := 9223371966579724800

/-- The year of the absolute epoch. -/
def absoluteZeroYear : Int := -292277022399

/-- Go `daysBefore`: the number of days in a non-leap year before each month. -/
def daysBefore : List Nat := [0, 31, 59, 90, 120, 151, 181, 212, 243, 273, 304, 334, 365]

/-- Go `isLeap`. -/
def isLeap (year : Int) : Bool :=
  year % 4 = 0 ∧ (year % 100 ≠ 0 ∨ year % 400 = 0)

/-- Go `daysIn(m, year)`. -/
def daysIn (m : Nat) (year : Int) : Nat :=
  if m = 2 ∧ isLeap year = true then 29 else daysBefore.getD m 0 - daysBefore.getD (m - 1) 0

/-- Go `daysSinceEpoch(year)`: the days from the absolute epoch to January 1 of
`year`. -/
def daysSinceEpoch (year : Int) : Nat :=
  let y := (year - absoluteZeroYear).toNat
  let n400 := y / 400
  let y1 := y - 400 * n400
  let n100 := y1 / 100
  let y2 := y1 - 100 * n100
  let n4 := y2 / 4
  let y3 := y2 - 4 * n4
  146097 * n400 + 36524 * n100 + 1461 * n4 + 365 * y3

/-- Go `Date(year, month, day, hour, min, sec, nsec, UTC)` for fields that are in range
(the normalisation steps of `Date` then change nothing): the time with these fields in
UTC, whose `loc` is the nil pointer. -/
def Date (year : Int) (month day hour min sec nsec : Nat) : Time :=
  let d := daysSinceEpoch year + daysBefore.getD (month - 1) 0 +
    (if isLeap year = true ∧ 3 ≤ month then 1 else 0) + (day - 1)
  let abs := d * 86400 + (hour * 3600 + min * 60 + sec)
  { wall := nsec, ext := (abs : Int) - internalToAbsolute, loc := none }

/-- The first half of Go `absDate`: from the days since the absolute epoch, the years
since the absolute zero year and the day within the year. -/
def yearDay (d : Nat) : Nat × Nat :=
  let n400 := d / 146097
  let d1 := d - 146097 * n400
  let n100 := d1 / 36524 - (d1 / 36524) / 4
  let d2 := d1 - 36524 * n100
  let n4 := d2 / 1461
  let d3 := d2 - 1461 * n4
  let n := d3 / 365 - (d3 / 365) / 4
  (400 * n400 + 100 * n100 + 4 * n4 + n, d3 - 365 * n)

/-- The second half of Go `absDate`: from the day within the year, the month and the
day of the month. -/
def monthDay (leap : Bool) (yday : Nat) : Nat × Nat :=
  if leap = true ∧ yday = 31 + 29 - 1 then (2, 29)
  else
    let day := if leap = true ∧ yday > 31 + 29 - 1 then yday - 1 else yday
    let month := day / 31
    let stop := daysBefore.getD (month + 1) 0
    if day ≥ stop then (month + 2, day - stop + 1)
    else (month + 1, day - daysBefore.getD month 0 + 1)

/-- Go `absDate(abs, true)`: the year, the month and the day of the month of the
absolute second `abs`. -/
def absDate (abs : Nat) : Int × Nat × Nat :=
  let year : Int := ((yearDay (abs / 86400)).1 : Int) + absoluteZeroYear
  (year, monthDay (isLeap year) (yearDay (abs / 86400)).2)

/-- Go `appendInt(b, x, width)` on an empty buffer: the decimal form of `x`, padded
with zeros to `width` digits, after a `-` when `x` is negative. -/
def appendInt (x : Int) (width : Nat) : GoString :=
  let ds := strconv.formatNat x.natAbs
  (if x < 0 then [(45 : Byte)] else []) ++ List.replicate (width - ds.length) (48 : Byte) ++ ds

/-- The zone text that `Format` writes for the layout element `MST`: the abbreviation,
or the offset as `-0700` when the zone has no abbreviation. -/
def formatZone (name : GoString) (offset : Int) : GoString :=
  if name ≠ [] then name
  else
    let zone := offset.tdiv 60
    (if zone < 0 then [(45 : Byte)] else [(43 : Byte)]) ++
      appendInt (zone.natAbs / 60 : Nat) 2 ++ appendInt (zone.natAbs % 60 : Nat) 2

/-- Go `Time.locabs`: the abbreviation and the offset of the zone of `t` at the instant
of `t`. -/
def zoneOf (localZone : LocalZone) (t : Time) : GoString × Int :=
  match t.loc with
  | none => (lit "UTC", 0)
  | some .Local => localZone.lookup (t.ext - unixToInternal)
  | some (.Fixed name offset) => (name, offset)

/-- Go `t.Format("2006-01-02 15:04:05 MST")`. -/
def Format (localZone : LocalZone) (t : Time) : GoString :=
  let name := (zoneOf localZone t).1
  let offset := (zoneOf localZone t).2
  let abs := (t.ext + offset + internalToAbsolute).toNat
  let date := absDate abs
  let clock := abs % 86400
  appendInt date.1 4 ++ (45 : Byte) :: appendInt date.2.1 2 ++ (45 : Byte) :: appendInt date.2.2 2 ++
    (32 : Byte) :: appendInt (clock / 3600 : Nat) 2 ++ (58 : Byte) ::
    appendInt (clock % 3600 / 60 : Nat) 2 ++ (58 : Byte) :: appendInt (clock % 60 : Nat) 2 ++
    (32 : Byte) :: formatZone name offset

/-- A decimal digit. -/
def isDigitByte (c : Byte) : Bool := 48 ≤ c.val ∧ c.val ≤ 57

/-- An upper-case letter. -/
def isUpperByte (c : Byte) : Bool := 65 ≤ c.val ∧ c.val ≤ 90

/-- The value of a decimal digit. -/
def digitValue (c : Byte) : Nat := c.val - 48

/-- The number written by a string of digits. -/
def digitsValue (ds : GoString) : Nat :=
  ds.foldl (fun acc c => acc * 10 + digitValue c) 0

/-- Go `getnum(s, fixed)`: a number of one or two digits (of two when `fixed`) at the
head of `s`, and the rest of `s`. -/
def getnum (s : GoString) (fixed : Bool) : Option (Nat × GoString) :=
  match s with
  | [] => none
  | a :: rest =>
    if isDigitByte a = false then none
    else
      match rest with
      | [] => if fixed then none else some (digitValue a, [])
      | b :: rest2 =>
        if isDigitByte b then some (digitValue a * 10 + digitValue b, rest2)
        else if fixed then none
        else some (digitValue a, b :: rest2)

/-- The layout element `2006`: four digits at the head of the value. -/
def getYear (s : GoString) : Option (Nat × GoString) :=
  match s with
  | a :: b :: c :: d :: rest =>
    if isDigitByte a && isDigitByte b && isDigitByte c && isDigitByte d then
      some (digitValue a * 1000 + digitValue b * 100 + digitValue c * 10 + digitValue d, rest)
    else none
  | _ => none

/-- Go `cutspace`: the string without its leading spaces. -/
def cutspace : GoString → GoString
  | [] => []
  | c :: rest => if c = 32 then cutspace rest else c :: rest

/-- Go `skip(value, prefix)` for a one-byte prefix other than the space. -/
def skipByte (p : Byte) : GoString → Option GoString
  | [] => none
  | c :: rest => if c = p then some rest else none

/-- Go `skip(value, " ")`: a value that does not begin with a space is refused unless
it is empty; otherwise all its leading spaces are dropped. -/
def skipSpace : GoString → Option GoString
  | [] => some []
  | c :: rest => if c = 32 then some (cutspace rest) else none

/-- The digits at the head of a string. -/
def leadingDigits : GoString → GoString
  | [] => []
  | c :: rest => if isDigitByte c then c :: leadingDigits rest else []

/-- The fractional second that `Parse` reads after the seconds when the layout has
none: after a `.` or `,` followed by a digit, all digits are consumed and the first
nine give the nanoseconds. The result is the nanoseconds and the rest of the value. -/
def getFraction (value : GoString) : Nat × GoString :=
  match value with
  | p :: d :: rest =>
    if (p = 46 ∨ p = 44) ∧ isDigitByte d = true then
      let ds := leadingDigits (d :: rest)
      (digitsValue (ds.take 9) * 10 ^ (9 - (ds.take 9).length), (d :: rest).drop ds.length)
    else (0, value)
  | _ => (0, value)

/-- Go `parseSignedOffset`: the length of a sign followed by digits that write a number
of at most 23, or 0. -/
def parseSignedOffset (value : GoString) : Nat :=
  match value with
  | [] => 0
  | sign :: rest =>
    if sign ≠ 45 ∧ sign ≠ 43 then 0
    else if leadingDigits rest = [] then 0
    else if digitsValue (leadingDigits rest) > 23 then 0
    else 1 + (leadingDigits rest).length

/-- Go `parseGMT`: the length of `GMT` with an optional signed offset. -/
def parseGMT (value : GoString) : Nat :=
  if value.drop 3 = [] then 3 else 3 + parseSignedOffset (value.drop 3)

/-- The number of upper-case letters at the head of the value, counted up to six. -/
def upperCount (value : GoString) : Nat :=
  ((value.take 6).takeWhile isUpperByte).length

/-- Go `parseTimeZone`: the length of the zone abbreviation at the head of the value,
if there is one. -/
def parseTimeZone (value : GoString) : Option Nat :=
  if value.length < 3 then none
  else if value.take 4 = lit "ChST" ∨ value.take 4 = lit "MeST" then some 4
  else if value.take 3 = lit "GMT" then some (parseGMT value)
  else if value.head? = some 43 ∨ value.head? = some 45 then
    if parseSignedOffset value > 0 then some (parseSignedOffset value) else none
  else
    match upperCount value with
    | 5 => if value.get? 4 = some 84 then some 5 else none
    | 4 => if value.get? 3 = some 84 ∨ value.take 4 = lit "WITA" then some 4 else none
    | 3 => some 3
    | _ => none

/-- Go `atoi` on the offset text of a `GMT` zone (a sign and digits). -/
def signedValue (s : GoString) : Int :=
  match s with
  | [] => 0
  | sign :: rest => if sign = 45 then -((digitsValue rest : Nat) : Int) else (digitsValue rest : Nat)

/-- The offset of the zone that `Parse` makes up for an abbreviation unknown to the
local zone: the hours written after `GMT`, in seconds, and zero for any other
abbreviation. -/
def madeUpOffset (zoneName : GoString) : Int :=
  if zoneName.length > 3 ∧ zoneName.take 3 = lit "GMT" then signedValue (zoneName.drop 3) * 3600
  else 0

/-- The end of Go `Parse` for a zone abbreviation other than `UTC`, from the time `t`
read as UTC: when the local zone knows the abbreviation, its offset is taken off and
the time is in the local zone; otherwise the time stays and is in a zone made up under
that name. -/
def withZoneName (localZone : LocalZone) (t : Time) (zoneName : GoString) : Time :=
  match localZone.lookupName zoneName (t.ext - unixToInternal) with
  | some offset => { t with ext := t.ext - offset, loc := some .Local }
  | none => { t with loc := some (.Fixed zoneName (madeUpOffset zoneName)) }

/-- The layout elements `2006-01-02` of Go `Parse`: the year, the month (from 1 to
12) and the day (checked against the month only at the end), and the rest of the
value. -/
def parseDate (value : GoString) : Option (Nat × Nat × Nat × GoString) :=
  (getYear value).bind fun (year, v1) =>
  (skipByte 45 v1).bind fun v2 =>
  (getnum v2 true).bind fun (month, v3) =>
  if month = 0 ∨ 12 < month then none else
  (skipByte 45 v3).bind fun v4 =>
  (getnum v4 true).bind fun (day, v5) =>
  some (year, month, day, v5)

/-- The layout elements `15:04:05` of Go `Parse`: the hour (of one or two digits,
below 24), the minute and the second (below 60), the nanoseconds of a fractional second
that may follow, and the rest of the value. -/
def parseClock (value : GoString) : Option (Nat × Nat × Nat × Nat × GoString) :=
  (getnum value false).bind fun (hour, v7) =>
  if 24 ≤ hour then none else
  (skipByte 58 v7).bind fun v8 =>
  (getnum v8 true).bind fun (min, v9) =>
  if 60 ≤ min then none else
  (skipByte 58 v9).bind fun v10 =>
  (getnum v10 true).bind fun (sec, v11) =>
  if 60 ≤ sec then none else
  some (hour, min, sec, (getFraction v11).1, (getFraction v11).2)

/-- The layout element `MST` of Go `Parse` and its end: the value must be `UTC`, or a
zone abbreviation, with nothing after it; the day must be a day of the month; the
result is the time of the fields in UTC, or in the zone of the abbreviation. -/
def parseZone (localZone : LocalZone) (year month day hour min sec nsec : Nat)
    (value : GoString) : Option Time :=
  if value.take 3 = lit "UTC" then
    if value.drop 3 ≠ [] then none
    else if day < 1 ∨ day > daysIn month year then none
    else some (Date year month day hour min sec nsec)
  else
    (parseTimeZone value).bind fun n =>
    if value.drop n ≠ [] then none
    else if day < 1 ∨ day > daysIn month year then none
    else some (withZoneName localZone (Date year month day hour min sec nsec) (value.take n))

/-- Go `time.Parse("2006-01-02 15:04:05 MST", value)`; `none` stands for the
`*ParseError`. -/
def Parse (localZone : LocalZone) (value : GoString) : Option Time :=
  (parseDate value).bind fun (year, month, day, v5) =>
  (skipSpace v5).bind fun v6 =>
  (parseClock v6).bind fun (hour, min, sec, nsec, v11) =>
  (skipSpace v11).bind fun v12 =>
  parseZone localZone year month day hour min sec nsec v12

end time

/-- Time is a helper wrapper on time.Time (`type Time time.Time`). -/
abbrev Time := time.Time

/-- The package variable `emptyTime`: the zero value of `Time`. -/
def emptyTime : Time := { wall := 0, ext := 0, loc := none }

/-! ## encoding/json: a string value -/

namespace json

/-- JSON white space. -/
def isSpace (c : Byte) : Bool := c = 32 ∨ c = 9 ∨ c = 13 ∨ c = 10

/-- The text without its leading white space. -/
def trimLeft : GoString → GoString
  | [] => []
  | c :: rest => if isSpace c then trimLeft rest else c :: rest

/-- The text without the white space around it. -/
def trim (s : GoString) : GoString := (trimLeft (trimLeft s).reverse).reverse

/-- The byte that the escape `\c` of a string literal stands for, the escape `\u`
apart. -/
def simpleEscape (c : Byte) : Option Byte :=
  if c = 34 then some 34
  else if c = 92 then some 92
  else if c = 47 then some 47
  else if c = 98 then some 8
  else if c = 102 then some 12
  else if c = 110 then some 10
  else if c = 114 then some 13
  else if c = 116 then some 9
  else none

/-- Whether the body of a string literal has a `\u` escape or a byte outside ASCII. -/
def hasUnicode : GoString → Bool
  | [] => false
  | c :: rest =>
    if c = 92 then
      match rest with
      | [] => false
      | e :: rest2 => e = 117 || hasUnicode rest2
    else decide (128 ≤ c.val) || hasUnicode rest

/-- The value of a string literal without `\u` escapes and bytes outside ASCII, read
from the text after its opening quote: the closing quote must end the text, an escape
must be one of the simple escapes, and a control character is refused. -/
def unquoteBody : GoString → Option GoString
  | [] => none
  | c :: rest =>
    if c = 34 then (if rest = [] then some [] else none)
    else if c = 92 then
      match rest with
      | [] => none
      | e :: rest2 =>
        match simpleEscape e with
        | some b => (unquoteBody rest2).map (fun t => b :: t)
        | none => none
    else if c.val < 32 then none
    else (unquoteBody rest).map (fun t => c :: t)

/-- Go `json.Unmarshal(raw, &val)` for a string `val` that starts empty: the text must
be one JSON value with white space around it; a string literal gives its value, `null`
leaves the string empty, and any other text is an error (`none`). A literal with a `\u`
escape or a byte outside ASCII is read by the parameter `unquoteUnicode` (UTF-8 coding
is not part of this development). -/
def unmarshalToString (unquoteUnicode : GoString → Option GoString) (raw : GoString) :
    Option GoString :=
  if trim raw = lit "null" then some []
  else
    match trim raw with
    | [] => none
    | c :: body =>
      if c = 34 then (if hasUnicode body then unquoteUnicode (c :: body) else unquoteBody body)
      else none

/-! ### the scanner of encoding/json and `Decoder.readValue` -/

/-- The values of the parse-state stack of the scanner. -/
inductive ParseState where
  | objectKey
  | objectValue
  | arrayValue
  deriving DecidableEq, Repr

/-- The step functions of the scanner (`stateBeginValue`, `stateInString`, ...). -/
inductive Step where
  | beginValueOrEmpty | beginValue | beginStringOrEmpty | beginString | endValue | endTop
  | inString | inStringEsc | inStringEscU | inStringEscU1 | inStringEscU12 | inStringEscU123
  | neg | s1 | s0 | dot | dot0 | e | eSign | e0
  | t | tr | tru | f | fa | fal | fals | n | nu | nul
  | error
  deriving DecidableEq, Repr

/-- The result codes of a step (`scanContinue`, ..., `scanEnd`, `scanError`). -/
inductive Code where
  | continue | beginLiteral | beginObject | objectKey | objectValue | endObject
  | beginArray | arrayValue | endArray | skipSpace | stop | error
  deriving DecidableEq, Repr

/-- The data of a `SyntaxError` of the scanner: the offending byte and the context;
its message is `invalid character 'c' context`. -/
structure SyntaxError where
  char : Byte
  context : GoString
  deriving DecidableEq, Repr

/-- The scanner: the current step function, the parse-state stack (the last pushed
state first) and the error. -/
structure Scanner where
  step : Step
  parseState : List ParseState
  err : Option SyntaxError
  deriving DecidableEq, Repr

/-- Go `scanner.reset`. -/
def Scanner.reset : Scanner := { step := .beginValue, parseState := [], err := none }

/-- Go `scanner.error(c, context)`. -/
def Scanner.error (s : Scanner) (c : Byte) (context : String) : Scanner × Code :=
  ({ s with step := .error, err := some { char := c, context := lit context } }, .error)

/-- Go `maxNestingDepth`. -/
def maxNestingDepth : Nat := 10000

/-- Go `scanner.pushParseState`, after the step function `next` is set. -/
def Scanner.pushParseState (s : Scanner) (c : Byte) (next : Step) (newParseState : ParseState)
    (successState : Code) : Scanner × Code :=
  if (newParseState :: s.parseState).length ≤ maxNestingDepth then
    ({ s with step := next, parseState := newParseState :: s.parseState }, successState)
  else
    Scanner.error { s with step := next, parseState := newParseState :: s.parseState } c
      "exceeded max depth"

/-- Go `scanner.popParseState`. -/
def Scanner.popParseState (s : Scanner) : Scanner :=
  if s.parseState.tail = [] then { s with step := .endTop, parseState := [] }
  else { s with step := .endValue, parseState := s.parseState.tail }

/-- Go `stateEndTop`: the byte after the top-level value; a byte that is not white
space records an error, and the code is `scanEnd` in either case. -/
def stateEndTop (s : Scanner) (c : Byte) : Scanner × Code :=
  if isSpace c then (s, .stop) else ((Scanner.error s c "after top-level value").1, .stop)

/-- Go `stateEndValue`. -/
def stateEndValue (s : Scanner) (c : Byte) : Scanner × Code :=
  match s.parseState with
  | [] => stateEndTop { s with step := .endTop } c
  | ps :: rest =>
    if isSpace c then ({ s with step := .endValue }, .skipSpace)
    else
      match ps with
      | .objectKey =>
        if c = 58 then ({ s with step := .beginValue, parseState := .objectValue :: rest }, .objectKey)
        else Scanner.error s c "after object key"
      | .objectValue =>
        if c = 44 then ({ s with step := .beginString, parseState := .objectKey :: rest }, .objectValue)
        else if c = 125 then (Scanner.popParseState s, .endObject)
        else Scanner.error s c "after object key:value pair"
      | .arrayValue =>
        if c = 44 then ({ s with step := .beginValue }, .arrayValue)
        else if c = 93 then (Scanner.popParseState s, .endArray)
        else Scanner.error s c "after array element"

/-- Go `stateBeginValue`. -/
def stateBeginValue (s : Scanner) (c : Byte) : Scanner × Code :=
  if isSpace c then (s, .skipSpace)
  else if c = 123 then Scanner.pushParseState s c .beginStringOrEmpty .objectKey .beginObject
  else if c = 91 then Scanner.pushParseState s c .beginValueOrEmpty .arrayValue .beginArray
  else if c = 34 then ({ s with step := .inString }, .beginLiteral)
  else if c = 45 then ({ s with step := .neg }, .beginLiteral)
  else if c = 48 then ({ s with step := .s0 }, .beginLiteral)
  else if c = 116 then ({ s with step := .t }, .beginLiteral)
  else if c = 102 then ({ s with step := .f }, .beginLiteral)
  else if c = 110 then ({ s with step := .n }, .beginLiteral)
  else if 49 ≤ c.val ∧ c.val ≤ 57 then ({ s with step := .s1 }, .beginLiteral)
  else Scanner.error s c "looking for beginning of value"

/-- Go `stateBeginString`. -/
def stateBeginString (s : Scanner) (c : Byte) : Scanner × Code :=
  if isSpace c then (s, .skipSpace)
  else if c = 34 then ({ s with step := .inString }, .beginLiteral)
  else Scanner.error s c "looking for beginning of object key string"

/-- Go `state0`: after the `0` of a number. -/
def state0 (s : Scanner) (c : Byte) : Scanner × Code :=
  if c = 46 then ({ s with step := .dot }, .continue)
  else if c = 101 ∨ c = 69 then ({ s with step := .e }, .continue)
  else stateEndValue s c

/-- Go `stateESign`: after the `e` and the sign of a number. -/
def stateESign (s : Scanner) (c : Byte) : Scanner × Code :=
  if 48 ≤ c.val ∧ c.val ≤ 57 then ({ s with step := .e0 }, .continue)
  else Scanner.error s c "in exponent of numeric literal"

/-- A literal `true`, `false` or `null` under way: the byte `want` moves to `next`. -/
def stateLiteral (s : Scanner) (c want : Byte) (next : Step) (context : String) :
    Scanner × Code :=
  if c = want then ({ s with step := next }, .continue) else Scanner.error s c context

/-- A hexadecimal digit of a `\u` escape. -/
def isHexDigit (c : Byte) : Bool :=
  (48 ≤ c.val ∧ c.val ≤ 57) ∨ (97 ≤ c.val ∧ c.val ≤ 102) ∨ (65 ≤ c.val ∧ c.val ≤ 70)

/-- One step of the scanner: `s.step(s, c)`. -/
def Scanner.next (s : Scanner) (c : Byte) : Scanner × Code :=
  match s.step with
  | .beginValueOrEmpty =>
    if isSpace c then (s, .skipSpace)
    else if c = 93 then stateEndValue s c
    else stateBeginValue s c
  | .beginValue => stateBeginValue s c
  | .beginStringOrEmpty =>
    if isSpace c then (s, .skipSpace)
    else if c = 125 then
      stateEndValue { s with parseState := .objectValue :: s.parseState.tail } c
    else stateBeginString s c
  | .beginString => stateBeginString s c
  | .endValue => stateEndValue s c
  | .endTop => stateEndTop s c
  | .inString =>
    if c = 34 then ({ s with step := .endValue }, .continue)
    else if c = 92 then ({ s with step := .inStringEsc }, .continue)
    else if c.val < 32 then Scanner.error s c "in string literal"
    else (s, .continue)
  | .inStringEsc =>
    if c = 98 ∨ c = 102 ∨ c = 110 ∨ c = 114 ∨ c = 116 ∨ c = 92 ∨ c = 47 ∨ c = 34 then
      ({ s with step := .inString }, .continue)
    else if c = 117 then ({ s with step := .inStringEscU }, .continue)
    else Scanner.error s c "in string escape code"
  | .inStringEscU =>
    if isHexDigit c then ({ s with step := .inStringEscU1 }, .continue)
    else Scanner.error s c "in \\u hexadecimal character escape"
  | .inStringEscU1 =>
    if isHexDigit c then ({ s with step := .inStringEscU12 }, .continue)
    else Scanner.error s c "in \\u hexadecimal character escape"
  | .inStringEscU12 =>
    if isHexDigit c then ({ s with step := .inStringEscU123 }, .continue)
    else Scanner.error s c "in \\u hexadecimal character escape"
  | .inStringEscU123 =>
    if isHexDigit c then ({ s with step := .inString }, .continue)
    else Scanner.error s c "in \\u hexadecimal character escape"
  | .neg =>
    if c = 48 then ({ s with step := .s0 }, .continue)
    else if 49 ≤ c.val ∧ c.val ≤ 57 then ({ s with step := .s1 }, .continue)
    else Scanner.error s c "in numeric literal"
  | .s1 =>
    if 48 ≤ c.val ∧ c.val ≤ 57 then ({ s with step := .s1 }, .continue) else state0 s c
  | .s0 => state0 s c
  | .dot =>
    if 48 ≤ c.val ∧ c.val ≤ 57 then ({ s with step := .dot0 }, .continue)
    else Scanner.error s c "after decimal point in numeric literal"
  | .dot0 =>
    if 48 ≤ c.val ∧ c.val ≤ 57 then (s, .continue)
    else if c = 101 ∨ c = 69 then ({ s with step := .e }, .continue)
    else stateEndValue s c
  | .e =>
    if c = 43 ∨ c = 45 then ({ s with step := .eSign }, .continue) else stateESign s c
  | .eSign => stateESign s c
  | .e0 =>
    if 48 ≤ c.val ∧ c.val ≤ 57 then (s, .continue) else stateEndValue s c
  | .t => stateLiteral s c 114 .tr "in literal true (expecting 'r')"
  | .tr => stateLiteral s c 117 .tru "in literal true (expecting 'u')"
  | .tru => stateLiteral s c 101 .endValue "in literal true (expecting 'e')"
  | .f => stateLiteral s c 97 .fa "in literal false (expecting 'a')"
  | .fa => stateLiteral s c 108 .fal "in literal false (expecting 'l')"
  | .fal => stateLiteral s c 115 .fals "in literal false (expecting 's')"
  | .fals => stateLiteral s c 101 .endValue "in literal false (expecting 'e')"
  | .n => stateLiteral s c 117 .nu "in literal null (expecting 'u')"
  | .nu => stateLiteral s c 108 .nul "in literal null (expecting 'l')"
  | .nul => stateLiteral s c 108 .endValue "in literal null (expecting 'l')"
  | .error => (s, .error)

/-- The outcome of `Decoder.readValue`: the length of the first JSON value of the
input, or a syntax error, or `io.EOF`, or `io.ErrUnexpectedEOF`. -/
inductive ReadResult where
  | value (n : Nat)
  | syntaxError (err : Option SyntaxError)
  | eof
  | unexpectedEOF
  deriving DecidableEq, Repr

/-- The scan loop of `Decoder.readValue` over the bytes of the input, `n` bytes being
scanned already: it stops at the end of the first value (a closing bracket that empties
the stack ends the value with that byte; any other value ends before the byte that
gives `scanEnd`) or at a syntax error, and returns the scanner when the input is used
up. -/
def readLoop : Scanner → Nat → GoString → ReadResult ⊕ Scanner
  | s, _, [] => .inr s
  | s, n, c :: rest =>
    match s.next c with
    | (_, .stop) => .inl (.value n)
    | (s1, .endObject) =>
      if (stateEndValue s1 32).2 = .stop then .inl (.value (n + 1))
      else readLoop (stateEndValue s1 32).1 (n + 1) rest
    | (s1, .endArray) =>
      if (stateEndValue s1 32).2 = .stop then .inl (.value (n + 1))
      else readLoop (stateEndValue s1 32).1 (n + 1) rest
    | (s1, .error) => .inl (.syntaxError s1.err)
    | (s1, _) => readLoop s1 (n + 1) rest

/-- Go `nonSpace`. -/
def nonSpace (b : GoString) : Bool := b.any (fun c => !isSpace c)

/-- Go `Decoder.readValue` on a decoder that has read nothing yet, for a reader that
yields the bytes `buf` and then `io.EOF`: at the end of the input a space is fed to the
scanner; if that ends the value the whole input is the value, otherwise the error is
`io.ErrUnexpectedEOF` when the input has a byte that is not white space and `io.EOF`
when it has none. -/
def readValue (buf : GoString) : ReadResult :=
  match readLoop Scanner.reset 0 buf with
  | .inl r => r
  | .inr s =>
    if (s.next 32).2 = .stop then .value buf.length
    else if nonSpace buf then .unexpectedEOF
    else .eof

/-- Go `quoteChar` for the message of a `SyntaxError`; for a byte outside printable
ASCII the text is the parameter `quoteOther` (`strconv.Quote` is not part of this
development). -/
def quoteChar (quoteOther : Byte → GoString) (c : Byte) : GoString :=
  if c = 39 then lit "'\\''"
  else if c = 34 then lit "'\"'"
  else if c = 92 then lit "'\\\\'"
  else if 32 ≤ c.val ∧ c.val < 127 then [(39 : Byte), c, (39 : Byte)]
  else quoteOther c

/-- The message of a `SyntaxError` of the scanner. -/
def SyntaxError.Error (quoteOther : Byte → GoString) (e : SyntaxError) : GoString :=
  lit "invalid character " ++ quoteChar quoteOther e.char ++ lit " " ++ e.context

/-! ### `decodeState.object`: the members of an object -/

/-- The message of the panic of the decoder when the text it walks is not the text the
scanner accepted. -/
def phasePanicMsg : GoString := lit "JSON decoder out of sync - data changing underfoot?"

/-- Go `unquoteBytes(item)`: the value of the string literal `item`. A literal with a
`\u` escape or a byte outside ASCII is read by the parameter `unquoteUnicode`. -/
def unquoteLiteral (unquoteUnicode : GoString → Option GoString) (item : GoString) :
    Option GoString :=
  match item with
  | [] => none
  | c :: body =>
    if c = 34 then (if hasUnicode body then unquoteUnicode (c :: body) else unquoteBody body)
    else none

/-- Go `foldName(key)`: the key with the letters `a` to `z` in upper case. For a key
with a byte outside ASCII Go folds the decoded runes, which is the parameter
`foldUnicode`. -/
def foldName (foldUnicode : GoString → GoString) (key : GoString) : GoString :=
  if key.all (fun c => decide (c.val < 128)) then key.map strings.upperByte else foldUnicode key

/-- The value at the head of `text`, without the white space before it, and the text
after the value. The decoder walks the value with the scanner; its end is the end that
`readValue` finds for a value that begins the input. -/
def cutValue (text : GoString) : Option (GoString × GoString) :=
  match readValue text with
  | .value n => some (trimLeft (text.take n), text.drop n)
  | _ => none

/-- The loop of Go `decodeState.object` over the members of an object, from the text
before the opening quote of a key: for each member in order, the key as it is written (a
string literal) and the text of its value. A member is a key, a colon and a value; after
it comes a comma and another member, or the closing brace. `none` stands for the panic
of the decoder on a text the scanner would not have accepted. -/
def membersLoop : Nat → GoString → Option (List (GoString × GoString))
  | 0, _ => none
  | fuel + 1, text =>
    match trimLeft text with
    | [] => none
    | c :: rest =>
      if c ≠ 34 then none
      else
        match cutValue (c :: rest) with
        | none => none
        | some (key, afterKey) =>
          match trimLeft afterKey with
          | [] => none
          | colon :: afterColon =>
            if colon ≠ 58 then none
            else
              match cutValue afterColon with
              | none => none
              | some (value, afterValue) =>
                match trimLeft afterValue with
                | [] => none
                | sep :: more =>
                  if sep = 125 then some [(key, value)]
                  else if sep = 44 then
                    (membersLoop fuel more).map (fun ms => (key, value) :: ms)
                  else none

/-- The members of the object whose text after the opening brace is `text`: none when
the closing brace comes first, otherwise those of `membersLoop`. -/
def members (text : GoString) : Option (List (GoString × GoString)) :=
  match trimLeft text with
  | [] => none
  | c :: _ => if c = 125 then some [] else membersLoop text.length text

end json

/-! ## models.go: the records -/

/-- Audit is part of the Whois API response. -/
structure Audit where
  CreatedDate : Time
  UpdatedDate : Time

/-- Contact is part of the Whois API response. -/
structure Contact where
  Name : GoString
  Organization : GoString
  Street1 : GoString
  Street2 : GoString
  Street3 : GoString
  Street4 : GoString
  City : GoString
  State : GoString
  PostalCode : GoString
  Country : GoString
  CountryCode : GoString
  Email : GoString
  Telephone : GoString
  TelephoneExt : GoString
  Fax : GoString
  FaxExt : GoString
  RawText : GoString
  Unparsable : GoString

/-- NameServers is part of the Whois API response. -/
structure NameServers where
  RawText : GoString
  HostNames : List GoString
  Ips : List GoString

/-- The base part of the Whois record. -/
structure baseWhoisRecord where
  DomainName : GoString
  CreatedDateNormalized : Time
  UpdatedDateNormalized : Time
  ExpiresDateNormalized : Time
  CreatedDate : GoString
  UpdatedDate : GoString
  ExpiresDate : GoString
  Audit : Audit
  NameServers : NameServers
  RegistrarName : GoString
  RegistrarIANAID : GoString
  Status : GoString
  RawText : GoString
  ParseCode : Int
  Registrant : Contact
  AdministrativeContact : Contact
  TechnicalContact : Contact
  BillingContact : Contact
  ZoneContact : Contact
  Header : GoString
  Footer : GoString
  StrippedText : GoString

/-- RegistryData is part of the Whois API response. -/
structure RegistryData where
  base : baseWhoisRecord
  WhoisServer : GoString
  ReferralURL : GoString

/-- WhoisRecord is a Whois record; `SubRecords` nests further records. -/
inductive WhoisRecord where
  | mk (base : baseWhoisRecord) (RegistryData : RegistryData) (ContactEmail : GoString)
      (DomainAvailability : GoString) (DomainNameExt : GoString) (EstimatedDomainAge : Int)
      (Ips : List GoString)
      (Custom1FieldName Custom1FieldValue : GoString)
      (Custom2FieldName Custom2FieldValue : GoString)
      (Custom3FieldName Custom3FieldValue : GoString)
      (DataError : GoString) (SubRecords : List WhoisRecord)

/-- ErrorMessage is an error message. -/
structure ErrorMessage where
  ErrorCode : GoString
  Message : GoString
  deriving DecidableEq

/-- Go `fmt.Sprintf("API error: [%s] %s", e.ErrorCode, e.Message)`. -/
def ErrorMessage.Error (e : ErrorMessage) : GoString :=
  lit "API error: [" ++ e.ErrorCode ++ lit "] " ++ e.Message

/-- ArgError is the argument error. -/
structure ArgError where
  Name : GoString
  Message : GoString
  deriving DecidableEq

/-- Error returns error message as a string. -/
def ArgError.Error (a : ArgError) : GoString :=
  lit "invalid argument: \"" ++ a.Name ++ lit "\" " ++ a.Message

/-- The values of Go's `error` interface that reach the callers of this package. -/
inductive Error where
  /-- `*ArgError` -/
  | argError (e : ArgError)
  /-- `ErrorMessage` -/
  | errorMessage (e : ErrorMessage)
  /-- `fmt.Errorf("cannot parse response: %w", err)` -/
  | cannotParse (err : Error)
  /-- the error of `checkResponse` for the status code `code` -/
  | statusCode (code : Int)
  /-- an error made outside these sources (transport, decoder), known by its text -/
  | foreign (text : GoString)
  deriving DecidableEq

/-- The method `Error()` of an error value. -/
def Error.Error : Error → GoString
  | .argError e => e.Error
  | .errorMessage e => e.Error
  | .cannotParse err => lit "cannot parse response: " ++ err.Error
  | .statusCode code => lit "API failed with status code: " ++ strconv.Itoa code
  | .foreign text => text

namespace http

/-- Go `http.Request`, as far as these sources touch it: the method, the URL without
its query, and `URL.RawQuery`. -/
structure Request where
  Method : GoString
  URL : GoString
  RawQuery : GoString
  deriving DecidableEq

/-- Go `http.Response`: the status code and the headers. -/
structure Response where
  StatusCode : Int
  Header : url.Values
  deriving DecidableEq

end http

/-- whoisApiResponse is used for parsing Whois API response as a model instance. -/
structure whoisApiResponse where
  WhoisRecord : Option WhoisRecord
  ErrorMessage : Option ErrorMessage

/-- The outcome of Go `decodeState.value` for one value: an error that ends the
decoding at once (the error of an `UnmarshalJSON` method), or the value stored, with the
first `UnmarshalTypeError` saved on the way, if there was one. -/
inductive Stored (α : Type) where
  | fatal (err : Error)
  | stored (value : α) (saved : Option Error)

/-- The parts of the Go library that are parameters of this development. -/
structure Runtime where
  /-- `strings.Map(unicode.ToUpper, s)` for a string with a byte outside ASCII -/
  upperUnicode : GoString → GoString
  /-- `decodeState.value` into the field `WhoisRecord` of the envelope for a value
  other than `null`: from the record the field points to so far, if any, and the text of
  the value -/
  unmarshalRecord : Option WhoisRecord → GoString → Stored WhoisRecord
  /-- the text of the `UnmarshalTypeError` for the text of a value that does not fit the
  field of the given path (the empty path is the envelope itself) -/
  typeErrorText : GoString → GoString → GoString
  /-- `foldName(key)` for an object key with a byte outside ASCII -/
  foldUnicode : GoString → GoString
  /-- the quoted form of a byte outside printable ASCII in the message of a
  `SyntaxError` of the JSON scanner -/
  quoteOther : Byte → GoString
  /-- the value of a JSON string literal with a `\u` escape or a byte outside ASCII, if
  the literal is well formed -/
  unquoteUnicode : GoString → Option GoString
  /-- the text of the error of `json.Unmarshal` into a string for a text it rejects -/
  jsonErrorText : GoString → GoString
  /-- the text of the `*time.ParseError` for a value that `time.Parse` rejects -/
  timeErrorText : GoString → GoString
  /-- the zone data of the host, `time.Local` -/
  localZone : time.LocalZone

/-- Go `decodeState.value` into a field of type `string`, `field` being the path of the
field: a string literal gives its value, `null` leaves the field as it is, and any other
value leaves the field and saves an `UnmarshalTypeError`. -/
def Runtime.storeString (rt : Runtime) (field : GoString) (prev : GoString) (value : GoString) :
    Stored GoString :=
  match value with
  | [] => .fatal (.foreign json.phasePanicMsg)
  | c :: _ =>
    if c = 34 then
      match json.unquoteLiteral rt.unquoteUnicode value with
      | some s => .stored s none
      | none => .fatal (.foreign json.phasePanicMsg)
    else if c = 110 then .stored prev none
    else .stored prev (some (.foreign (rt.typeErrorText value field)))

/-- The fields of `ErrorMessage`. -/
inductive ErrorMessageField where
  | ErrorCode
  | Message
  deriving DecidableEq, Repr

/-- The field of `ErrorMessage` that an object key names: the field whose JSON name
(`errorCode`, `msg`) is the key, or else the field whose folded name is the folded
key. -/
def Runtime.errorMessageField (rt : Runtime) (key : GoString) : Option ErrorMessageField :=
  if key = lit "errorCode" then some .ErrorCode
  else if key = lit "msg" then some .Message
  else if json.foldName rt.foldUnicode key = lit "ERRORCODE" then some .ErrorCode
  else if json.foldName rt.foldUnicode key = lit "MSG" then some .Message
  else none

/-- The loop of Go `decodeState.object` into an `ErrorMessage`: each member whose key
names a field is stored in that field, the other members are skipped; the first saved
error is kept. -/
def Runtime.storeErrorMessageMembers (rt : Runtime) :
    List (GoString × GoString) → ErrorMessage → Option Error → Stored ErrorMessage
  | [], e, saved => .stored e saved
  | (keyText, value) :: rest, e, saved =>
    match json.unquoteLiteral rt.unquoteUnicode keyText with
    | none => .fatal (.foreign json.phasePanicMsg)
    | some key =>
      match rt.errorMessageField key with
      | none => rt.storeErrorMessageMembers rest e saved
      | some .ErrorCode =>
        match rt.storeString (lit "ErrorMessage.errorCode") e.ErrorCode value with
        | .fatal err => .fatal err
        | .stored s sv =>
          rt.storeErrorMessageMembers rest { e with ErrorCode := s } (saved <|> sv)
      | some .Message =>
        match rt.storeString (lit "ErrorMessage.msg") e.Message value with
        | .fatal err => .fatal err
        | .stored s sv =>
          rt.storeErrorMessageMembers rest { e with Message := s } (saved <|> sv)

/-- Go `decodeState.value` into the field `ErrorMessage` of the envelope for a value
other than `null`, from the message the field points to so far, if any (a new
`ErrorMessage` is made when there is none): an object is stored member by member, and
any other value saves an `UnmarshalTypeError`. -/
def Runtime.unmarshalErrorMessage (rt : Runtime) (prev : Option ErrorMessage)
    (value : GoString) : Stored ErrorMessage :=
  match value with
  | [] => .fatal (.foreign json.phasePanicMsg)
  | c :: rest =>
    if c = 123 then
      match json.members rest with
      | none => .fatal (.foreign json.phasePanicMsg)
      | some ms =>
        rt.storeErrorMessageMembers ms (prev.getD { ErrorCode := [], Message := [] }) none
    else
      .stored (prev.getD { ErrorCode := [], Message := [] })
        (some (.foreign (rt.typeErrorText value (lit "ErrorMessage"))))

/-- The fields of `whoisApiResponse`. -/
inductive EnvelopeField where
  | WhoisRecord
  | ErrorMessage
  deriving DecidableEq, Repr

/-- The field of `whoisApiResponse` that an object key names: the field whose JSON name
(`WhoisRecord`, `ErrorMessage`) is the key, or else the field whose folded name is the
folded key, so that a key names a field whatever the case of its letters. -/
def Runtime.envelopeField (rt : Runtime) (key : GoString) : Option EnvelopeField :=
  if key = lit "WhoisRecord" then some .WhoisRecord
  else if key = lit "ErrorMessage" then some .ErrorMessage
  else if json.foldName rt.foldUnicode key = lit "WHOISRECORD" then some .WhoisRecord
  else if json.foldName rt.foldUnicode key = lit "ERRORMESSAGE" then some .ErrorMessage
  else none

/-- The loop of Go `decodeState.object` into a `whoisApiResponse`, followed by the end
of `decodeState.unmarshal`: each member whose key names a field is stored in that field
(`null` makes the pointer nil), the other members are skipped; a fatal error ends the
decoding, and at the end the first saved error, if any, is the error of the decoding. -/
def Runtime.storeEnvelopeMembers (rt : Runtime) :
    List (GoString × GoString) → whoisApiResponse → Option Error → Except Error whoisApiResponse
  | [], r, none => .ok r
  | [], _, some err => .error err
  | (keyText, value) :: rest, r, saved =>
    match json.unquoteLiteral rt.unquoteUnicode keyText with
    | none => .error (.foreign json.phasePanicMsg)
    | some key =>
      match rt.envelopeField key with
      | none => rt.storeEnvelopeMembers rest r saved
      | some .WhoisRecord =>
        if value.head? = some 110 then
          rt.storeEnvelopeMembers rest { r with WhoisRecord := none } saved
        else
          match rt.unmarshalRecord r.WhoisRecord value with
          | .fatal err => .error err
          | .stored v sv =>
            rt.storeEnvelopeMembers rest { r with WhoisRecord := some v } (saved <|> sv)
      | some .ErrorMessage =>
        if value.head? = some 110 then
          rt.storeEnvelopeMembers rest { r with ErrorMessage := none } saved
        else
          match rt.unmarshalErrorMessage r.ErrorMessage value with
          | .fatal err => .error err
          | .stored v sv =>
            rt.storeEnvelopeMembers rest { r with ErrorMessage := some v } (saved <|> sv)

/-- The second half of Go `Decoder.Decode(&response)` for a `whoisApiResponse`, which
starts as the zero value: `decodeState.unmarshal` on the text of one well-formed JSON
value. An object is stored member by member, `null` leaves the envelope as it is, and
any other value is an `UnmarshalTypeError`. -/
def Runtime.unmarshalEnvelope (rt : Runtime) (raw : GoString) : Except Error whoisApiResponse :=
  match json.trimLeft raw with
  | [] => .error (.foreign json.phasePanicMsg)
  | c :: rest =>
    if c = 123 then
      match json.members rest with
      | none => .error (.foreign json.phasePanicMsg)
      | some ms => rt.storeEnvelopeMembers ms { WhoisRecord := none, ErrorMessage := none } none
    else if c = 110 then .ok { WhoisRecord := none, ErrorMessage := none }
    else .error (.foreign (rt.typeErrorText (c :: rest) []))

/-- Go `json.NewDecoder(bytes.NewReader(raw)).Decode(&response)` for a
`whoisApiResponse`: `readValue` finds the first JSON value of the input, which is then
unmarshalled; what follows the value in the input is not read. -/
def Runtime.decode (rt : Runtime) (raw : GoString) : Except Error whoisApiResponse :=
  match json.readValue raw with
  | .value n => rt.unmarshalEnvelope (raw.take n)
  | .syntaxError none => .error (.foreign [])
  | .syntaxError (some err) => .error (.foreign (err.Error rt.quoteOther))
  | .eof => .error (.foreign (lit "EOF"))
  | .unexpectedEOF => .error (.foreign (lit "unexpected EOF"))

/-! ## models.go: the timestamps -/

/-- unmarshalString parses the JSON-encoded data and returns value as a string. -/
def unmarshalString (rt : Runtime) (raw : GoString) : Except Error GoString :=
  match json.unmarshalToString rt.unquoteUnicode raw with
  | none => .error (.foreign (rt.jsonErrorText raw))
  | some val => .ok val

/-- UnmarshalJSON decodes time as Whois API does: the value of the target `t` after
the call, and the error. -/
def Time.UnmarshalJSON (rt : Runtime) (t : Time) (b : GoString) : Time × Option Error :=
  match unmarshalString rt b with
  | .error err => (t, some err)
  | .ok str =>
    if str = [] then (emptyTime, none)
    else
      match time.Parse rt.localZone str with
      | none => (t, some (.foreign (rt.timeErrorText str)))
      | some v => (v, none)

/-- MarshalJSON encodes time as Whois API does. -/
def Time.MarshalJSON (rt : Runtime) (t : Time) : GoString × Option Error :=
  if t = emptyTime then (lit "\"\"", none)
  else ((34 : Byte) :: time.Format rt.localZone t ++ [(34 : Byte)], none)

/-- Modelled from the spec: the outcome of `Client.Do` (client.go is not among the
sources). The call issues the request and reads the whole body into the buffer: either
the transport fails (no response, or a response whose body could not be read to the
end, with whatever was written) or a response is delivered with its complete body. -/
inductive DoResult where
  | failure (resp : Option http.Response) (written : GoString) (err : Error)
  | success (resp : http.Response) (body : GoString)

/-- Modelled from the spec: the type `Client` of client.go, which is not among the
sources: the API key fixed at construction, the request constructor `NewRequest`
(method and base endpoint to a request, or a construction error) and the transport
`Do`. -/
structure Client where
  apiKey : GoString
  NewRequest : GoString → GoString → Except Error http.Request
  Do : http.Request → DoResult

/-- Modelled from the spec: `checkResponse` of client.go, which is not among the
sources: "if its status code is outside the 200-299 range, produce a status-code error
naming the exact numeric code; otherwise succeed silently". -/
def checkResponse (r : http.Response) : Option Error :=
  if 200 ≤ r.StatusCode ∧ r.StatusCode ≤ 299 then none else some (.statusCode r.StatusCode)

/-! ## options.go -/

/-- Option adds parameters to the query (Go type `Option`, `func(v url.Values)`; the
map is updated in place, here the updated map is returned). -/
abbrev QueryOption := url.Values → url.Values

/-- OptionOutputFormat to set Response output format JSON | XML. -/
def OptionOutputFormat (rt : Runtime) (outputFormat : GoString) : QueryOption :=
  fun v => url.Values.Set v (lit "outputFormat") (strings.ToUpper rt.upperUnicode outputFormat)

/-- OptionPreferFresh to set parameter for getting the latest WHOIS record. -/
def OptionPreferFresh (value : Int) : QueryOption :=
  fun v => url.Values.Set v (lit "preferFresh") (strconv.Itoa value)

/-- OptionDA to set parameter for a quick check on domain availability. -/
def OptionDA (value : Int) : QueryOption :=
  fun v => url.Values.Set v (lit "da") (strconv.Itoa value)

/-- OptionIP to set parameter for returning IPs for the domain name. -/
def OptionIP (value : Int) : QueryOption :=
  fun v => url.Values.Set v (lit "ip") (strconv.Itoa value)

/-- OptionIPWhois to set parameter for returning the WHOIS record for the hosting IP. -/
def OptionIPWhois (value : Int) : QueryOption :=
  fun v => url.Values.Set v (lit "ipWhois") (strconv.Itoa value)

/-- OptionCheckProxyData to set parameter for fetching proxy/WHOIS guard data. -/
def OptionCheckProxyData (value : Int) : QueryOption :=
  fun v => url.Values.Set v (lit "checkProxyData") (strconv.Itoa value)

/-- OptionThinWhois to set parameter for returning WHOIS data from registry only. -/
def OptionThinWhois (value : Int) : QueryOption :=
  fun v => url.Values.Set v (lit "thinWhois") (strconv.Itoa value)

/-- OptionIgnoreRawTexts to set parameter for stripping all raw text from the output. -/
def OptionIgnoreRawTexts (value : Int) : QueryOption :=
  fun v => url.Values.Set v (lit "ignoreRawTexts") (strconv.Itoa value)

/-! ## whoisapi.go -/

/-- Response is the http.Response wrapper with Body saved as a byte slice. -/
structure Response where
  Response : Option http.Response
  Body : GoString
  deriving DecidableEq

/-- whoisApiServiceOp is the type implementing the WhoisService interface. -/
structure whoisApiServiceOp where
  client : Client
  baseURL : GoString

/-- What a call does besides returning: the calls of `Client.NewRequest`, the
applications of an option to the query (with the position of the option in the list) and
the calls of `Client.Do` with the request handed to the transport. -/
inductive Event where
  | newRequest
  | applied (index : Nat)
  | sent (req : http.Request)
  deriving DecidableEq

/-- The transport calls recorded in a trace. -/
def transportCalls : List Event → List http.Request
  | [] => []
  | .sent req :: rest => req :: transportCalls rest
  | _ :: rest => transportCalls rest

/-- The number of option applications recorded in a trace. -/
def optionCalls : List Event → Nat
  | [] => 0
  | .applied _ :: rest => optionCalls rest + 1
  | _ :: rest => optionCalls rest

/-- newRequest creates the API request with default parameters and the specified
apiKey. -/
def whoisApiServiceOp.newRequest (service : whoisApiServiceOp) : Except Error http.Request :=
  match service.client.NewRequest (lit "GET") service.baseURL with
  | .error err => .error err
  | .ok req =>
    let query := url.Values.Set [] (lit "apiKey") service.client.apiKey
    .ok { req with RawQuery := url.Values.Encode query }

/-- The loop `for _, opt := range opts { opt(q) }`. -/
def applyOptions (opts : List QueryOption) (q : url.Values) : url.Values :=
  opts.foldl (fun acc opt => opt acc) q

/-- The query of `request` after the loop over the options, for the request `req`
returned by `newRequest`. -/
def requestQuery (req : http.Request) (name : GoString) (opts : List QueryOption) : url.Values :=
  applyOptions opts (url.Values.Set (url.ParseQuery req.RawQuery) (lit "domainName") name)

/-- request returns intermediate Whois API response for further actions: the pair
`(*Response, error)` and the trace of the call. -/
def whoisApiServiceOp.request (service : whoisApiServiceOp) (name : GoString)
    (opts : List QueryOption) : (Option Response × Option Error) × List Event :=
  if name = [] then
    ((none, some (.argError { Name := lit "name", Message := lit "cannot be empty" })), [])
  else
    match service.newRequest with
    | .error err => ((none, some err), [.newRequest])
    | .ok req =>
      let q := requestQuery req name opts
      let req1 : http.Request := { req with RawQuery := url.Values.Encode q }
      let trace := .newRequest :: ((List.range opts.length).map Event.applied ++ [.sent req1])
      match service.client.Do req1 with
      | .failure resp b err => ((some { Response := resp, Body := b }, some err), trace)
      | .success resp b => ((some { Response := some resp, Body := b }, none), trace)

/-- parse parses raw Whois API response. -/
def parse (rt : Runtime) (raw : GoString) : Except Error whoisApiResponse :=
  match rt.decode raw with
  | .error err => .error (.cannotParse err)
  | .ok response => .ok response

/-- Data returns parsed Whois record: the triple `(*WhoisRecord, *Response, error)`
and the trace of the call. (`request` returns a response whenever it returns no error;
the branch without one stands for the nil dereference of `resp.Body`.) -/
def whoisApiServiceOp.Data (rt : Runtime) (service : whoisApiServiceOp) (name : GoString)
    (opts : List QueryOption) :
    (Option WhoisRecord × Option Response × Option Error) × List Event :=
  let optsJson := opts ++ [OptionOutputFormat rt (lit "JSON")]
  let r := service.request name optsJson
  match r.1.2 with
  | some err => ((none, r.1.1, some err), r.2)
  | none =>
    match r.1.1 with
    | none => ((none, none, none), r.2)
    | some resp =>
      match parse rt resp.Body with
      | .error err => ((none, some resp, some err), r.2)
      | .ok whoisResp =>
        match whoisResp.ErrorMessage with
        | some em =>
          ((none, none, some (.errorMessage { ErrorCode := em.ErrorCode, Message := em.Message })),
            r.2)
        | none => ((whoisResp.WhoisRecord, some resp, none), r.2)

/-- RawData returns raw Whois API response as Response struct with Body saved as a byte
slice: the pair `(*Response, error)` and the trace of the call. (`request` returns a
response that wraps an `http.Response` whenever it returns no error; the branches
without one stand for the nil dereference in `checkResponse(resp.Response)`.) -/
def whoisApiServiceOp.RawData (service : whoisApiServiceOp) (name : GoString)
    (opts : List QueryOption) : (Option Response × Option Error) × List Event :=
  let r := service.request name opts
  match r.1.2 with
  | some err => ((r.1.1, some err), r.2)
  | none =>
    match r.1.1 with
    | none => ((none, none), r.2)
    | some resp =>
      match resp.Response with
      | none => ((some resp, none), r.2)
      | some httpResp =>
        match checkResponse httpResp with
        | some respErr => ((some resp, some respErr), r.2)
        | none => ((some resp, none), r.2)

/-! ## Auxiliary definitions for the statements -/

namespace url

/-- The piece `key=value` that `Encode` writes for one value of a key. -/
def encPair (p : GoString × GoString) : GoString :=
  QueryEscape p.1 ++ (61 : Byte) :: QueryEscape p.2

/-- The values that the pieces `ps` carry for the key `key`, in order. -/
def valuesOf (key : GoString) (ps : List (GoString × GoString)) : List GoString :=
  (ps.filter (fun p => decide (p.1 = key))).map (fun p => p.2)

/-- The pairs `(key, value)` that `Encode` writes, in order. -/
def piecesOf (v : Values) : List (GoString × GoString) :=
  (sortedKeys v).flatMap (fun k => ((Values.Get v k).getD []).map (fun x => (k, x)))

end url

/-- An option built by one of the eight constructors of options.go, with its
argument. -/
inductive BuiltOption where
  | outputFormat (outputFormat : GoString)
  | preferFresh (value : Int)
  | da (value : Int)
  | ip (value : Int)
  | ipWhois (value : Int)
  | checkProxyData (value : Int)
  | thinWhois (value : Int)
  | ignoreRawTexts (value : Int)

/-- The option that the constructor returns. -/
def BuiltOption.toOption (rt : Runtime) : BuiltOption → QueryOption
  | .outputFormat s => OptionOutputFormat rt s
  | .preferFresh n => OptionPreferFresh n
  | .da n => OptionDA n
  | .ip n => OptionIP n
  | .ipWhois n => OptionIPWhois n
  | .checkProxyData n => OptionCheckProxyData n
  | .thinWhois n => OptionThinWhois n
  | .ignoreRawTexts n => OptionIgnoreRawTexts n

/-- The parameter name that the option targets. -/
def BuiltOption.key : BuiltOption → GoString
  | .outputFormat _ => lit "outputFormat"
  | .preferFresh _ => lit "preferFresh"
  | .da _ => lit "da"
  | .ip _ => lit "ip"
  | .ipWhois _ => lit "ipWhois"
  | .checkProxyData _ => lit "checkProxyData"
  | .thinWhois _ => lit "thinWhois"
  | .ignoreRawTexts _ => lit "ignoreRawTexts"

/-- The value that the option writes: the upper-cased format, or the decimal string of
the integer. -/
def BuiltOption.value (rt : Runtime) : BuiltOption → GoString
  | .outputFormat s => strings.ToUpper rt.upperUnicode s
  | .preferFresh n => strconv.Itoa n
  | .da n => strconv.Itoa n
  | .ip n => strconv.Itoa n
  | .ipWhois n => strconv.Itoa n
  | .checkProxyData n => strconv.Itoa n
  | .thinWhois n => strconv.Itoa n
  | .ignoreRawTexts n => strconv.Itoa n

/-- The value written by the last option of the list that targets the parameter `k`,
if there is one. -/
def lastWrite (rt : Runtime) (k : GoString) : List BuiltOption → Option GoString
  | [] => none
  | o :: rest =>
    match lastWrite rt k rest with
    | some x => some x
    | none => if o.key = k then some (o.value rt) else none

/-- The error payload of the tests of these sources (`errResp`), byte for byte. -/
def sampleErrorBody : GoString :=
  lit "\x7b\"ErrorMessage\": \x7b\n  \"errorCode\": \"WHOIS_00\",\n  \"msg\": \"test error message\"\n\x7d\x7d"

/-- The zero value of `Contact`. -/
def zeroContact : Contact :=
  { Name := [], Organization := [], Street1 := [], Street2 := [], Street3 := [], Street4 := [],
    City := [], State := [], PostalCode := [], Country := [], CountryCode := [], Email := [],
    Telephone := [], TelephoneExt := [], Fax := [], FaxExt := [], RawText := [],
    Unparsable := [] }

/-- The `baseWhoisRecord` with the given domain name and the zero value in every other
field. -/
def sampleBase (domainName : GoString) : baseWhoisRecord :=
  { DomainName := domainName, CreatedDateNormalized := emptyTime,
    UpdatedDateNormalized := emptyTime, ExpiresDateNormalized := emptyTime,
    CreatedDate := [], UpdatedDate := [], ExpiresDate := [],
    Audit := { CreatedDate := emptyTime, UpdatedDate := emptyTime },
    NameServers := { RawText := [], HostNames := [], Ips := [] },
    RegistrarName := [], RegistrarIANAID := [], Status := [], RawText := [], ParseCode := 0,
    Registrant := zeroContact, AdministrativeContact := zeroContact,
    TechnicalContact := zeroContact, BillingContact := zeroContact, ZoneContact := zeroContact,
    Header := [], Footer := [], StrippedText := [] }

/-- The zero value of `WhoisRecord`. -/
def zeroRecord : WhoisRecord :=
  .mk (sampleBase [])
    { base := sampleBase [], WhoisServer := [], ReferralURL := [] }
    [] [] [] 0 [] [] [] [] [] [] [] [] []

/-- The record of the payload `sampleRecordBody`: the zero value but for the domain
name. -/
def sampleRecord : WhoisRecord :=
  .mk (sampleBase (lit "whoisxmlapi.com"))
    { base := sampleBase [], WhoisServer := [], ReferralURL := [] }
    [] [] [] 0 [] [] [] [] [] [] [] [] []

/-- A success payload. -/
def sampleRecordBody : GoString :=
  lit "\x7b\"WhoisRecord\": \x7b\"domainName\": \"whoisxmlapi.com\"\x7d\x7d"

/-- A runtime for the examples: the local zone is UTC and knows no other abbreviation;
string literals with `\\u` escapes or bytes outside ASCII are rejected, and upper-casing
and folding leave a string with a byte outside ASCII as it is. Of the values of the key
`WhoisRecord` it knows two: the empty object leaves the record as it is (the zero value
when there is none), and the object of `sampleRecordBody`, stored where there is no
record yet, gives `sampleRecord`; any other value does not fit. -/
def sampleRuntime : Runtime where
  unquoteUnicode := fun _ => none
  jsonErrorText := fun _ => lit "invalid character"
  timeErrorText := fun _ => lit "parsing time"
  localZone := { lookup := fun _ => (lit "UTC", 0), lookupName := fun _ _ => none }
  upperUnicode := fun s => s
  foldUnicode := fun s => s
  quoteOther := fun _ => lit "'?'"
  typeErrorText := fun _ _ => lit "json: cannot unmarshal"
  unmarshalRecord := fun prev value =>
    if value = lit "\x7b\x7d" then .stored (prev.getD zeroRecord) none
    else if prev.isNone ∧ value = lit "\x7b\"domainName\": \"whoisxmlapi.com\"\x7d" then
      .stored sampleRecord none
    else .stored (prev.getD zeroRecord) (some (.foreign (lit "json: cannot unmarshal")))

/-- A service for the examples: every request is built, and the transport delivers
the given status with the given body. -/
def sampleService (status : Int) (body : GoString) : whoisApiServiceOp where
  client :=
    { apiKey := lit "at_key"
      NewRequest := fun method u => .ok { Method := method, URL := u, RawQuery := [] }
      Do := fun _ => .success { StatusCode := status, Header := [] } body }
  baseURL := lit "https://www.whoisxmlapi.com/whoisserver/WhoisService"

/-- The request that `newRequest` returns for `sampleService`. -/
def sampleRequest : http.Request where
  Method := lit "GET"
  URL := lit "https://www.whoisxmlapi.com/whoisserver/WhoisService"
  RawQuery := lit "apiKey=at_key"

namespace json

/-- The scanner is outside every bracket and past the first byte of the top-level
value. -/
def Scanner.Scalar (s : Scanner) : Prop :=
  s.parseState = [] ∧ s.step ≠ .beginValue ∧ s.step ≠ .beginValueOrEmpty ∧
    s.step ≠ .beginStringOrEmpty ∧ s.step ≠ .beginString

end json

/-! ### timestamps of the form `YYYY-MM-DD HH:MM:SS ZONE` -/

/-- Two decimal digits. -/
def twoDigits (n : Nat) : GoString :=
  [Fin.ofNat (48 + n / 10 % 10), Fin.ofNat (48 + n % 10)]

/-- Four decimal digits. -/
def fourDigits (n : Nat) : GoString :=
  [Fin.ofNat (48 + n / 1000 % 10), Fin.ofNat (48 + n / 100 % 10), Fin.ofNat (48 + n / 10 % 10),
    Fin.ofNat (48 + n % 10)]

/-- The fields of a timestamp `YYYY-MM-DD HH:MM:SS ZONE`. -/
structure Stamp where
  year : Nat
  month : Nat
  day : Nat
  hour : Nat
  min : Nat
  sec : Nat
  zone : GoString

/-- The text `YYYY-MM-DD HH:MM:SS ZONE` of a timestamp. -/
def Stamp.render (s : Stamp) : GoString :=
  fourDigits s.year ++ (45 : Byte) :: twoDigits s.month ++ (45 : Byte) :: twoDigits s.day ++
    (32 : Byte) :: twoDigits s.hour ++ (58 : Byte) :: twoDigits s.min ++ (58 : Byte) ::
    twoDigits s.sec ++ (32 : Byte) :: s.zone

/-- A valid timestamp: a year of four digits, a month from 1 to 12, a day of that
month, an hour below 24, a minute and a second below 60, and a zone that is `UTC` or
another text that `parseTimeZone` reads as one abbreviation, from its first byte to its
last. -/
def Stamp.Valid (s : Stamp) : Prop :=
  s.year ≤ 9999 ∧ 1 ≤ s.month ∧ s.month ≤ 12 ∧ 1 ≤ s.day ∧ s.day ≤ time.daysIn s.month s.year ∧
  s.hour < 24 ∧ s.min < 60 ∧ s.sec < 60 ∧
  (s.zone = lit "UTC" ∨
    (s.zone.take 3 ≠ lit "UTC" ∧ time.parseTimeZone s.zone = some s.zone.length))

/-- The time that the fields of the timestamp give when read as UTC. -/
def Stamp.utcReading (s : Stamp) : time.Time :=
  time.Date s.year s.month s.day s.hour s.min s.sec 0

/-- The zone of the timestamp reads back: it is `UTC`; or the local zone knows the
abbreviation and, at the instant it gives, has that abbreviation in effect with the
same offset; or the local zone does not know the abbreviation and the zone made up for
it has the offset zero (it is not a `GMT` zone with hours other than zero). -/
def Stamp.ZoneReadsBack (localZone : time.LocalZone) (s : Stamp) : Prop :=
  s.zone = lit "UTC" ∨
    match localZone.lookupName s.zone (s.utcReading.ext - time.unixToInternal) with
    | some offset =>
      localZone.lookup (s.utcReading.ext - offset - time.unixToInternal) = (s.zone, offset)
    | none => time.madeUpOffset s.zone = 0

/-- A fractional second as `time.Parse` reads it after the seconds: nothing, or a period
or a comma followed by one digit or more. -/
def isFraction (f : GoString) : Bool :=
  match f with
  | [] => true
  | p :: ds => (decide (p = 46) || decide (p = 44)) && !ds.isEmpty && ds.all time.isDigitByte

/-- A timestamp written with the liberties that `time.Parse` allows for the layout
`2006-01-02 15:04:05 MST`: the fields of a timestamp; whether the hour is written with
one digit; the number of further spaces between the date and the clock, and between the
clock and the zone; and the fractional second written after the seconds. -/
structure LooseStamp where
  stamp : Stamp
  shortHour : Bool
  gap1 : Nat
  gap2 : Nat
  fraction : GoString

/-- The hour as it is written: with one digit or with two. -/
def LooseStamp.hourText (s : LooseStamp) : GoString :=
  if s.shortHour = true then [Fin.ofNat (48 + s.stamp.hour % 10)] else twoDigits s.stamp.hour

/-- The text of the timestamp; without liberties it is `YYYY-MM-DD HH:MM:SS ZONE`. -/
def LooseStamp.render (s : LooseStamp) : GoString :=
  fourDigits s.stamp.year ++ (45 : Byte) :: twoDigits s.stamp.month ++ (45 : Byte) ::
    twoDigits s.stamp.day ++ (32 : Byte) :: List.replicate s.gap1 (32 : Byte) ++ s.hourText ++
    (58 : Byte) :: twoDigits s.stamp.min ++ (58 : Byte) :: twoDigits s.stamp.sec ++ s.fraction ++
    (32 : Byte) :: List.replicate s.gap2 (32 : Byte) ++ s.stamp.zone

/-- The fields are those of a valid timestamp, an hour written with one digit is below
ten, and the fraction is a fractional second. -/
def LooseStamp.Valid (s : LooseStamp) : Prop :=
  s.stamp.Valid ∧ (s.shortHour = true → s.stamp.hour < 10) ∧ isFraction s.fraction = true

/-- A JSON string literal for a text without quotes, backslashes and control
characters. -/
def quoted (s : GoString) : GoString := (34 : Byte) :: s ++ [(34 : Byte)]

/-- The members of the object that the decoder reads from the body: the body begins,
after white space, with a well-formed JSON object, which is the first value of the body,
and these are its keys, as they are written, with the texts of their values. -/
def objectMembers (body : GoString) : Option (List (GoString × GoString)) :=
  match json.readValue body with
  | .value n =>
    match json.trimLeft (body.take n) with
    | [] => none
    | c :: rest => if c = 123 then json.members rest else none
  | _ => none

/-- The member of an object leaves the envelope as it is: its key names neither
`WhoisRecord` nor `ErrorMessage`, or its value is `null`. -/
def Runtime.LeavesEnvelope (rt : Runtime) (m : GoString × GoString) : Prop :=
  ∃ key, json.unquoteLiteral rt.unquoteUnicode m.1 = some key ∧
    (rt.envelopeField key = none ∨ m.2 = lit "null")

/-- A byte that stands for itself in a JSON string literal: printable ASCII other than
the quote and the backslash. -/
def plainByte (c : Byte) : Bool := decide (32 ≤ c.val ∧ c.val < 128 ∧ c ≠ 34 ∧ c ≠ 92)

/-! # Properties

## net/url: reading back an encoded query -/

namespace url

set_option maxRecDepth 100000 in
theorem unhex_upperhex (b : Byte) :
    (Fin.ofNat (unhex (upperhex (b.val / 16)) * 16 + unhex (upperhex (b.val % 16))) : Byte) = b := by
  revert b; decide

set_option maxRecDepth 100000 in
theorem ishex_upperhex (b : Byte) :
    ishex (upperhex (b.val / 16)) = true ∧ ishex (upperhex (b.val % 16)) = true := by
  revert b; decide

set_option maxRecDepth 100000 in
theorem plain_of_not_shouldEscape (c : Byte) (h : shouldEscape c = false) :
    c ≠ 37 ∧ c ≠ 43 ∧ c ≠ 32 ∧ c ≠ 38 ∧ c ≠ 59 ∧ c ≠ 61 := by
  revert c; decide

theorem QueryUnescape_QueryEscape (s : GoString) : QueryUnescape (QueryEscape s) = some s := by
  induction s with
  | nil => rfl
  | cons c rest ih =>
    unfold QueryEscape
    by_cases h32 : c = 32
    · subst h32
      rw [if_pos rfl, QueryUnescape.eq_def]
      simp [ih]
    · rw [if_neg h32]
      cases hs : shouldEscape c with
      | true =>
        have h1 := ishex_upperhex c
        have h2 := unhex_upperhex c
        rw [QueryUnescape.eq_def]
        simp [h1.1, h1.2, ih, h2]
      | false =>
        have hp := plain_of_not_shouldEscape c hs
        rw [QueryUnescape.eq_def]
        simp [hp.1, hp.2.1, ih]


set_option maxRecDepth 100000 in
theorem upperhex_safe (b : Byte) :
    (upperhex (b.val / 16) ≠ 38 ∧ upperhex (b.val / 16) ≠ 59 ∧ upperhex (b.val / 16) ≠ 61) ∧
    (upperhex (b.val % 16) ≠ 38 ∧ upperhex (b.val % 16) ≠ 59 ∧ upperhex (b.val % 16) ≠ 61) := by
  revert b; decide

theorem QueryEscape_safe (s : GoString) :
    ∀ c ∈ QueryEscape s, c ≠ 38 ∧ c ≠ 59 ∧ c ≠ 61 := by
  induction s with
  | nil => intro c hc; simp [QueryEscape] at hc
  | cons a rest ih =>
    intro c hc
    unfold QueryEscape at hc
    by_cases h32 : a = 32
    · rw [if_pos h32] at hc
      rcases List.mem_cons.mp hc with h | h
      · subst h; decide
      · exact ih c h
    · rw [if_neg h32] at hc
      cases hs : shouldEscape a with
      | true =>
        simp only [hs, if_true, List.mem_cons] at hc
        have hu := upperhex_safe a
        rcases hc with h | h | h | h
        · subst h; decide
        · subst h; exact hu.1
        · subst h; exact hu.2
        · exact ih c h
      | false =>
        have hp := plain_of_not_shouldEscape a hs
        simp only [hs, Bool.false_eq_true, if_false, List.mem_cons] at hc
        rcases hc with h | h
        · rw [h]; exact ⟨hp.2.2.2.1, hp.2.2.2.2.1, hp.2.2.2.2.2⟩
        · exact ih c h

theorem cut_append (sep : Byte) (a b : GoString) (h : sep ∉ a) :
    cut sep (a ++ sep :: b) = (a, b) := by
  induction a with
  | nil => simp [cut]
  | cons c rest ih =>
    have hc : c ≠ sep := fun e => h (by simp [e])
    have hr : sep ∉ rest := fun e => h (by simp [e])
    simp [cut, hc, ih hr]

theorem cut_absent (sep : Byte) (a : GoString) (h : sep ∉ a) : cut sep a = (a, []) := by
  induction a with
  | nil => simp [cut]
  | cons c rest ih =>
    have hc : c ≠ sep := fun e => h (by simp [e])
    have hr : sep ∉ rest := fun e => h (by simp [e])
    simp [cut, hc, ih hr]

theorem encPair_ne_nil (p : GoString × GoString) : encPair p ≠ [] := by
  simp [encPair]

theorem encPair_no_amp (p : GoString × GoString) : (38 : Byte) ∉ encPair p := by
  intro h
  simp only [encPair, List.mem_append, List.mem_cons] at h
  rcases h with h | h | h
  · exact (QueryEscape_safe p.1 _ h).1 rfl
  · exact absurd h (by decide)
  · exact (QueryEscape_safe p.2 _ h).1 rfl

theorem encPair_no_semicolon (p : GoString × GoString) : (encPair p).contains (59 : Byte) = false := by
  rw [Bool.eq_false_iff]
  intro h
  have h := List.mem_of_elem_eq_true h
  simp only [encPair, List.mem_append, List.mem_cons] at h
  rcases h with h | h | h
  · exact (QueryEscape_safe p.1 _ h).2.1 rfl
  · exact absurd h (by decide)
  · exact (QueryEscape_safe p.2 _ h).2.1 rfl

theorem cut_encPair (p : GoString × GoString) :
    cut 61 (encPair p) = (QueryEscape p.1, QueryEscape p.2) :=
  cut_append 61 _ _ (fun h => (QueryEscape_safe p.1 _ h).2.2 rfl)

theorem parseQueryLoop_nil (fuel : Nat) (m : Values) : parseQueryLoop fuel m [] = m := by
  cases fuel <;> simp [parseQueryLoop]

theorem parseQueryLoop_piece (fuel : Nat) (m : Values) (p : GoString × GoString) (rest : GoString)
    (h : cut 38 (encPair p ++ rest) = (encPair p, (cut 38 (encPair p ++ rest)).2)) :
    parseQueryLoop (fuel + 1) m (encPair p ++ rest) =
      parseQueryLoop fuel (Values.Add m p.1 p.2) (cut 38 (encPair p ++ rest)).2 := by
  have hne : encPair p ++ rest ≠ [] := by simp [encPair]
  have h1 : (cut 38 (encPair p ++ rest)).1 = encPair p := by rw [h]
  rw [parseQueryLoop]
  simp only [hne, if_false, h1, encPair_no_semicolon, encPair_ne_nil, cut_encPair,
    QueryUnescape_QueryEscape]
  simp


theorem joinAmp_cons_cons (p q : GoString) (rest : List GoString) :
    joinAmp (p :: q :: rest) = p ++ (38 : Byte) :: joinAmp (q :: rest) := rfl

theorem parseQueryLoop_joinAmp (ps : List (GoString × GoString)) :
    ∀ (fuel : Nat) (m : Values), ps.length < fuel →
      parseQueryLoop fuel m (joinAmp (ps.map encPair)) =
        ps.foldl (fun acc p => Values.Add acc p.1 p.2) m := by
  induction ps with
  | nil => intro fuel m _; simp [joinAmp, parseQueryLoop_nil]
  | cons p rest ih =>
    intro fuel m hf
    cases fuel with
    | zero => simp at hf
    | succ fuel =>
      have hf1 : rest.length < fuel := by simpa using hf
      cases rest with
      | nil =>
        have hcut : cut 38 (encPair p ++ []) = (encPair p, []) := by
          rw [List.append_nil]; exact cut_absent 38 _ (encPair_no_amp p)
        have h := parseQueryLoop_piece fuel m p [] (by rw [hcut])
        rw [hcut, List.append_nil] at h
        simp [joinAmp, h, parseQueryLoop_nil]
      | cons q rest2 =>
        have hcut : cut 38 (encPair p ++ (38 : Byte) :: joinAmp ((q :: rest2).map encPair)) =
            (encPair p, joinAmp ((q :: rest2).map encPair)) :=
          cut_append 38 _ _ (encPair_no_amp p)
        have h := parseQueryLoop_piece fuel m p ((38 : Byte) :: joinAmp ((q :: rest2).map encPair))
          (by rw [hcut])
        rw [hcut] at h
        have e : joinAmp ((p :: q :: rest2).map encPair) =
            encPair p ++ (38 : Byte) :: joinAmp ((q :: rest2).map encPair) := rfl
        rw [e, h, ih fuel _ hf1]
        rfl

theorem length_le_joinAmp (ps : List (GoString × GoString)) :
    ps.length ≤ (joinAmp (ps.map encPair)).length := by
  induction ps with
  | nil => simp [joinAmp]
  | cons p rest ih =>
    have hp : 0 < (encPair p).length := List.length_pos.mpr (encPair_ne_nil p)
    cases rest with
    | nil => simp [joinAmp]; omega
    | cons q rest2 =>
      have e : joinAmp ((p :: q :: rest2).map encPair) =
          encPair p ++ (38 : Byte) :: joinAmp ((q :: rest2).map encPair) := rfl
      rw [e]
      simp only [List.length_append, List.length_cons] at ih ⊢
      omega

theorem ParseQuery_joinAmp (ps : List (GoString × GoString)) :
    ParseQuery (joinAmp (ps.map encPair)) =
      ps.foldl (fun acc p => Values.Add acc p.1 p.2) [] :=
  parseQueryLoop_joinAmp ps _ [] (Nat.lt_succ_of_le (length_le_joinAmp ps))

/-! ### the map operations -/

theorem Get_Del (v : Values) (k key : GoString) :
    Values.Get (Values.Del v k) key = if key = k then none else Values.Get v key := by
  induction v with
  | nil => simp [Values.Del, Values.Get]
  | cons e rest ih =>
    obtain ⟨a, vs⟩ := e
    simp only [Values.Del] at ih ⊢
    by_cases ha : a = k
    · subst ha
      simp only [List.filter_cons, ne_eq, not_true_eq_false, decide_False, Bool.false_eq_true,
        if_false, ih, Values.Get]
      by_cases hk : key = a
      · simp [hk]
      · have : ¬ a = key := fun e => hk e.symm
        simp [hk, this]
    · simp only [List.filter_cons, ne_eq, ha, not_false_eq_true, decide_True, if_true, Values.Get,
        ih]
      by_cases hk : key = k
      · subst hk; simp [ha]
      · simp [hk]

theorem Get_Set (v : Values) (k x key : GoString) :
    Values.Get (Values.Set v k x) key = if key = k then some [x] else Values.Get v key := by
  simp only [Values.Set, Values.Get, Get_Del]
  by_cases hk : key = k
  · subst hk; simp
  · have : ¬ k = key := fun e => hk e.symm
    simp [hk, this]

theorem Get_Add (v : Values) (k x key : GoString) :
    Values.Get (Values.Add v k x) key =
      if key = k then some ((Values.Get v k).getD [] ++ [x]) else Values.Get v key := by
  simp only [Values.Add, Values.Get, Get_Del]
  by_cases hk : key = k
  · subst hk; simp
  · have : ¬ k = key := fun e => hk e.symm
    simp [hk, this]

theorem Get_foldl_Add (ps : List (GoString × GoString)) (key : GoString) :
    ∀ m : Values, Values.Get (ps.foldl (fun acc p => Values.Add acc p.1 p.2) m) key =
      if valuesOf key ps = [] then Values.Get m key
      else some ((Values.Get m key).getD [] ++ valuesOf key ps) := by
  induction ps with
  | nil => intro m; simp [valuesOf]
  | cons p rest ih =>
    intro m
    simp only [List.foldl_cons]
    rw [ih, Get_Add]
    have hv : valuesOf key (p :: rest) =
        if p.1 = key then p.2 :: valuesOf key rest else valuesOf key rest := by
      by_cases hp : p.1 = key <;> simp [valuesOf, hp]
    rw [hv]
    by_cases hp : p.1 = key
    · subst hp
      by_cases hr : valuesOf p.1 rest = [] <;> simp [hr]
    · have hk : ¬ key = p.1 := fun e => hp e.symm
      simp [hp, hk]

theorem Encode_eq_joinAmp (v : Values) : Values.Encode v = joinAmp ((piecesOf v).map encPair) := by
  simp only [Values.Encode, piecesOf, encodePairs, List.map_flatMap, List.map_map]
  rfl

theorem mem_insertKey (k a : GoString) (xs : List GoString) :
    a ∈ insertKey k xs ↔ a = k ∨ a ∈ xs := by
  induction xs with
  | nil => simp [insertKey]
  | cons x rest ih =>
    unfold insertKey
    by_cases h2 : strLt k x = true
    · simp [h2]
    · simp only [h2, if_false, Bool.false_eq_true, List.mem_cons, ih]
      tauto

theorem nodup_insertKey (k : GoString) (xs : List GoString) (h : xs.Nodup) (hk : k ∉ xs) :
    (insertKey k xs).Nodup := by
  induction xs with
  | nil => simp [insertKey]
  | cons x rest ih =>
    unfold insertKey
    by_cases h2 : strLt k x = true
    · rw [if_pos h2]
      exact List.nodup_cons.mpr ⟨hk, h⟩
    · rw [if_neg h2]
      have hx := List.nodup_cons.mp h
      have hk1 : k ≠ x := fun e => hk (by simp [e])
      have hk2 : k ∉ rest := fun e => hk (by simp [e])
      refine List.nodup_cons.mpr ⟨?_, ih hx.2 hk2⟩
      intro hm
      rcases (mem_insertKey k x rest).mp hm with e | e
      · exact hk1 e.symm
      · exact hx.1 e

theorem nodup_sortedKeys (v : Values) : (sortedKeys v).Nodup := by
  induction v with
  | nil => simp [sortedKeys]
  | cons e rest ih =>
    have h : sortedKeys (e :: rest) =
        if e.1 ∈ sortedKeys rest then sortedKeys rest else insertKey e.1 (sortedKeys rest) := rfl
    rw [h]
    by_cases hm : e.1 ∈ sortedKeys rest
    · rw [if_pos hm]; exact ih
    · rw [if_neg hm]; exact nodup_insertKey _ _ ih hm

theorem mem_sortedKeys (v : Values) (k : GoString) :
    k ∈ sortedKeys v ↔ Values.Get v k ≠ none := by
  induction v with
  | nil => simp [sortedKeys, Values.Get]
  | cons e rest ih =>
    obtain ⟨a, vs⟩ := e
    have h : sortedKeys ((a, vs) :: rest) =
        if a ∈ sortedKeys rest then sortedKeys rest else insertKey a (sortedKeys rest) := rfl
    rw [h]
    simp only [Values.Get]
    by_cases hak : a = k
    · subst hak
      by_cases hm : a ∈ sortedKeys rest
      · simp [hm]
      · simp [hm, mem_insertKey]
    · have hka : ¬ k = a := fun e => hak e.symm
      by_cases hm : a ∈ sortedKeys rest
      · simp [hm, hak, ih]
      · simp [hm, hak, hka, mem_insertKey, ih]

theorem valuesOf_append (key : GoString) (ps qs : List (GoString × GoString)) :
    valuesOf key (ps ++ qs) = valuesOf key ps ++ valuesOf key qs := by
  simp [valuesOf]

theorem valuesOf_tag (key k : GoString) (vs : List GoString) :
    valuesOf key (vs.map (fun x => (k, x))) = if k = key then vs else [] := by
  by_cases h : k = key
  · subst h
    simp [valuesOf, List.filter_map, Function.comp_def]
  · simp [valuesOf, List.filter_map, Function.comp_def, h]

theorem valuesOf_flatMap (key : GoString) (f : GoString → List GoString) (ks : List GoString)
    (hn : ks.Nodup) :
    valuesOf key (ks.flatMap (fun k => (f k).map (fun x => (k, x)))) =
      if key ∈ ks then f key else [] := by
  induction ks with
  | nil => simp [valuesOf]
  | cons k rest ih =>
    have hk := List.nodup_cons.mp hn
    rw [List.flatMap_cons, valuesOf_append, valuesOf_tag, ih hk.2]
    by_cases h : k = key
    · subst h
      simp [hk.1]
    · have h1 : ¬ key = k := fun e => h e.symm
      simp [h, h1]

theorem valuesOf_piecesOf (v : Values) (key : GoString) :
    valuesOf key (piecesOf v) = (Values.Get v key).getD [] := by
  unfold piecesOf
  rw [valuesOf_flatMap key (fun k => (Values.Get v k).getD []) _ (nodup_sortedKeys v)]
  by_cases h : key ∈ sortedKeys v
  · rw [if_pos h]
  · rw [if_neg h]
    have : Values.Get v key = none := by
      by_contra hc
      exact h ((mem_sortedKeys v key).mpr hc)
    rw [this]; rfl

/-- Reading back an encoded query: `ParseQuery (Encode v)` holds for every key the
values that `v` holds for it, and no binding for a key without a value. -/
theorem Get_ParseQuery_Encode (v : Values) (key : GoString) :
    Values.Get (ParseQuery (Values.Encode v)) key =
      if (Values.Get v key).getD [] = [] then none else some ((Values.Get v key).getD []) := by
  rw [Encode_eq_joinAmp, ParseQuery_joinAmp, Get_foldl_Add, valuesOf_piecesOf]
  simp [Values.Get]

end url

/-! ## whoisapi.go -/

theorem ToUpper_JSON (rt : Runtime) : strings.ToUpper rt.upperUnicode (lit "JSON") = lit "JSON" := by
  rfl

theorem applyOptions_append (opts : List QueryOption) (opt : QueryOption) (q : url.Values) :
    applyOptions (opts ++ [opt]) q = opt (applyOptions opts q) := by
  simp [applyOptions, List.foldl_append]

theorem transportCalls_trace (n : Nat) (req : http.Request) :
    transportCalls (Event.newRequest :: ((List.range n).map Event.applied ++ [Event.sent req])) =
      [req] := by
  have h : ∀ l : List Nat, transportCalls (l.map Event.applied ++ [Event.sent req]) = [req] := by
    intro l
    induction l with
    | nil => rfl
    | cons a rest ih => simpa [transportCalls] using ih
  simp [transportCalls, h]

/-- What `request` does for a non-empty name once the request is built. -/
theorem request_built (service : whoisApiServiceOp) (name : GoString) (opts : List QueryOption)
    (req : http.Request) (hname : name ≠ []) (hreq : service.newRequest = .ok req) :
    transportCalls (service.request name opts).2 =
        [{ req with RawQuery := url.Values.Encode (requestQuery req name opts) }] ∧
    (service.request name opts).1 =
      match service.client.Do { req with RawQuery := url.Values.Encode (requestQuery req name opts) } with
      | .failure resp b err => (some { Response := resp, Body := b }, some err)
      | .success resp b => (some { Response := some resp, Body := b }, none) := by
  unfold whoisApiServiceOp.request
  rw [if_neg hname, hreq]
  simp only
  cases service.client.Do { req with RawQuery := url.Values.Encode (requestQuery req name opts) } <;>
    simp [transportCalls_trace]

/-- When the request cannot be built, nothing is handed to the transport. -/
theorem request_not_built (service : whoisApiServiceOp) (name : GoString)
    (opts : List QueryOption) (err : Error) (hreq : service.newRequest = .error err) :
    transportCalls (service.request name opts).2 = [] := by
  unfold whoisApiServiceOp.request
  by_cases hname : name = []
  · rw [if_pos hname]; rfl
  · rw [if_neg hname, hreq]; rfl

theorem Data_trace (rt : Runtime) (service : whoisApiServiceOp) (name : GoString)
    (opts : List QueryOption) :
    (service.Data rt name opts).2 =
      (service.request name (opts ++ [OptionOutputFormat rt (lit "JSON")])).2 := by
  unfold whoisApiServiceOp.Data
  simp only
  split
  · rfl
  · split
    · rfl
    · split
      · rfl
      · split <;> rfl

theorem RawData_trace (service : whoisApiServiceOp) (name : GoString) (opts : List QueryOption) :
    (service.RawData name opts).2 = (service.request name opts).2 := by
  unfold whoisApiServiceOp.RawData
  simp only
  split
  · rfl
  · split
    · rfl
    · split
      · rfl
      · split <;> rfl

theorem newRequest_ok (service : whoisApiServiceOp) (req0 : http.Request)
    (h : service.client.NewRequest (lit "GET") service.baseURL = .ok req0) :
    service.newRequest =
      .ok { req0 with
        RawQuery := url.Values.Encode (url.Values.Set [] (lit "apiKey") service.client.apiKey) } := by
  unfold whoisApiServiceOp.newRequest
  rw [h]

theorem newRequest_error (service : whoisApiServiceOp) (err : Error)
    (h : service.client.NewRequest (lit "GET") service.baseURL = .error err) :
    service.newRequest = .error err := by
  unfold whoisApiServiceOp.newRequest
  rw [h]

theorem Get_ParseQuery_Encode_single (v : url.Values) (key x : GoString)
    (h : url.Values.Get v key = some [x]) :
    url.Values.Get (url.ParseQuery (url.Values.Encode v)) key = some [x] := by
  rw [url.Get_ParseQuery_Encode, h]
  simp

theorem requestQuery_json (rt : Runtime) (req : http.Request) (name : GoString)
    (opts : List QueryOption) :
    url.Values.Get (requestQuery req name (opts ++ [OptionOutputFormat rt (lit "JSON")]))
      (lit "outputFormat") = some [lit "JSON"] := by
  unfold requestQuery
  rw [applyOptions_append]
  simp only [OptionOutputFormat, url.Get_Set, ToUpper_JSON, if_true]

/-- C1: for every non-empty domain name and every list of caller options, each request
that `Data` hands to the transport carries a query whose parameter `outputFormat` has
exactly the single value `JSON`; and when the request can be built, exactly one request
is handed over. -/
theorem C1_Data_forces_outputFormat_JSON (rt : Runtime) (service : whoisApiServiceOp)
    (name : GoString) (opts : List QueryOption) (hname : name ≠ []) :
    (∀ req ∈ transportCalls (service.Data rt name opts).2,
      url.Values.Get (url.ParseQuery req.RawQuery) (lit "outputFormat") = some [lit "JSON"]) ∧
    (∀ req0 : http.Request, service.client.NewRequest (lit "GET") service.baseURL = .ok req0 →
      (transportCalls (service.Data rt name opts).2).length = 1) := by
  rw [Data_trace]
  cases hn : service.client.NewRequest (lit "GET") service.baseURL with
  | error err =>
    rw [request_not_built service name _ err (newRequest_error service err hn)]
    exact ⟨fun req h => absurd h (List.not_mem_nil req), fun req0 h => by cases h⟩
  | ok req0 =>
    have hb := (request_built service name (opts ++ [OptionOutputFormat rt (lit "JSON")]) _ hname
      (newRequest_ok service req0 hn)).1
    rw [hb]
    refine ⟨fun req h => ?_, fun _ _ => rfl⟩
    rw [List.mem_singleton] at h
    subst h
    exact Get_ParseQuery_Encode_single _ _ _ (requestQuery_json rt _ name opts)

/-- C1 at a concrete call: the domain `google.com` with the caller option
`OptionOutputFormat("XML")`. -/
theorem C1_Data_forces_outputFormat_JSON_witness :
    lit "google.com" ≠ [] ∧
    ((∀ req ∈ transportCalls
        ((sampleService 200 (lit "\x7b\x7d")).Data sampleRuntime (lit "google.com")
          [OptionOutputFormat sampleRuntime (lit "XML")]).2,
      url.Values.Get (url.ParseQuery req.RawQuery) (lit "outputFormat") = some [lit "JSON"]) ∧
    (∀ req0 : http.Request,
      (sampleService 200 (lit "\x7b\x7d")).client.NewRequest (lit "GET")
        (sampleService 200 (lit "\x7b\x7d")).baseURL = .ok req0 →
      (transportCalls
        ((sampleService 200 (lit "\x7b\x7d")).Data sampleRuntime (lit "google.com")
          [OptionOutputFormat sampleRuntime (lit "XML")]).2).length = 1)) :=
  ⟨by decide, C1_Data_forces_outputFormat_JSON sampleRuntime (sampleService 200 (lit "\x7b\x7d")) (lit "google.com")
    [OptionOutputFormat sampleRuntime (lit "XML")] (by decide)⟩

/-- C2: for every list of options, `Data` and `RawData` called with the empty domain
name return the `ArgError` with Name `name` and Message `cannot be empty`, whose text is
`invalid argument: "name" cannot be empty`, with no record and no response wrapper, and
the trace of the call is empty: no transport call and no option application. -/
theorem C2_empty_name_is_ArgError (rt : Runtime) (service : whoisApiServiceOp)
    (opts : List QueryOption) :
    service.Data rt [] opts =
      ((none, none, some (.argError { Name := lit "name", Message := lit "cannot be empty" })), []) ∧
    service.RawData [] opts =
      ((none, some (.argError { Name := lit "name", Message := lit "cannot be empty" })), []) ∧
    (Error.argError { Name := lit "name", Message := lit "cannot be empty" }).Error =
      lit "invalid argument: \"name\" cannot be empty" ∧
    transportCalls (service.Data rt [] opts).2 = [] ∧
    transportCalls (service.RawData [] opts).2 = [] ∧
    optionCalls (service.Data rt [] opts).2 = 0 ∧
    optionCalls (service.RawData [] opts).2 = 0 := by
  have hd : service.Data rt [] opts =
      ((none, none, some (.argError { Name := lit "name", Message := lit "cannot be empty" })), []) := by
    simp [whoisApiServiceOp.Data, whoisApiServiceOp.request]
  have hr : service.RawData [] opts =
      ((none, some (.argError { Name := lit "name", Message := lit "cannot be empty" })), []) := by
    simp [whoisApiServiceOp.RawData, whoisApiServiceOp.request]
  refine ⟨hd, hr, by decide, ?_, ?_, ?_, ?_⟩
  · rw [hd]; rfl
  · rw [hr]; rfl
  · rw [hd]; rfl
  · rw [hr]; rfl

theorem sampleService_newRequest (status : Int) (body : GoString) :
    (sampleService status body).newRequest = .ok sampleRequest := by
  rfl

theorem Data_of_delivery (rt : Runtime) (service : whoisApiServiceOp) (name : GoString)
    (opts : List QueryOption) (req : http.Request) (httpResp : http.Response) (body : GoString)
    (hname : name ≠ []) (hreq : service.newRequest = .ok req)
    (hdo : service.client.Do
      { req with
        RawQuery := url.Values.Encode
          (requestQuery req name (opts ++ [OptionOutputFormat rt (lit "JSON")])) } =
        .success httpResp body) :
    (service.Data rt name opts).1 =
      match parse rt body with
      | .error err => (none, some { Response := some httpResp, Body := body }, some err)
      | .ok whoisResp =>
        match whoisResp.ErrorMessage with
        | some em => (none, none, some (.errorMessage em))
        | none => (whoisResp.WhoisRecord, some { Response := some httpResp, Body := body }, none) := by
  have hr := (request_built service name (opts ++ [OptionOutputFormat rt (lit "JSON")]) req hname
    hreq).2
  rw [hdo] at hr
  simp only at hr
  unfold whoisApiServiceOp.Data
  simp only [hr]
  cases parse rt body with
  | error err => rfl
  | ok w =>
    simp only
    cases w.ErrorMessage <;> rfl

theorem RawData_of_delivery (service : whoisApiServiceOp) (name : GoString)
    (opts : List QueryOption) (req : http.Request) (httpResp : http.Response) (body : GoString)
    (hname : name ≠ []) (hreq : service.newRequest = .ok req)
    (hdo : service.client.Do
      { req with RawQuery := url.Values.Encode (requestQuery req name opts) } =
        .success httpResp body) :
    (service.RawData name opts).1 =
      (some { Response := some httpResp, Body := body }, checkResponse httpResp) := by
  have hr := (request_built service name opts req hname hreq).2
  rw [hdo] at hr
  simp only at hr
  unfold whoisApiServiceOp.RawData
  simp only [hr]
  cases checkResponse httpResp <;> rfl

/-- C3: for every status code and every body that the decoder reads as an envelope with
an ErrorMessage (with or without a WhoisRecord beside it), `Data` returns no record, no
response wrapper and the `ErrorMessage` error with the payload's code and message,
whose text is `API error: [code] msg`. -/
theorem C3_Data_returns_ErrorMessage (rt : Runtime) (service : whoisApiServiceOp)
    (name : GoString) (opts : List QueryOption) (req : http.Request)
    (httpResp : http.Response) (body : GoString) (record : Option WhoisRecord)
    (em : ErrorMessage)
    (hname : name ≠ []) (hreq : service.newRequest = .ok req)
    (hdo : service.client.Do
      { req with
        RawQuery := url.Values.Encode
          (requestQuery req name (opts ++ [OptionOutputFormat rt (lit "JSON")])) } =
        .success httpResp body)
    (hdec : rt.decode body = .ok { WhoisRecord := record, ErrorMessage := some em }) :
    (service.Data rt name opts).1 =
      (none, none,
        some (.errorMessage { ErrorCode := em.ErrorCode, Message := em.Message })) ∧
    (Error.errorMessage { ErrorCode := em.ErrorCode, Message := em.Message }).Error =
      lit "API error: [" ++ em.ErrorCode ++ lit "] " ++ em.Message := by
  refine ⟨?_, rfl⟩
  rw [Data_of_delivery rt service name opts req httpResp body hname hreq hdo]
  simp [parse, hdec]

/-- C3 at the error payload of the tests, delivered with the status 400. -/
theorem C3_Data_returns_ErrorMessage_witness :
    ((sampleService 400 sampleErrorBody).Data sampleRuntime (lit "whoisxmlapi.com") []).1 =
      (none, none,
        some (.errorMessage { ErrorCode := lit "WHOIS_00", Message := lit "test error message" })) ∧
    (Error.errorMessage { ErrorCode := lit "WHOIS_00", Message := lit "test error message" }).Error =
      lit "API error: [" ++ lit "WHOIS_00" ++ lit "] " ++ lit "test error message" :=
  C3_Data_returns_ErrorMessage sampleRuntime (sampleService 400 sampleErrorBody)
    (lit "whoisxmlapi.com") [] sampleRequest { StatusCode := 400, Header := [] } sampleErrorBody
    none { ErrorCode := lit "WHOIS_00", Message := lit "test error message" }
    (by decide) (sampleService_newRequest _ _) rfl rfl

theorem checkResponse_eq_none_iff (r : http.Response) :
    checkResponse r = none ↔ (200 ≤ r.StatusCode ∧ r.StatusCode ≤ 299) := by
  unfold checkResponse
  by_cases h : 200 ≤ r.StatusCode ∧ r.StatusCode ≤ 299 <;> simp [h]

/-- C6: for a non-empty domain name and a response delivered by the transport with the
status code N, `RawData` returns the error of the status check: an error exactly when
N is outside 200..299, and then one whose text is `API failed with status code: `
followed by the decimal N. The body does not enter: another delivery with the same
status code and any body gives the same error. -/
theorem C6_RawData_error_iff_status_outside_2xx (service : whoisApiServiceOp)
    (name : GoString) (opts : List QueryOption) (req : http.Request)
    (httpResp : http.Response) (body : GoString)
    (hname : name ≠ []) (hreq : service.newRequest = .ok req)
    (hdo : service.client.Do
      { req with RawQuery := url.Values.Encode (requestQuery req name opts) } =
        .success httpResp body) :
    ((service.RawData name opts).1.2 ≠ none ↔
      ¬ (200 ≤ httpResp.StatusCode ∧ httpResp.StatusCode ≤ 299)) ∧
    (∀ err : Error, (service.RawData name opts).1.2 = some err →
      err.Error = lit "API failed with status code: " ++ strconv.Itoa httpResp.StatusCode) ∧
    (∀ (service2 : whoisApiServiceOp) (name2 : GoString) (opts2 : List QueryOption)
      (req2 : http.Request) (httpResp2 : http.Response) (body2 : GoString),
      name2 ≠ [] → service2.newRequest = .ok req2 →
      service2.client.Do
        { req2 with RawQuery := url.Values.Encode (requestQuery req2 name2 opts2) } =
          .success httpResp2 body2 →
      httpResp2.StatusCode = httpResp.StatusCode →
      (service2.RawData name2 opts2).1.2 = (service.RawData name opts).1.2) := by
  have h1 := RawData_of_delivery service name opts req httpResp body hname hreq hdo
  refine ⟨?_, ?_, ?_⟩
  · rw [h1]
    simp only [ne_eq, checkResponse_eq_none_iff]
  · intro err he
    rw [h1] at he
    simp only [checkResponse] at he
    by_cases h : 200 ≤ httpResp.StatusCode ∧ httpResp.StatusCode ≤ 299
    · rw [if_pos h] at he; cases he
    · rw [if_neg h] at he
      cases he
      rfl
  · intro service2 name2 opts2 req2 httpResp2 body2 hname2 hreq2 hdo2 hst
    rw [h1, RawData_of_delivery service2 name2 opts2 req2 httpResp2 body2 hname2 hreq2 hdo2]
    simp only [checkResponse, hst]

/-- C6 at the status 500 with the XML page of the tests cut to its first tag. -/
theorem C6_RawData_error_iff_status_outside_2xx_witness :
    (((sampleService 500 (lit "<?xml version=\"1.0\"?>")).RawData (lit "whoisxmlapi.com") []).1.2
        ≠ none ↔ ¬ (200 ≤ (500 : Int) ∧ (500 : Int) ≤ 299)) ∧
    (∀ err : Error,
      ((sampleService 500 (lit "<?xml version=\"1.0\"?>")).RawData (lit "whoisxmlapi.com") []).1.2
        = some err →
      err.Error = lit "API failed with status code: " ++ strconv.Itoa 500) :=
  have h := C6_RawData_error_iff_status_outside_2xx
    (sampleService 500 (lit "<?xml version=\"1.0\"?>")) (lit "whoisxmlapi.com") [] sampleRequest
    { StatusCode := 500, Header := [] } (lit "<?xml version=\"1.0\"?>")
    (by decide) (sampleService_newRequest _ _) rfl
  ⟨h.1, h.2.1⟩

/-- C7: for a non-empty domain name and a response delivered by the transport with a
status code in 200..299, `RawData` returns no error and the response wrapper whose Body
is the delivered body, whatever the body is; no decoder takes part in `RawData`. -/
theorem C7_RawData_returns_body_untouched (service : whoisApiServiceOp)
    (name : GoString) (opts : List QueryOption) (req : http.Request)
    (httpResp : http.Response) (body : GoString)
    (hname : name ≠ []) (hreq : service.newRequest = .ok req)
    (hdo : service.client.Do
      { req with RawQuery := url.Values.Encode (requestQuery req name opts) } =
        .success httpResp body)
    (hstatus : 200 ≤ httpResp.StatusCode ∧ httpResp.StatusCode ≤ 299) :
    (service.RawData name opts).1 = (some { Response := some httpResp, Body := body }, none) := by
  rw [RawData_of_delivery service name opts req httpResp body hname hreq hdo,
    (checkResponse_eq_none_iff httpResp).mpr hstatus]

/-- C7 at the status 200 with the error payload of the tests as the body. -/
theorem C7_RawData_returns_body_untouched_witness :
    ((sampleService 200 sampleErrorBody).RawData (lit "whoisxmlapi.com") []).1 =
      (some { Response := some { StatusCode := 200, Header := [] }, Body := sampleErrorBody },
        none) :=
  C7_RawData_returns_body_untouched (sampleService 200 sampleErrorBody) (lit "whoisxmlapi.com")
    [] sampleRequest { StatusCode := 200, Header := [] } sampleErrorBody
    (by decide) (sampleService_newRequest _ _) rfl (by decide)

/-! ## options.go -/

theorem toOption_eq_Set (rt : Runtime) (o : BuiltOption) (v : url.Values) :
    o.toOption rt v = url.Values.Set v o.key (o.value rt) := by
  cases o <;> rfl

theorem Get_applyOptions_built (rt : Runtime) (os : List BuiltOption) (k : GoString) :
    ∀ base : url.Values,
      url.Values.Get (applyOptions (os.map (BuiltOption.toOption rt)) base) k =
        match lastWrite rt k os with
        | some x => some [x]
        | none => url.Values.Get base k := by
  induction os with
  | nil => intro base; rfl
  | cons o rest ih =>
    intro base
    have e : applyOptions ((o :: rest).map (BuiltOption.toOption rt)) base =
        applyOptions (rest.map (BuiltOption.toOption rt)) (o.toOption rt base) := rfl
    rw [e, ih, toOption_eq_Set, url.Get_Set]
    simp only [lastWrite]
    cases lastWrite rt k rest with
    | some x => rfl
    | none =>
      by_cases hk : o.key = k
      · subst hk; simp
      · have hk2 : ¬ k = o.key := fun e => hk e.symm
        simp [hk, hk2]

theorem lastWrite_eq_none (rt : Runtime) (k : GoString) (os : List BuiltOption)
    (h : ∀ o ∈ os, o.key ≠ k) : lastWrite rt k os = none := by
  induction os with
  | nil => rfl
  | cons o rest ih =>
    have h1 : o.key ≠ k := h o (List.mem_cons_self o rest)
    have h2 := ih (fun o2 ho2 => h o2 (List.mem_cons_of_mem o ho2))
    simp [lastWrite, h2, h1]

theorem key_ne_apiKey (o : BuiltOption) : o.key ≠ lit "apiKey" := by
  cases o <;> simp only [BuiltOption.key] <;> decide

theorem key_ne_domainName (o : BuiltOption) : o.key ≠ lit "domainName" := by
  cases o <;> simp only [BuiltOption.key] <;> decide

/-- The query of `request` before the options, for the request of `newRequest`. -/
theorem Get_base_query (apiKey name : GoString) :
    url.Values.Get
        (url.Values.Set
          (url.ParseQuery (url.Values.Encode (url.Values.Set [] (lit "apiKey") apiKey)))
          (lit "domainName") name) (lit "apiKey") = some [apiKey] ∧
    url.Values.Get
        (url.Values.Set
          (url.ParseQuery (url.Values.Encode (url.Values.Set [] (lit "apiKey") apiKey)))
          (lit "domainName") name) (lit "domainName") = some [name] := by
  constructor
  · rw [url.Get_Set, if_neg (by decide)]
    exact Get_ParseQuery_Encode_single _ _ _ (by rw [url.Get_Set, if_pos rfl])
  · rw [url.Get_Set, if_pos rfl]

/-- C8: for a non-empty domain name and options built from the eight constructors,
once `Client.NewRequest` has built the request, the query that `request` builds holds
for `apiKey` exactly the client's API key and for `domainName` exactly the given name,
and the one request handed to the transport carries that query. -/
theorem C8_request_query_has_apiKey_and_domainName (rt : Runtime)
    (service : whoisApiServiceOp) (name : GoString) (os : List BuiltOption)
    (req0 : http.Request) (hname : name ≠ [])
    (hbuilt : service.client.NewRequest (lit "GET") service.baseURL = .ok req0) :
    ∃ req : http.Request, service.newRequest = .ok req ∧
      url.Values.Get (requestQuery req name (os.map (BuiltOption.toOption rt))) (lit "apiKey") =
        some [service.client.apiKey] ∧
      url.Values.Get (requestQuery req name (os.map (BuiltOption.toOption rt)))
        (lit "domainName") = some [name] ∧
      ∃ sent : http.Request,
        transportCalls (service.request name (os.map (BuiltOption.toOption rt))).2 = [sent] ∧
        url.Values.Get (url.ParseQuery sent.RawQuery) (lit "apiKey") =
          some [service.client.apiKey] ∧
        url.Values.Get (url.ParseQuery sent.RawQuery) (lit "domainName") = some [name] := by
  have hreq := newRequest_ok service req0 hbuilt
  have hbase := Get_base_query service.client.apiKey name
  have hk : url.Values.Get
      (requestQuery
        { req0 with
          RawQuery := url.Values.Encode (url.Values.Set [] (lit "apiKey") service.client.apiKey) }
        name (os.map (BuiltOption.toOption rt))) (lit "apiKey") = some [service.client.apiKey] := by
    unfold requestQuery
    rw [Get_applyOptions_built, lastWrite_eq_none rt _ os (fun o _ => key_ne_apiKey o)]
    exact hbase.1
  have hd : url.Values.Get
      (requestQuery
        { req0 with
          RawQuery := url.Values.Encode (url.Values.Set [] (lit "apiKey") service.client.apiKey) }
        name (os.map (BuiltOption.toOption rt))) (lit "domainName") = some [name] := by
    unfold requestQuery
    rw [Get_applyOptions_built, lastWrite_eq_none rt _ os (fun o _ => key_ne_domainName o)]
    exact hbase.2
  refine ⟨_, hreq, hk, hd, _, (request_built service name _ _ hname hreq).1, ?_, ?_⟩
  · exact Get_ParseQuery_Encode_single _ _ _ hk
  · exact Get_ParseQuery_Encode_single _ _ _ hd

/-- C8 at the call of the example program: `google.com` with the options
`OptionOutputFormat("XML")`, `OptionDA(2)`, `OptionIP(1)`. -/
theorem C8_request_query_has_apiKey_and_domainName_witness :
    ∃ req : http.Request, (sampleService 200 (lit "\x7b\x7d")).newRequest = .ok req ∧
      url.Values.Get
        (requestQuery req (lit "google.com")
          ([BuiltOption.outputFormat (lit "XML"), BuiltOption.da 2, BuiltOption.ip 1].map
            (BuiltOption.toOption sampleRuntime))) (lit "apiKey") = some [lit "at_key"] ∧
      url.Values.Get
        (requestQuery req (lit "google.com")
          ([BuiltOption.outputFormat (lit "XML"), BuiltOption.da 2, BuiltOption.ip 1].map
            (BuiltOption.toOption sampleRuntime))) (lit "domainName") = some [lit "google.com"] ∧
      ∃ sent : http.Request,
        transportCalls ((sampleService 200 (lit "\x7b\x7d")).request (lit "google.com")
          ([BuiltOption.outputFormat (lit "XML"), BuiltOption.da 2, BuiltOption.ip 1].map
            (BuiltOption.toOption sampleRuntime))).2 = [sent] ∧
        url.Values.Get (url.ParseQuery sent.RawQuery) (lit "apiKey") = some [lit "at_key"] ∧
        url.Values.Get (url.ParseQuery sent.RawQuery) (lit "domainName") =
          some [lit "google.com"] :=
  C8_request_query_has_apiKey_and_domainName sampleRuntime (sampleService 200 (lit "\x7b\x7d"))
    (lit "google.com") [BuiltOption.outputFormat (lit "XML"), BuiltOption.da 2, BuiltOption.ip 1]
    { Method := lit "GET", URL := (sampleService 200 (lit "\x7b\x7d")).baseURL, RawQuery := [] }
    (by decide) rfl

/-- C9: options are applied in the order of the list with last-write-wins. For every
list of options built from the eight constructors and every parameter name `k`, the
final query holds for `k` exactly the single value written by the last option of the
list that targets `k`, and what the query held for `k` before the options when no
option targets `k`; this holds for any starting query and so for the query of
`request`, which starts from the parsed query of the request with `domainName` set. -/
theorem C9_options_last_write_wins (rt : Runtime) (os : List BuiltOption) (k : GoString) :
    (∀ base : url.Values,
      url.Values.Get (applyOptions (os.map (BuiltOption.toOption rt)) base) k =
        match lastWrite rt k os with
        | some x => some [x]
        | none => url.Values.Get base k) ∧
    (∀ (req : http.Request) (name : GoString),
      url.Values.Get (requestQuery req name (os.map (BuiltOption.toOption rt))) k =
        match lastWrite rt k os with
        | some x => some [x]
        | none =>
          url.Values.Get (url.Values.Set (url.ParseQuery req.RawQuery) (lit "domainName") name) k) :=
  ⟨Get_applyOptions_built rt os k, fun _ _ => Get_applyOptions_built rt os k _⟩

theorem digitsAux_digits (fuel : Nat) :
    ∀ (n : Nat) (acc : GoString), (∀ c ∈ acc, 48 ≤ c.val ∧ c.val ≤ 57) →
      ∀ c ∈ strconv.digitsAux fuel n acc, 48 ≤ c.val ∧ c.val ≤ 57 := by
  induction fuel with
  | zero => intro n acc h; simpa [strconv.digitsAux] using h
  | succ fuel ih =>
    intro n acc h
    have hd : ∀ c ∈ ((Fin.ofNat (48 + n % 10) : Byte) :: acc), 48 ≤ c.val ∧ c.val ≤ 57 := by
      intro c hc
      rcases List.mem_cons.mp hc with e | e
      · subst e
        have hm : n % 10 < 10 := Nat.mod_lt _ (by decide)
        simp only [Fin.ofNat, Fin.val_mk]
        omega
      · exact h c e
    simp only [strconv.digitsAux]
    by_cases hz : n / 10 = 0
    · rw [if_pos hz]; exact hd
    · rw [if_neg hz]; exact ih _ _ hd

set_option maxRecDepth 100000 in
theorem digit_not_shouldEscape (c : Byte) (h : 48 ≤ c.val ∧ c.val ≤ 57) :
    url.shouldEscape c = false := by
  revert c; decide

theorem Itoa_unreserved (n : Int) : ∀ c ∈ strconv.Itoa n, url.shouldEscape c = false := by
  intro c hc
  unfold strconv.Itoa at hc
  have hd := fun m => digitsAux_digits (m + 1) m [] (fun c h => absurd h (List.not_mem_nil c))
  by_cases hneg : n < 0
  · rw [if_pos hneg] at hc
    rcases List.mem_cons.mp hc with e | e
    · subst e; decide
    · exact digit_not_shouldEscape c (hd _ c e)
  · rw [if_neg hneg] at hc
    exact digit_not_shouldEscape c (hd _ c hc)

theorem QueryEscape_unreserved (s : GoString) (h : ∀ c ∈ s, url.shouldEscape c = false) :
    url.QueryEscape s = s := by
  induction s with
  | nil => rfl
  | cons c rest ih =>
    have hc := h c (List.mem_cons_self c rest)
    have hp := url.plain_of_not_shouldEscape c hc
    have hr := ih (fun d hd => h d (List.mem_cons_of_mem c hd))
    simp [url.QueryEscape, hp.2.2.1, hc, hr]

theorem Encode_Set_empty (k x : GoString) :
    url.Values.Encode (url.Values.Set [] k x) = url.QueryEscape k ++ (61 : Byte) :: url.QueryEscape x := by
  simp [url.Values.Encode, url.Values.Set, url.Values.Del, url.sortedKeys, url.insertKey,
    url.Values.Get, url.encodePairs, url.joinAmp]

theorem QueryEscape_key (o : BuiltOption) : url.QueryEscape o.key = o.key := by
  cases o <;> simp only [BuiltOption.key] <;> decide

/-- C10 as stated fails: `OptionOutputFormat("a b")` applied to the empty parameter set
encodes as `outputFormat=A+B`, not as `outputFormat=A B`. -/
theorem C10_encoded_value_is_escaped :
    strings.ToUpper sampleRuntime.upperUnicode (lit "a b") = lit "A B" ∧
    url.Values.Encode (OptionOutputFormat sampleRuntime (lit "a b") []) = lit "outputFormat=A+B" ∧
    url.Values.Encode (OptionOutputFormat sampleRuntime (lit "a b") []) ≠
      lit "outputFormat" ++ lit "=" ++ strings.ToUpper sampleRuntime.upperUnicode (lit "a b") := by
  decide

/-- C10, amended: each of the eight option constructors, applied to any parameter set,
sets its parameter (outputFormat, preferFresh, da, ip, ipWhois, checkProxyData,
thinWhois, ignoreRawTexts) to exactly one value (the upper-cased string, or the decimal
string of the integer) and leaves every other parameter unchanged; applied to the empty
parameter set the encoded query is the key, `=` and the query-escaped value, which is
the value itself for the seven integer options and for every output format whose
upper-cased form consists of unreserved characters. -/
theorem C10_option_sets_one_parameter (rt : Runtime) (o : BuiltOption) (v : url.Values) :
    url.Values.Get (o.toOption rt v) o.key = some [o.value rt] ∧
    (∀ k : GoString, k ≠ o.key → url.Values.Get (o.toOption rt v) k = url.Values.Get v k) ∧
    url.Values.Encode (o.toOption rt []) = o.key ++ lit "=" ++ url.QueryEscape (o.value rt) ∧
    ((∀ c ∈ o.value rt, url.shouldEscape c = false) →
      url.Values.Encode (o.toOption rt []) = o.key ++ lit "=" ++ o.value rt) ∧
    ((∀ s : GoString, o ≠ BuiltOption.outputFormat s) →
      url.Values.Encode (o.toOption rt []) = o.key ++ lit "=" ++ o.value rt) := by
  have henc : url.Values.Encode (o.toOption rt []) =
      o.key ++ lit "=" ++ url.QueryEscape (o.value rt) := by
    rw [toOption_eq_Set, Encode_Set_empty, QueryEscape_key]
    simp [lit, byteOf]
    rfl
  have hun : (∀ c ∈ o.value rt, url.shouldEscape c = false) →
      url.Values.Encode (o.toOption rt []) = o.key ++ lit "=" ++ o.value rt := by
    intro h
    rw [henc, QueryEscape_unreserved _ h]
  refine ⟨?_, ?_, henc, hun, ?_⟩
  · rw [toOption_eq_Set, url.Get_Set, if_pos rfl]
  · intro k hk
    rw [toOption_eq_Set, url.Get_Set, if_neg hk]
  · intro hne
    apply hun
    cases o with
    | outputFormat s => exact absurd rfl (hne s)
    | preferFresh n => exact Itoa_unreserved n
    | da n => exact Itoa_unreserved n
    | ip n => exact Itoa_unreserved n
    | ipWhois n => exact Itoa_unreserved n
    | checkProxyData n => exact Itoa_unreserved n
    | thinWhois n => exact Itoa_unreserved n
    | ignoreRawTexts n => exact Itoa_unreserved n

/-! ## models.go: the timestamps -/

theorem unmarshalString_empty (rt : Runtime) : unmarshalString rt (lit "\"\"") = .ok [] := by
  rfl

/-- C5: the empty timestamp goes through the zero sentinel without failing.
`Time.MarshalJSON` of the zero `Time` returns the two bytes `""` and no error, and
`Time.UnmarshalJSON` of `""` returns no error and sets the target to the zero `Time`,
whatever the target held before. -/
theorem C5_empty_timestamp_is_zero_Time (rt : Runtime) :
    Time.MarshalJSON rt emptyTime = ([(34 : Byte), (34 : Byte)], none) ∧
    lit "\"\"" = [(34 : Byte), (34 : Byte)] ∧
    emptyTime = ({ wall := 0, ext := 0, loc := none } : Time) ∧
    ∀ t : Time, Time.UnmarshalJSON rt t (lit "\"\"") = (emptyTime, none) := by
  refine ⟨rfl, rfl, rfl, fun t => ?_⟩
  simp [Time.UnmarshalJSON, unmarshalString_empty]

/-- C4 as stated fails at the zero instant: the valid timestamp
`0001-01-01 00:00:00 UTC` decodes without error to the zero `Time`, which is the
sentinel of the empty timestamp, and encodes as `""`, not as the original string. -/
theorem C4_zero_instant_encodes_as_empty :
    (∃ st : Stamp, st.Valid ∧ st.render = lit "0001-01-01 00:00:00 UTC") ∧
    Time.UnmarshalJSON sampleRuntime { wall := 7, ext := 7, loc := none }
        (lit "\"0001-01-01 00:00:00 UTC\"") = (emptyTime, none) ∧
    Time.MarshalJSON sampleRuntime emptyTime = (lit "\"\"", none) ∧
    lit "\"\"" ≠ lit "\"0001-01-01 00:00:00 UTC\"" := by
  refine ⟨?_, ?_, rfl, by decide⟩
  · exact ⟨{ year := 1, month := 1, day := 1, hour := 0, min := 0, sec := 0, zone := lit "UTC" },
      ⟨by decide, by decide, by decide, by decide, by decide, by decide, by decide, by decide,
        Or.inl rfl⟩, rfl⟩
  · rfl

/-! ## whoisapi.go: the parsed response -/

/-- C11: for a response delivered by the transport (with any status code) whose body
the JSON decoder rejects with the error `e`, `parse` returns no result and the error
whose text is `cannot parse response: ` followed by the text of `e`, and `Data` returns
no record, the response wrapper that holds the received body, and that same error. -/
theorem C11_decode_failure_is_cannot_parse (rt : Runtime) (service : whoisApiServiceOp)
    (name : GoString) (opts : List QueryOption) (req : http.Request)
    (httpResp : http.Response) (body : GoString) (e : Error)
    (hname : name ≠ []) (hreq : service.newRequest = .ok req)
    (hdo : service.client.Do
      { req with
        RawQuery := url.Values.Encode
          (requestQuery req name (opts ++ [OptionOutputFormat rt (lit "JSON")])) } =
        .success httpResp body)
    (hdec : rt.decode body = .error e) :
    parse rt body = .error (.cannotParse e) ∧
    (Error.cannotParse e).Error = lit "cannot parse response: " ++ e.Error ∧
    (service.Data rt name opts).1 =
      (none, some { Response := some httpResp, Body := body }, some (.cannotParse e)) := by
  have hp : parse rt body = .error (.cannotParse e) := by simp [parse, hdec]
  refine ⟨hp, rfl, ?_⟩
  rw [Data_of_delivery rt service name opts req httpResp body hname hreq hdo, hp]

/-- C11 at the XML page of the tests, cut to its first tag, with the status 500: the
error text is the one the tests expect. -/
theorem C11_decode_failure_is_cannot_parse_witness :
    parse sampleRuntime (lit "<?xml version=\"1.0\"?>") =
      .error (.cannotParse
        (.foreign (lit "invalid character '<' looking for beginning of value"))) ∧
    (Error.cannotParse
        (.foreign (lit "invalid character '<' looking for beginning of value"))).Error =
      lit "cannot parse response: " ++
        (Error.foreign (lit "invalid character '<' looking for beginning of value")).Error ∧
    ((sampleService 500 (lit "<?xml version=\"1.0\"?>")).Data sampleRuntime
        (lit "whoisxmlapi.com") []).1 =
      (none,
        some { Response := some { StatusCode := 500, Header := [] },
               Body := lit "<?xml version=\"1.0\"?>" },
        some (.cannotParse
          (.foreign (lit "invalid character '<' looking for beginning of value")))) :=
  C11_decode_failure_is_cannot_parse sampleRuntime (sampleService 500 (lit "<?xml version=\"1.0\"?>"))
    (lit "whoisxmlapi.com") [] sampleRequest { StatusCode := 500, Header := [] }
    (lit "<?xml version=\"1.0\"?>")
    (.foreign (lit "invalid character '<' looking for beginning of value"))
    (by decide) (sampleService_newRequest _ _) rfl rfl

/-- C12: for a non-empty domain name and a response delivered by the transport whose
body decodes to an envelope with a WhoisRecord and no ErrorMessage, `Data` returns that
record, the response wrapper whose Body is the received bytes, and no error. -/
theorem C12_Data_returns_record (rt : Runtime) (service : whoisApiServiceOp)
    (name : GoString) (opts : List QueryOption) (req : http.Request)
    (httpResp : http.Response) (body : GoString) (record : WhoisRecord)
    (hname : name ≠ []) (hreq : service.newRequest = .ok req)
    (hdo : service.client.Do
      { req with
        RawQuery := url.Values.Encode
          (requestQuery req name (opts ++ [OptionOutputFormat rt (lit "JSON")])) } =
        .success httpResp body)
    (hdec : rt.decode body = .ok { WhoisRecord := some record, ErrorMessage := none }) :
    (service.Data rt name opts).1 =
      (some record, some { Response := some httpResp, Body := body }, none) := by
  rw [Data_of_delivery rt service name opts req httpResp body hname hreq hdo]
  simp [parse, hdec]

/-- C12 at a success payload delivered with the status 200. -/
theorem C12_Data_returns_record_witness :
    ((sampleService 200 sampleRecordBody).Data sampleRuntime (lit "whoisxmlapi.com") []).1 =
      (some sampleRecord,
        some { Response := some { StatusCode := 200, Header := [] }, Body := sampleRecordBody },
        none) :=
  C12_Data_returns_record sampleRuntime (sampleService 200 sampleRecordBody)
    (lit "whoisxmlapi.com") [] sampleRequest { StatusCode := 200, Header := [] }
    sampleRecordBody sampleRecord (by decide) (sampleService_newRequest _ _) rfl rfl

/-- C14: `Data` does not read the status code. Two deliveries of the same body, with
whatever status codes, give the same record and the same error; a body that decodes to
an envelope with a record and no error message gives that record and no error under any
status code, and a body that decodes to an envelope with an error message gives the
API error, not a status-code error, under any status code. -/
theorem C14_Data_ignores_status (rt : Runtime) (service1 service2 : whoisApiServiceOp)
    (name1 name2 : GoString) (opts1 opts2 : List QueryOption) (req1 req2 : http.Request)
    (httpResp1 httpResp2 : http.Response) (body : GoString)
    (hname1 : name1 ≠ []) (hreq1 : service1.newRequest = .ok req1)
    (hdo1 : service1.client.Do
      { req1 with
        RawQuery := url.Values.Encode
          (requestQuery req1 name1 (opts1 ++ [OptionOutputFormat rt (lit "JSON")])) } =
        .success httpResp1 body)
    (hname2 : name2 ≠ []) (hreq2 : service2.newRequest = .ok req2)
    (hdo2 : service2.client.Do
      { req2 with
        RawQuery := url.Values.Encode
          (requestQuery req2 name2 (opts2 ++ [OptionOutputFormat rt (lit "JSON")])) } =
        .success httpResp2 body) :
    (service1.Data rt name1 opts1).1.1 = (service2.Data rt name2 opts2).1.1 ∧
    (service1.Data rt name1 opts1).1.2.2 = (service2.Data rt name2 opts2).1.2.2 ∧
    (∀ record : WhoisRecord,
      rt.decode body = .ok { WhoisRecord := some record, ErrorMessage := none } →
      (service1.Data rt name1 opts1).1.1 = some record ∧
      (service1.Data rt name1 opts1).1.2.2 = none) ∧
    (∀ (record : Option WhoisRecord) (em : ErrorMessage),
      rt.decode body = .ok { WhoisRecord := record, ErrorMessage := some em } →
      (service1.Data rt name1 opts1).1.2.2 = some (.errorMessage em) ∧
      (service1.Data rt name1 opts1).1.2.2 ≠ some (.statusCode httpResp1.StatusCode)) := by
  have h1 := Data_of_delivery rt service1 name1 opts1 req1 httpResp1 body hname1 hreq1 hdo1
  have h2 := Data_of_delivery rt service2 name2 opts2 req2 httpResp2 body hname2 hreq2 hdo2
  refine ⟨?_, ?_, ?_, ?_⟩
  · rw [h1, h2]
    cases hp : parse rt body with
    | error err => rfl
    | ok w =>
      obtain ⟨record, em⟩ := w
      cases em <;> rfl
  · rw [h1, h2]
    cases hp : parse rt body with
    | error err => rfl
    | ok w =>
      obtain ⟨record, em⟩ := w
      cases em <;> rfl
  · intro record hdec
    rw [h1]
    simp [parse, hdec]
  · intro record em hdec
    rw [h1]
    simp [parse, hdec]

/-- C14 at the error payload of the tests, delivered once with the status 400 and
once with the status 200. -/
theorem C14_Data_ignores_status_witness :
    ((sampleService 400 sampleErrorBody).Data sampleRuntime (lit "whoisxmlapi.com") []).1.1 =
      ((sampleService 200 sampleErrorBody).Data sampleRuntime (lit "whoisxmlapi.com") []).1.1 ∧
    ((sampleService 400 sampleErrorBody).Data sampleRuntime (lit "whoisxmlapi.com") []).1.2.2 =
      ((sampleService 200 sampleErrorBody).Data sampleRuntime (lit "whoisxmlapi.com") []).1.2.2 :=
  have h := C14_Data_ignores_status sampleRuntime (sampleService 400 sampleErrorBody)
    (sampleService 200 sampleErrorBody) (lit "whoisxmlapi.com") (lit "whoisxmlapi.com") [] []
    sampleRequest sampleRequest { StatusCode := 400, Header := [] }
    { StatusCode := 200, Header := [] } sampleErrorBody
    (by decide) (sampleService_newRequest _ _) rfl (by decide) (sampleService_newRequest _ _) rfl
  ⟨h.1, h.2.1⟩

/-- For a non-empty domain name and a response delivered by the transport whose body
decodes to an envelope with neither a WhoisRecord nor an ErrorMessage, `Data` returns no
record, the response wrapper and no error. -/
theorem Data_of_empty_envelope (rt : Runtime) (service : whoisApiServiceOp)
    (name : GoString) (opts : List QueryOption) (req : http.Request)
    (httpResp : http.Response) (body : GoString)
    (hname : name ≠ []) (hreq : service.newRequest = .ok req)
    (hdo : service.client.Do
      { req with
        RawQuery := url.Values.Encode
          (requestQuery req name (opts ++ [OptionOutputFormat rt (lit "JSON")])) } =
        .success httpResp body)
    (hdec : rt.decode body = .ok { WhoisRecord := none, ErrorMessage := none }) :
    (service.Data rt name opts).1 =
      (none, some { Response := some httpResp, Body := body }, none) := by
  rw [Data_of_delivery rt service name opts req httpResp body hname hreq hdo]
  simp [parse, hdec]

theorem storeEnvelopeMembers_leaves (rt : Runtime) (ms : List (GoString × GoString))
    (h : ∀ m ∈ ms, rt.LeavesEnvelope m) :
    rt.storeEnvelopeMembers ms { WhoisRecord := none, ErrorMessage := none } none =
      .ok { WhoisRecord := none, ErrorMessage := none } := by
  induction ms with
  | nil => rfl
  | cons m rest ih =>
    obtain ⟨keyText, value⟩ := m
    obtain ⟨key, hk, hf⟩ := h (keyText, value) (List.mem_cons_self _ _)
    have ih1 := ih (fun m hm => h m (List.mem_cons_of_mem _ hm))
    simp only at hk hf
    rw [Runtime.storeEnvelopeMembers, hk]
    rcases hf with hf | hf
    · simp only [hf]
      exact ih1
    · have hn : value.head? = some 110 := by rw [hf]; rfl
      cases hfield : rt.envelopeField key with
      | none => simp only [hfield]; exact ih1
      | some f =>
        cases f with
        | WhoisRecord => simp only [hfield, hn, if_true]; exact ih1
        | ErrorMessage => simp only [hfield, hn, if_true]; exact ih1

theorem decode_of_objectMembers (rt : Runtime) (body : GoString)
    (ms : List (GoString × GoString)) (hms : objectMembers body = some ms) :
    rt.decode body =
      rt.storeEnvelopeMembers ms { WhoisRecord := none, ErrorMessage := none } none := by
  unfold objectMembers at hms
  unfold Runtime.decode Runtime.unmarshalEnvelope
  cases hr : json.readValue body with
  | value n =>
    rw [hr] at hms
    simp only at hms ⊢
    cases ht : json.trimLeft (body.take n) with
    | nil => rw [ht] at hms; cases hms
    | cons c rest =>
      rw [ht] at hms
      simp only at hms ⊢
      by_cases hc : c = 123
      · rw [if_pos hc] at hms
        rw [if_pos hc, hms]
      · rw [if_neg hc] at hms; cases hms
  | syntaxError e => rw [hr] at hms; cases hms
  | eof => rw [hr] at hms; cases hms
  | unexpectedEOF => rw [hr] at hms; cases hms

/-- C16 as stated fails for an object whose key names the record in letters of another
case: the body `\x7b"whoisrecord": \x7b\x7d\x7d` is a well-formed JSON object with the one key
`whoisrecord`, which is neither `WhoisRecord` nor `ErrorMessage`, and the decoder, which
matches keys to fields without regard to case, stores its value in the field
`WhoisRecord`: `Data` returns a record, the zero value, not nil. -/
theorem C16_key_of_another_case_names_the_record :
    objectMembers (lit "\x7b\"whoisrecord\": \x7b\x7d\x7d") =
      some [(lit "\"whoisrecord\"", lit "\x7b\x7d")] ∧
    json.unquoteLiteral sampleRuntime.unquoteUnicode (lit "\"whoisrecord\"") =
      some (lit "whoisrecord") ∧
    lit "whoisrecord" ≠ lit "WhoisRecord" ∧ lit "whoisrecord" ≠ lit "ErrorMessage" ∧
    ((sampleService 200 (lit "\x7b\"whoisrecord\": \x7b\x7d\x7d")).Data sampleRuntime
        (lit "whoisxmlapi.com") []).1 =
      (some zeroRecord,
        some { Response := some { StatusCode := 200, Header := [] },
               Body := lit "\x7b\"whoisrecord\": \x7b\x7d\x7d" },
        none) := by
  refine ⟨rfl, rfl, by decide, by decide, rfl⟩

/-- C16, amended: keys name the fields of the envelope without regard to the case of
their letters. For a non-empty domain name and a response delivered by the transport
whose body begins with a well-formed JSON object in which every key that names
`WhoisRecord` or `ErrorMessage`, in letters of whatever case, has the value `null` (an
object with no such key, like `\x7b\x7d`, among them), `Data` returns no record, the response
wrapper with the received body and no error: a nil error from `Data` does not imply a
record. -/
theorem C16_Data_null_envelope (rt : Runtime) (service : whoisApiServiceOp)
    (name : GoString) (opts : List QueryOption) (req : http.Request)
    (httpResp : http.Response) (body : GoString) (ms : List (GoString × GoString))
    (hname : name ≠ []) (hreq : service.newRequest = .ok req)
    (hdo : service.client.Do
      { req with
        RawQuery := url.Values.Encode
          (requestQuery req name (opts ++ [OptionOutputFormat rt (lit "JSON")])) } =
        .success httpResp body)
    (hms : objectMembers body = some ms) (hleave : ∀ m ∈ ms, rt.LeavesEnvelope m) :
    (service.Data rt name opts).1 =
      (none, some { Response := some httpResp, Body := body }, none) ∧
    (service.Data rt name opts).1.2.2 = none ∧ (service.Data rt name opts).1.1 = none := by
  have hdec : rt.decode body = .ok { WhoisRecord := none, ErrorMessage := none } := by
    rw [decode_of_objectMembers rt body ms hms]
    exact storeEnvelopeMembers_leaves rt ms hleave
  have h := Data_of_empty_envelope rt service name opts req httpResp body hname hreq hdo hdec
  exact ⟨h, by rw [h], by rw [h]⟩

/-- C16 at the body `\x7b"WhoisRecord": null, "ErrorMessage": null, "x": 1\x7d`, delivered
with the status 200. -/
theorem C16_Data_null_envelope_witness :
    ((sampleService 200 (lit "\x7b\"WhoisRecord\": null, \"ErrorMessage\": null, \"x\": 1\x7d")).Data
        sampleRuntime (lit "whoisxmlapi.com") []).1 =
      (none,
        some { Response := some { StatusCode := 200, Header := [] },
               Body := lit "\x7b\"WhoisRecord\": null, \"ErrorMessage\": null, \"x\": 1\x7d" },
        none) :=
  (C16_Data_null_envelope sampleRuntime
    (sampleService 200 (lit "\x7b\"WhoisRecord\": null, \"ErrorMessage\": null, \"x\": 1\x7d"))
    (lit "whoisxmlapi.com") [] sampleRequest { StatusCode := 200, Header := [] }
    (lit "\x7b\"WhoisRecord\": null, \"ErrorMessage\": null, \"x\": 1\x7d")
    [(lit "\"WhoisRecord\"", lit "null"), (lit "\"ErrorMessage\"", lit "null"),
      (lit "\"x\"", lit "1")]
    (by decide) (sampleService_newRequest _ _) rfl rfl
    (by
      intro m hm
      simp only [List.mem_cons, List.mem_singleton, List.not_mem_nil, or_false] at hm
      rcases hm with rfl | rfl | rfl
      · exact ⟨lit "WhoisRecord", rfl, Or.inr rfl⟩
      · exact ⟨lit "ErrorMessage", rfl, Or.inr rfl⟩
      · exact ⟨lit "x", rfl, Or.inl (by decide)⟩)).1

/-- The body `\x7b\x7d`, the example of C16, delivered with the status 200: `Data` returns
no record, the response wrapper and no error. -/
theorem Data_of_empty_object :
    ((sampleService 200 (lit "\x7b\x7d")).Data sampleRuntime (lit "whoisxmlapi.com") []).1 =
      (none,
        some { Response := some { StatusCode := 200, Header := [] }, Body := lit "\x7b\x7d" },
        none) :=
  rfl

/-! ## encoding/json: the first value of the input -/

namespace json

theorem scalar_next (s : Scanner) (c : Byte) (h : s.Scalar) :
    (s.next c).2 = .stop ∨ (s.next c).2 = .error ∨
      ((s.next c).1.Scalar ∧ (s.next c).2 ≠ .endObject ∧ (s.next c).2 ≠ .endArray) := by
  obtain ⟨step, stack, err⟩ := s
  obtain ⟨h1, h2, h3, h4, h5⟩ := h
  simp only at h1 h2 h3 h4 h5
  subst h1
  cases step <;>
    simp only [Scanner.next, stateEndValue, stateEndTop, state0, stateESign, stateLiteral,
      Scanner.error, Scanner.Scalar] at h2 h3 h4 h5 ⊢ <;>
    (try contradiction) <;> (try split_ifs) <;> simp

theorem stop_on_space (s : Scanner) (h : (s.next 32).2 = .stop) :
    s.step = .endTop ∨ s.Scalar := by
  obtain ⟨step, stack, err⟩ := s
  cases step <;> cases stack <;>
    simp [Scanner.next, stateEndValue, stateEndTop, state0, stateESign, stateLiteral,
      Scanner.error, Scanner.Scalar, isSpace, stateBeginValue, stateBeginString,
      Scanner.pushParseState, Scanner.popParseState] at h ⊢
  all_goals (split_ifs at h)


theorem readLoop_nil (s : Scanner) (n : Nat) : readLoop s n [] = .inr s := rfl

theorem readLoop_cons (s : Scanner) (n : Nat) (c : Byte) (rest : GoString) :
    readLoop s n (c :: rest) =
      match (s.next c).2 with
      | .stop => .inl (.value n)
      | .endObject =>
        if (stateEndValue (s.next c).1 32).2 = .stop then .inl (.value (n + 1))
        else readLoop (stateEndValue (s.next c).1 32).1 (n + 1) rest
      | .endArray =>
        if (stateEndValue (s.next c).1 32).2 = .stop then .inl (.value (n + 1))
        else readLoop (stateEndValue (s.next c).1 32).1 (n + 1) rest
      | .error => .inl (.syntaxError (s.next c).1.err)
      | _ => readLoop (s.next c).1 (n + 1) rest := by
  rw [readLoop]
  rcases h : s.next c with ⟨s1, code⟩
  cases code <;> rfl

/-- A run that ends with a value that takes the whole of `p ++ q`, for a `q` that is
not empty, does not stop within `p`. -/
theorem readLoop_split (q : GoString) (hq : q ≠ []) :
    ∀ (p : GoString) (s : Scanner) (n : Nat),
      readLoop s n (p ++ q) = .inl (.value (n + p.length + q.length)) →
      ∃ s1, readLoop s n p = .inr s1 ∧
        readLoop s1 (n + p.length) q = .inl (.value (n + p.length + q.length)) := by
  have hlen : 0 < q.length := List.length_pos.mpr hq
  intro p
  induction p with
  | nil => intro s n h; exact ⟨s, rfl, by simpa using h⟩
  | cons c p ih =>
    intro s n h
    rw [List.cons_append, readLoop_cons] at h
    rw [readLoop_cons]
    have hl : n + (c :: p).length + q.length = n + 1 + p.length + q.length := by
      simp only [List.length_cons]; omega
    have hl2 : n + (c :: p).length = n + 1 + p.length := by
      simp only [List.length_cons]; omega
    rw [hl] at h
    rw [hl, hl2]
    cases hc : (s.next c).2 <;> simp only [hc] at h ⊢
    case stop =>
      exfalso
      have := h
      simp only [Sum.inl.injEq, ReadResult.value.injEq] at this
      omega
    case error => cases h
    case endObject =>
      by_cases hs : (stateEndValue (s.next c).1 32).2 = .stop
      · rw [if_pos hs] at h
        exfalso
        simp only [Sum.inl.injEq, ReadResult.value.injEq] at h
        omega
      · rw [if_neg hs] at h ⊢
        exact ih _ _ h
    case endArray =>
      by_cases hs : (stateEndValue (s.next c).1 32).2 = .stop
      · rw [if_pos hs] at h
        exfalso
        simp only [Sum.inl.injEq, ReadResult.value.injEq] at h
        omega
      · rw [if_neg hs] at h ⊢
        exact ih _ _ h
    all_goals exact ih _ _ h


/-- Outside every bracket and past the start of the value, no run ends with a value
that takes the whole input. -/
theorem scalar_not_whole (l : GoString) :
    ∀ (s : Scanner) (n : Nat), s.Scalar → readLoop s n l ≠ .inl (.value (n + l.length)) := by
  induction l with
  | nil => intro s n _ h; cases h
  | cons c rest ih =>
    intro s n hs h
    rw [readLoop_cons] at h
    have hl : n + (c :: rest).length = n + 1 + rest.length := by
      simp only [List.length_cons]; omega
    rw [hl] at h
    rcases scalar_next s c hs with h1 | h1 | ⟨h1, h2, h3⟩
    · simp only [h1, Sum.inl.injEq, ReadResult.value.injEq] at h
      omega
    · simp only [h1] at h
      cases h
    · cases hc : (s.next c).2 <;> simp only [hc] at h h2 h3
      case stop =>
        simp only [Sum.inl.injEq, ReadResult.value.injEq] at h
        omega
      case error => cases h
      case endObject => exact h2 rfl
      case endArray => exact h3 rfl
      all_goals exact ih _ _ h1 h

/-- A scanner from which the rest of the input, not empty, runs to a value that takes
it whole does not take a space as the end of the value. -/
theorem not_stop_on_space (s : Scanner) (n : Nat) (q : GoString) (hq : q ≠ [])
    (h : readLoop s n q = .inl (.value (n + q.length))) : (s.next 32).2 ≠ .stop := by
  intro hs
  rcases stop_on_space s hs with h1 | h1
  · cases q with
    | nil => exact hq rfl
    | cons c rest =>
      rw [readLoop_cons] at h
      have hc : (s.next c).2 = .stop := by
        simp only [Scanner.next, h1, stateEndTop]
        split_ifs <;> rfl
      simp only [hc, Sum.inl.injEq, ReadResult.value.injEq, List.length_cons] at h
      omega
  · exact scalar_not_whole q s n h1 h

/-- A value that ends with its closing bracket, cut strictly inside: the input ends
unexpectedly. -/
theorem readValue_truncated (p q : GoString) (hq : q ≠ []) (hp : nonSpace p = true)
    (h : readLoop Scanner.reset 0 (p ++ q) = .inl (.value (p ++ q).length)) :
    readValue p = .unexpectedEOF := by
  have h0 : readLoop Scanner.reset 0 (p ++ q) = .inl (.value (0 + p.length + q.length)) := by
    rw [h, List.length_append, Nat.zero_add]
  obtain ⟨s1, hs1, hs2⟩ := readLoop_split q hq p Scanner.reset 0 h0
  have hns := not_stop_on_space s1 (0 + p.length) q hq (by rw [hs2, Nat.add_assoc])
  simp only [readValue, hs1, hns, if_false, hp, if_true]

/-- What follows the end of the first value is not read. -/
theorem readLoop_append (t : GoString) :
    ∀ (w : GoString) (s : Scanner) (n : Nat) (r : ReadResult),
      readLoop s n w = .inl r → readLoop s n (w ++ t) = .inl r := by
  intro w
  induction w with
  | nil => intro s n r h; cases h
  | cons c rest ih =>
    intro s n r h
    rw [List.cons_append, readLoop_cons]
    rw [readLoop_cons] at h
    cases hc : (s.next c).2 <;> simp only [hc] at h ⊢
    case stop => exact h
    case error => exact h
    case endObject =>
      by_cases hs : (stateEndValue (s.next c).1 32).2 = .stop
      · rw [if_pos hs] at h ⊢; exact h
      · rw [if_neg hs] at h ⊢; exact ih _ _ _ h
    case endArray =>
      by_cases hs : (stateEndValue (s.next c).1 32).2 = .stop
      · rw [if_pos hs] at h ⊢; exact h
      · rw [if_neg hs] at h ⊢; exact ih _ _ _ h
    all_goals exact ih _ _ _ h

theorem readValue_append (w t : GoString)
    (h : readLoop Scanner.reset 0 w = .inl (.value w.length)) :
    readValue (w ++ t) = .value w.length ∧ readValue w = .value w.length := by
  constructor
  · simp only [readValue, readLoop_append t w _ _ _ h]
  · simp only [readValue, h]

/-- Leading white space is skipped, and a byte that cannot begin a JSON value is a
syntax error. -/
theorem readLoop_no_value (c : Byte) (rest : GoString)
    (hc : (stateBeginValue Scanner.reset c).2 = .error) :
    ∀ (ws : GoString) (n : Nat), (∀ b ∈ ws, isSpace b = true) →
      readLoop Scanner.reset n (ws ++ c :: rest) =
        .inl (.syntaxError (stateBeginValue Scanner.reset c).1.err) := by
  intro ws
  induction ws with
  | nil =>
    intro n _
    rw [List.nil_append, readLoop_cons]
    have e : Scanner.reset.next c = stateBeginValue Scanner.reset c := rfl
    rw [e]
    simp only [hc]
  | cons b ws ih =>
    intro n hb
    have hsp : isSpace b = true := hb b (List.mem_cons_self b ws)
    rw [List.cons_append, readLoop_cons]
    have e : Scanner.reset.next b = (Scanner.reset, .skipSpace) := by
      show stateBeginValue Scanner.reset b = _
      simp only [stateBeginValue, hsp, if_true]
    rw [e]
    exact ih (n + 1) (fun b2 h2 => hb b2 (List.mem_cons_of_mem b h2))

end json

theorem stateBeginValue_error (c : Byte)
    (h : (json.stateBeginValue json.Scanner.reset c).2 = .error) :
    (json.stateBeginValue json.Scanner.reset c).1.err =
      some { char := c, context := lit "looking for beginning of value" } := by
  by_cases h0 : json.isSpace c = true
  · simp [json.stateBeginValue, h0] at h
  by_cases h1 : c = 123
  · subst h1; exact absurd h (by decide)
  by_cases h2 : c = 91
  · subst h2; exact absurd h (by decide)
  by_cases h3 : c = 34
  · subst h3; exact absurd h (by decide)
  by_cases h4 : c = 45
  · subst h4; exact absurd h (by decide)
  by_cases h5 : c = 48
  · subst h5; exact absurd h (by decide)
  by_cases h6 : c = 116
  · subst h6; exact absurd h (by decide)
  by_cases h7 : c = 102
  · subst h7; exact absurd h (by decide)
  by_cases h8 : c = 110
  · subst h8; exact absurd h (by decide)
  by_cases h9 : 49 ≤ c.val ∧ c.val ≤ 57
  · simp [json.stateBeginValue, h0, h1, h2, h3, h4, h5, h6, h7, h8, h9] at h
  · simp only [json.stateBeginValue, h0, h1, h2, h3, h4, h5, h6, h7, h8, h9, if_false,
      Bool.false_eq_true, json.Scanner.error]

/-- C15 as stated fails for a well-formed document followed by further content: the
decoder reads the first JSON value and leaves what follows unread, so `parse` of
`\x7b\x7d x` returns the envelope of `\x7b\x7d` and no error. -/
theorem C15_trailing_content_is_accepted :
    parse sampleRuntime (lit "\x7b\x7d x") = .ok { WhoisRecord := none, ErrorMessage := none } ∧
    json.readValue (lit "\x7b\x7d x") = .value 2 := by
  exact ⟨rfl, rfl⟩

/-- C15, amended: parsing is all-or-nothing for the first JSON value of the body.
Whenever the decoder rejects the body, `parse` returns no result and the error
`cannot parse response: ` followed by the decoder's text, and otherwise the decoded
envelope. A body that ends strictly inside a value that would end with its closing
bracket (a well-formed object payload cut inside the object) gives exactly
`cannot parse response: unexpected EOF`; a body whose first byte after white space
cannot begin a JSON value (an XML page) gives `cannot parse response: invalid character`
followed by the quoted byte and ` looking for beginning of value`; what follows a
complete object or array in the body is not read, so a well-formed document followed by
further content parses as the document alone. -/
theorem C15_parse_all_or_nothing (rt : Runtime) :
    (∀ (body : GoString) (e : Error), rt.decode body = .error e →
      parse rt body = .error (.cannotParse e) ∧
      (Error.cannotParse e).Error = lit "cannot parse response: " ++ e.Error) ∧
    (∀ (body : GoString) (resp : whoisApiResponse), rt.decode body = .ok resp →
      parse rt body = .ok resp) ∧
    (∀ p q : GoString, q ≠ [] → json.nonSpace p = true →
      json.readLoop json.Scanner.reset 0 (p ++ q) = .inl (.value (p ++ q).length) →
      parse rt p = .error (.cannotParse (.foreign (lit "unexpected EOF"))) ∧
      (Error.cannotParse (.foreign (lit "unexpected EOF"))).Error =
        lit "cannot parse response: unexpected EOF") ∧
    (∀ (ws : GoString) (c : Byte) (rest : GoString), (∀ b ∈ ws, json.isSpace b = true) →
      (json.stateBeginValue json.Scanner.reset c).2 = .error →
      parse rt (ws ++ c :: rest) =
        .error (.cannotParse (.foreign
          (lit "invalid character " ++ json.quoteChar rt.quoteOther c ++
            lit " looking for beginning of value"))) ∧
      (Error.cannotParse (.foreign
          (lit "invalid character " ++ json.quoteChar rt.quoteOther c ++
            lit " looking for beginning of value"))).Error =
        lit "cannot parse response: " ++ (lit "invalid character " ++
          json.quoteChar rt.quoteOther c ++ lit " looking for beginning of value")) ∧
    (∀ w t : GoString,
      json.readLoop json.Scanner.reset 0 w = .inl (.value w.length) →
      parse rt (w ++ t) = parse rt w ∧ rt.decode (w ++ t) = rt.unmarshalEnvelope w) := by
  refine ⟨?_, ?_, ?_, ?_, ?_⟩
  · intro body e h
    exact ⟨by simp [parse, h], rfl⟩
  · intro body resp h
    simp [parse, h]
  · intro p q hq hp h
    refine ⟨?_, by decide⟩
    simp [parse, Runtime.decode, json.readValue_truncated p q hq hp h]
  · intro ws c rest hws hc
    refine ⟨?_, rfl⟩
    have h1 := json.readLoop_no_value c rest hc ws 0 hws
    simp only [parse, Runtime.decode, json.readValue, h1, stateBeginValue_error c hc,
      json.SyntaxError.Error, List.append_assoc]
    rfl
  · intro w t h
    have h1 := json.readValue_append w t h
    have e1 : rt.decode (w ++ t) = rt.unmarshalEnvelope w := by
      simp [Runtime.decode, h1.1]
    have e2 : rt.decode w = rt.unmarshalEnvelope w := by
      simp [Runtime.decode, h1.2]
    exact ⟨by simp only [parse, e1, e2], e1⟩

/-- C15 at the error payload of the tests with its last ten bytes cut off. -/
theorem C15_parse_all_or_nothing_witness :
    parse sampleRuntime (sampleErrorBody.take (sampleErrorBody.length - 10)) =
      .error (.cannotParse (.foreign (lit "unexpected EOF"))) ∧
    (Error.cannotParse (.foreign (lit "unexpected EOF"))).Error =
      lit "cannot parse response: unexpected EOF" :=
  (C15_parse_all_or_nothing sampleRuntime).2.2.1
    (sampleErrorBody.take (sampleErrorBody.length - 10))
    (sampleErrorBody.drop (sampleErrorBody.length - 10)) (by decide) (by decide)
    (by rw [List.take_append_drop]; rfl)

/-! ## time: what `Parse` accepts -/

namespace time

theorem digit_ofNat (a : Byte) (h : isDigitByte a = true) :
    (Fin.ofNat (48 + digitValue a) : Byte) = a := by
  simp only [isDigitByte, decide_eq_true_eq] at h
  apply Fin.ext
  simp only [Fin.ofNat, digitValue]
  omega

theorem digitValue_lt (a : Byte) (h : isDigitByte a = true) : digitValue a < 10 := by
  simp only [isDigitByte, decide_eq_true_eq] at h
  simp only [digitValue]
  omega

theorem getYear_inv (s rest : GoString) (y : Nat) (h : getYear s = some (y, rest)) :
    s = fourDigits y ++ rest ∧ y ≤ 9999 := by
  match s, h with
  | a :: b :: c :: d :: r, h =>
    simp only [getYear] at h
    split_ifs at h with hd
    simp only [Option.some.injEq, Prod.mk.injEq] at h
    obtain ⟨hy, hr⟩ := h
    simp only [Bool.and_eq_true] at hd
    obtain ⟨⟨⟨ha, hb⟩, hc⟩, hd⟩ := hd
    have la := digitValue_lt a ha
    have lb := digitValue_lt b hb
    have lc := digitValue_lt c hc
    have ld := digitValue_lt d hd
    subst hr
    subst hy
    refine ⟨?_, by omega⟩
    have e1 : (digitValue a * 1000 + digitValue b * 100 + digitValue c * 10 + digitValue d) /
        1000 % 10 = digitValue a := by omega
    have e2 : (digitValue a * 1000 + digitValue b * 100 + digitValue c * 10 + digitValue d) /
        100 % 10 = digitValue b := by omega
    have e3 : (digitValue a * 1000 + digitValue b * 100 + digitValue c * 10 + digitValue d) /
        10 % 10 = digitValue c := by omega
    have e4 : (digitValue a * 1000 + digitValue b * 100 + digitValue c * 10 + digitValue d) %
        10 = digitValue d := by omega
    simp only [fourDigits, e1, e2, e3, e4, digit_ofNat, ha, hb, hc, hd, List.cons_append,
      List.nil_append]

theorem getnum_fixed_inv (s rest : GoString) (n : Nat) (h : getnum s true = some (n, rest)) :
    s = twoDigits n ++ rest ∧ n < 100 := by
  match s, h with
  | [a], h =>
    simp only [getnum] at h
    split_ifs at h
  | a :: b :: r, h =>
    simp only [getnum] at h
    split_ifs at h with ha hb
    simp only [Option.some.injEq, Prod.mk.injEq] at h
    obtain ⟨hn, hr⟩ := h
    have ha2 : isDigitByte a = true := by simpa using ha
    have la := digitValue_lt a ha2
    have lb := digitValue_lt b hb
    subst hr
    subst hn
    refine ⟨?_, by omega⟩
    have e1 : (digitValue a * 10 + digitValue b) / 10 % 10 = digitValue a := by omega
    have e2 : (digitValue a * 10 + digitValue b) % 10 = digitValue b := by omega
    simp only [twoDigits, e1, e2, digit_ofNat, ha2, hb, List.cons_append, List.nil_append]

theorem skipByte_inv (p : Byte) (s rest : GoString) (h : skipByte p s = some rest) :
    s = p :: rest := by
  match s, h with
  | c :: r, h =>
    simp only [skipByte] at h
    split_ifs at h with hc
    simp only [Option.some.injEq] at h
    rw [hc, h]

theorem parseDate_inv (s rest : GoString) (y mo d : Nat)
    (h : parseDate s = some (y, mo, d, rest)) :
    s = fourDigits y ++ (45 : Byte) :: twoDigits mo ++ (45 : Byte) :: twoDigits d ++ rest ∧
      y ≤ 9999 ∧ 1 ≤ mo ∧ mo ≤ 12 ∧ d < 100 := by
  simp only [parseDate, Option.bind_eq_some] at h
  obtain ⟨⟨y1, v1⟩, h1, v2, h2, ⟨mo1, v3⟩, h3, h⟩ := h
  simp only at h
  split_ifs at h with hm
  simp only [Option.bind_eq_some] at h
  obtain ⟨v4, h4, ⟨d1, v5⟩, h5, h⟩ := h
  simp only [Option.some.injEq, Prod.mk.injEq] at h
  obtain ⟨e1, e2, e3, e4⟩ := h
  subst e1 e2 e3 e4
  have i1 := getYear_inv _ _ _ h1
  have i2 : v1 = 45 :: v2 := skipByte_inv _ _ _ h2
  have i3 := getnum_fixed_inv _ _ _ h3
  have i4 := skipByte_inv _ _ _ h4
  have i5 := getnum_fixed_inv _ _ _ h5
  refine ⟨?_, i1.2, by omega, by omega, i5.2⟩
  rw [i1.1, i2, i3.1, i4, i5.1]
  simp only [List.append_assoc, List.cons_append]

theorem parseClock_nil : parseClock [] = none := rfl

/-- A value that `Parse` accepts begins with a date `YYYY-MM-DD` and a space. -/
theorem Parse_inv (localZone : LocalZone) (s : GoString) (t : Time)
    (h : Parse localZone s = some t) :
    ∃ (y mo d : Nat) (rest : GoString),
      s = fourDigits y ++ (45 : Byte) :: twoDigits mo ++ (45 : Byte) :: twoDigits d ++
        (32 : Byte) :: rest ∧ y ≤ 9999 ∧ 1 ≤ mo ∧ mo ≤ 12 := by
  simp only [Parse, Option.bind_eq_some] at h
  obtain ⟨⟨y, mo, d, v5⟩, h1, v6, h2, ⟨hour, min, sec, nsec, v11⟩, h3, h⟩ := h
  have i1 := parseDate_inv _ _ _ _ _ h1
  cases v5 with
  | nil =>
    simp only [skipSpace, Option.some.injEq] at h2
    subst h2
    simp [parseClock_nil] at h3
  | cons c r =>
    simp only [skipSpace] at h2
    split_ifs at h2 with hc
    subst hc
    exact ⟨y, mo, d, r, i1.1, i1.2.1, i1.2.2.1, i1.2.2.2.1⟩

end time

/-- C13 as stated fails: the JSON string `"2006-01-02 5:04:05 UTC"`, whose hour has one
digit, is not of the form `YYYY-MM-DD HH:MM:SS ZONE`, and `Time.UnmarshalJSON` decodes
it without error to five hours into that day (encoded back with the hour `05`). -/
theorem C13_one_digit_hour_is_accepted :
    (∀ st : Stamp, st.render ≠ lit "2006-01-02 5:04:05 UTC") ∧
    Time.UnmarshalJSON sampleRuntime emptyTime (lit "\"2006-01-02 5:04:05 UTC\"") =
      (time.Date 2006 1 2 5 4 5 0, none) ∧
    Time.MarshalJSON sampleRuntime (time.Date 2006 1 2 5 4 5 0) =
      (lit "\"2006-01-02 05:04:05 UTC\"", none) := by
  refine ⟨?_, rfl, rfl⟩
  intro st h
  have h12 := congrArg (fun l => l.get? 12) h
  simp only [Stamp.render, fourDigits, twoDigits, List.cons_append, List.nil_append,
    List.get?_cons_succ, List.get?_cons_zero] at h12
  have h13 : (Fin.ofNat (48 + st.hour % 10) : Byte) = 58 := by
    have e : (lit "2006-01-02 5:04:05 UTC").get? 12 = some 58 := by decide
    rw [e] at h12
    exact Option.some.inj h12
  have hv : (48 + st.hour % 10) % 256 = 58 := congrArg Fin.val h13
  omega

/-! ## time: what `Format` writes for what `Parse` read -/

namespace time

theorem century_count (b r : Nat) (hb : b < 4) (hr : r < 36524 ∨ (b = 3 ∧ r = 36524)) :
    (36524 * b + r) / 36524 - (36524 * b + r) / 36524 / 4 = b := by
  interval_cases b <;> omega

theorem year_count (e yday : Nat) (he : e < 4) (hy : yday < 365 ∨ (e = 3 ∧ yday = 365)) :
    (365 * e + yday) / 365 - (365 * e + yday) / 365 / 4 = e := by
  interval_cases e <;> omega

theorem yearDay_cycles (a b c e yday : Nat) (hb : b < 4) (hc : c < 25) (he : e < 4)
    (hy : yday < 365 ∨ (yday = 365 ∧ e = 3 ∧ (c ≠ 24 ∨ b = 3))) :
    yearDay (146097 * a + 36524 * b + 1461 * c + 365 * e + yday) =
      (400 * a + 100 * b + 4 * c + e, yday) := by
  have h1 : (146097 * a + 36524 * b + 1461 * c + 365 * e + yday) / 146097 = a := by omega
  have h2 : 146097 * a + 36524 * b + 1461 * c + 365 * e + yday - 146097 * a =
      36524 * b + (1461 * c + 365 * e + yday) := by omega
  have h3 := century_count b (1461 * c + 365 * e + yday) hb (by omega)
  have h4 : 36524 * b + (1461 * c + 365 * e + yday) - 36524 * b = 1461 * c + 365 * e + yday := by
    omega
  have h5 : (1461 * c + 365 * e + yday) / 1461 = c := by omega
  have h6 : 1461 * c + 365 * e + yday - 1461 * c = 365 * e + yday := by omega
  have h7 := year_count e yday he (by omega)
  have h8 : 365 * e + yday - 365 * e = yday := by omega
  simp only [yearDay, h1, h2, h3, h4, h5, h6, h7, h8]

theorem daysSinceEpoch_cycles (Y : Nat) :
    daysSinceEpoch (Y : Int) =
      146097 * ((Y + 292277022399) / 400) + 36524 * ((Y + 292277022399) % 400 / 100) +
        1461 * ((Y + 292277022399) % 100 / 4) + 365 * ((Y + 292277022399) % 4) := by
  simp only [daysSinceEpoch, absoluteZeroYear]
  have e : ((Y : Int) - (-292277022399)).toNat = Y + 292277022399 := by omega
  rw [e]
  generalize Y + 292277022399 = y
  have h1 : y - 400 * (y / 400) = y % 400 := by omega
  have h2 : y % 400 - 100 * (y % 400 / 100) = y % 100 := by omega
  have h3 : y % 100 - 4 * (y % 100 / 4) = y % 4 := by omega
  simp only [h1, h2, h3]

theorem isLeap_iff (Y : Nat) :
    isLeap (Y : Int) = true ↔ (Y % 4 = 0 ∧ (Y % 100 ≠ 0 ∨ Y % 400 = 0)) := by
  simp only [isLeap, decide_eq_true_eq]
  omega

theorem yearDay_daysSinceEpoch (Y yday : Nat)
    (h : yday < 365 ∨ (yday = 365 ∧ isLeap (Y : Int) = true)) :
    yearDay (daysSinceEpoch (Y : Int) + yday) = (Y + 292277022399, yday) := by
  rw [isLeap_iff] at h
  rw [daysSinceEpoch_cycles, yearDay_cycles _ _ _ _ _ (by omega) (by omega) (by omega) (by omega)]
  congr 1
  omega

end time
namespace time

set_option maxRecDepth 1000000 in
theorem monthDay_table :
    ∀ (leap : Bool) (m : Fin 13) (d : Fin 32), 1 ≤ m.val → 1 ≤ d.val →
      (d.val ≤ if m.val = 2 ∧ leap = true then 29
        else daysBefore.getD m.val 0 - daysBefore.getD (m.val - 1) 0) →
      monthDay leap
          (daysBefore.getD (m.val - 1) 0 + (if leap = true ∧ 3 ≤ m.val then 1 else 0) +
            (d.val - 1)) = (m.val, d.val) ∧
      (daysBefore.getD (m.val - 1) 0 + (if leap = true ∧ 3 ≤ m.val then 1 else 0) +
          (d.val - 1) < 365 ∨
        (daysBefore.getD (m.val - 1) 0 + (if leap = true ∧ 3 ≤ m.val then 1 else 0) +
          (d.val - 1) = 365 ∧ leap = true)) := by
  decide

end time
namespace time

set_option maxRecDepth 100000 in
theorem daysIn_table : ∀ (leap : Bool) (m : Fin 13),
    (if m.val = 2 ∧ leap = true then 29
      else daysBefore.getD m.val 0 - daysBefore.getD (m.val - 1) 0) ≤ 31 := by
  decide

theorem absDate_Date (Y m d clock : Nat) (hm1 : 1 ≤ m) (hm : m ≤ 12) (hd1 : 1 ≤ d)
    (hd : d ≤ daysIn m (Y : Int)) (hc : clock < 86400) :
    absDate ((daysSinceEpoch (Y : Int) + daysBefore.getD (m - 1) 0 +
        (if isLeap (Y : Int) = true ∧ 3 ≤ m then 1 else 0) + (d - 1)) * 86400 + clock) =
      ((Y : Int), m, d) ∧
    ((daysSinceEpoch (Y : Int) + daysBefore.getD (m - 1) 0 +
        (if isLeap (Y : Int) = true ∧ 3 ≤ m then 1 else 0) + (d - 1)) * 86400 + clock) % 86400 =
      clock := by
  have hd31 : d ≤ 31 := le_trans hd (daysIn_table (isLeap (Y : Int)) ⟨m, by omega⟩)
  have ht := monthDay_table (isLeap (Y : Int)) ⟨m, by omega⟩ ⟨d, by omega⟩ hm1 hd1 hd
  simp only at ht
  generalize hy : daysBefore.getD (m - 1) 0 +
    (if isLeap (Y : Int) = true ∧ 3 ≤ m then 1 else 0) + (d - 1) = yday at ht
  have e1 : daysSinceEpoch (Y : Int) + daysBefore.getD (m - 1) 0 +
      (if isLeap (Y : Int) = true ∧ 3 ≤ m then 1 else 0) + (d - 1) =
      daysSinceEpoch (Y : Int) + yday := by
    rw [← hy]; simp only [Nat.add_assoc]
  rw [e1]
  have e2 : ((daysSinceEpoch (Y : Int) + yday) * 86400 + clock) / 86400 =
      daysSinceEpoch (Y : Int) + yday := by omega
  have e3 := yearDay_daysSinceEpoch Y yday ht.2
  have e4 : (((Y + 292277022399 : Nat) : Int)) + absoluteZeroYear = (Y : Int) := by
    simp only [absoluteZeroYear]; push_cast; omega
  refine ⟨?_, by omega⟩
  simp only [absDate, e2, e3, e4, ht.1]

end time
namespace time

set_option maxRecDepth 1000000 in
theorem appendInt_two_table : ∀ k : Fin 100, appendInt ((k.val : Nat) : Int) 2 = twoDigits k.val := by
  decide

theorem appendInt_two (n : Nat) (h : n < 100) : appendInt (n : Int) 2 = twoDigits n :=
  appendInt_two_table ⟨n, h⟩

theorem digitsAux_small (fuel n : Nat) (acc : GoString) (hf : 0 < fuel) (h : n < 10) :
    strconv.digitsAux fuel n acc = (Fin.ofNat (48 + n % 10) : Byte) :: acc := by
  obtain ⟨f, rfl⟩ : ∃ f, fuel = f + 1 := ⟨fuel - 1, by omega⟩
  have h1 : n / 10 = 0 := by omega
  simp [strconv.digitsAux, h1]

theorem digitsAux_large (fuel n : Nat) (acc : GoString) (hf : 0 < fuel) (h : 10 ≤ n) :
    strconv.digitsAux fuel n acc =
      strconv.digitsAux (fuel - 1) (n / 10) ((Fin.ofNat (48 + n % 10) : Byte) :: acc) := by
  obtain ⟨f, rfl⟩ : ∃ f, fuel = f + 1 := ⟨fuel - 1, by omega⟩
  have h1 : n / 10 ≠ 0 := by omega
  simp [strconv.digitsAux, h1]

theorem appendInt_four (k : Nat) (h : k ≤ 9999) : appendInt (k : Int) 4 = fourDigits k := by
  have hneg : ¬ ((k : Int) < 0) := by omega
  have z : (Fin.ofNat (48 + 0) : Byte) = 48 := rfl
  simp only [appendInt, Int.natAbs_ofNat, hneg, if_false, List.nil_append, strconv.formatNat,
    fourDigits]
  by_cases h1 : k < 10
  · rw [digitsAux_small _ _ _ (by omega) h1]
    have e1 : k / 1000 % 10 = 0 := by omega
    have e2 : k / 100 % 10 = 0 := by omega
    have e3 : k / 10 % 10 = 0 := by omega
    simp [e1, e2, e3, z, List.replicate]
  · rw [digitsAux_large _ _ _ (by omega) (by omega)]
    by_cases h2 : k < 100
    · rw [digitsAux_small _ _ _ (by omega) (by omega)]
      have e1 : k / 1000 % 10 = 0 := by omega
      have e2 : k / 100 % 10 = 0 := by omega
      simp [e1, e2, z, List.replicate]
    · rw [digitsAux_large _ _ _ (by omega) (by omega)]
      by_cases h3 : k < 1000
      · rw [digitsAux_small _ _ _ (by omega) (by omega)]
        have e1 : k / 1000 % 10 = 0 := by omega
        have e2 : k / 10 / 10 = k / 100 := by omega
        simp [e1, e2, z, List.replicate]
      · rw [digitsAux_large _ _ _ (by omega) (by omega)]
        rw [digitsAux_small _ _ _ (by omega) (by omega)]
        have e2 : k / 10 / 10 = k / 100 := by omega
        have e3 : k / 10 / 10 / 10 = k / 1000 := by omega
        have e4 : k / 100 / 10 = k / 1000 := by omega
        simp [e2, e3, e4, List.replicate]

end time
namespace time

theorem Format_Date (l : LocalZone) (Y m d h mi s : Nat) (hY : Y ≤ 9999) (hm1 : 1 ≤ m)
    (hm : m ≤ 12) (hd1 : 1 ≤ d) (hd : d ≤ daysIn m (Y : Int)) (hh : h < 24) (hmi : mi < 60)
    (hs : s < 60) (t : Time) (name : GoString) (offset : Int)
    (hz : zoneOf l t = (name, offset)) (hn : name ≠ [])
    (he : t.ext + offset = (Date (Y : Int) m d h mi s 0).ext) :
    Format l t =
      fourDigits Y ++ (45 : Byte) :: twoDigits m ++ (45 : Byte) :: twoDigits d ++
        (32 : Byte) :: twoDigits h ++ (58 : Byte) :: twoDigits mi ++ (58 : Byte) ::
        twoDigits s ++ (32 : Byte) :: name := by
  have hd31 : d ≤ 31 := le_trans hd (daysIn_table (isLeap (Y : Int)) ⟨m, by omega⟩)
  have hc : h * 3600 + mi * 60 + s < 86400 := by omega
  have ha := absDate_Date Y m d (h * 3600 + mi * 60 + s) hm1 hm hd1 hd hc
  generalize hA : (daysSinceEpoch (Y : Int) + daysBefore.getD (m - 1) 0 +
    (if isLeap (Y : Int) = true ∧ 3 ≤ m then 1 else 0) + (d - 1)) * 86400 +
    (h * 3600 + mi * 60 + s) = A at ha
  have e1 : (t.ext + offset + internalToAbsolute).toNat = A := by
    rw [he]
    simp only [Date, hA]
    omega
  have c1 : (h * 3600 + mi * 60 + s) / 3600 = h := by omega
  have c2 : (h * 3600 + mi * 60 + s) % 3600 / 60 = mi := by omega
  have c3 : (h * 3600 + mi * 60 + s) % 60 = s := by omega
  simp only [Format, hz, e1, ha.1, ha.2, c1, c2, c3, formatZone, hn, ne_eq, not_false_eq_true,
    if_true, appendInt_four Y hY, appendInt_two m (by omega), appendInt_two d (by omega),
    appendInt_two h (by omega), appendInt_two mi (by omega), appendInt_two s (by omega)]

end time
namespace time

theorem leadingDigits_full (l : GoString) (h : (leadingDigits l).length = l.length) :
    ∀ c ∈ l, isDigitByte c = true := by
  induction l with
  | nil => intro c hc; cases hc
  | cons a rest ih =>
    simp only [leadingDigits] at h
    by_cases ha : isDigitByte a = true
    · simp only [ha, if_true, List.length_cons, Nat.add_right_cancel_iff] at h
      intro c hc
      rcases List.mem_cons.mp hc with rfl | hc
      · exact ha
      · exact ih h c hc
    · simp [ha] at h

theorem parseSignedOffset_full (r : GoString) (hr : r ≠ [])
    (h : parseSignedOffset r = r.length) :
    ∀ c ∈ r, c = 45 ∨ c = 43 ∨ isDigitByte c = true := by
  cases r with
  | nil => exact absurd rfl hr
  | cons sign rest =>
    simp only [parseSignedOffset, List.length_cons] at h
    by_cases h1 : sign ≠ 45 ∧ sign ≠ 43
    · rw [if_pos h1] at h; omega
    · rw [if_neg h1] at h
      by_cases h2 : leadingDigits rest = []
      · rw [if_pos h2] at h; omega
      · rw [if_neg h2] at h
        by_cases h3 : digitsValue (leadingDigits rest) > 23
        · rw [if_pos h3] at h; omega
        · rw [if_neg h3] at h
          have hl : (leadingDigits rest).length = rest.length := by omega
          intro c hc
          rcases List.mem_cons.mp hc with rfl | hc
          · by_cases h45 : c = 45
            · exact Or.inl h45
            · by_cases h43 : c = 43
              · exact Or.inr (Or.inl h43)
              · exact absurd ⟨h45, h43⟩ h1
          · exact Or.inr (Or.inr (leadingDigits_full rest hl c hc))

theorem upperCount_full (z : GoString) (hl : z.length ≤ 6) (h : upperCount z = z.length) :
    ∀ c ∈ z, isUpperByte c = true := by
  simp only [upperCount, List.take_of_length_le hl] at h
  have hp : z.takeWhile isUpperByte = z :=
    List.IsPrefix.eq_of_length (List.takeWhile_prefix _) h
  exact List.takeWhile_eq_self_iff.mp hp

end time
namespace time

set_option maxRecDepth 100000 in
theorem upper_plain : ∀ c : Byte, isUpperByte c = true → plainByte c = true ∧ c ≠ 32 := by
  decide

set_option maxRecDepth 100000 in
theorem digit_plain : ∀ c : Byte, isDigitByte c = true → plainByte c = true ∧ c ≠ 32 := by
  decide

set_option maxRecDepth 100000 in
theorem named_plain : ∀ z ∈ [lit "ChST", lit "MeST", lit "GMT"], ∀ c ∈ z,
    plainByte c = true ∧ c ≠ 32 := by
  decide

theorem signed_plain (r : GoString) (hr : r ≠ []) (h : parseSignedOffset r = r.length) :
    ∀ c ∈ r, plainByte c = true ∧ c ≠ 32 := by
  intro c hc
  rcases parseSignedOffset_full r hr h c hc with rfl | rfl | hd
  · decide
  · decide
  · exact digit_plain c hd

theorem parseTimeZone_full (z : GoString) (h : parseTimeZone z = some z.length) :
    ∀ c ∈ z, plainByte c = true ∧ c ≠ 32 := by
  unfold parseTimeZone at h
  by_cases h0 : z.length < 3
  · rw [if_pos h0] at h; cases h
  rw [if_neg h0] at h
  by_cases h1 : z.take 4 = lit "ChST" ∨ z.take 4 = lit "MeST"
  · rw [if_pos h1] at h
    have hl : z.length = 4 := (Option.some.inj h).symm
    rw [List.take_of_length_le (by omega)] at h1
    rcases h1 with h1 | h1
    · rw [h1]; exact named_plain _ (by simp)
    · rw [h1]; exact named_plain _ (by simp)
  rw [if_neg h1] at h
  by_cases h2 : z.take 3 = lit "GMT"
  · rw [if_pos h2] at h
    have hl : parseGMT z = z.length := Option.some.inj h
    have hz : z = lit "GMT" ++ z.drop 3 := by rw [← h2, List.take_append_drop]
    unfold parseGMT at hl
    by_cases h3 : z.drop 3 = []
    · rw [h3, List.append_nil] at hz
      rw [hz]; exact named_plain _ (by simp)
    · rw [if_neg h3] at hl
      have hd : (z.drop 3).length = z.length - 3 := List.length_drop 3 z
      intro c hc
      rw [hz] at hc
      rcases List.mem_append.mp hc with hc | hc
      · exact named_plain _ (by simp) c hc
      · exact signed_plain (z.drop 3) h3 (by omega) c hc
  rw [if_neg h2] at h
  by_cases h4 : z.head? = some 43 ∨ z.head? = some 45
  · rw [if_pos h4] at h
    by_cases h5 : parseSignedOffset z > 0
    · rw [if_pos h5] at h
      exact signed_plain z (by intro e; rw [e] at h0; simp at h0) (Option.some.inj h)
    · rw [if_neg h5] at h; cases h
  rw [if_neg h4] at h
  split at h
  · split_ifs at h
    have hl : z.length = 5 := (Option.some.inj h).symm
    exact fun c hc => upper_plain c (upperCount_full z (by omega) (by omega) c hc)
  · split_ifs at h
    have hl : z.length = 4 := (Option.some.inj h).symm
    exact fun c hc => upper_plain c (upperCount_full z (by omega) (by omega) c hc)
  · have hl : z.length = 3 := (Option.some.inj h).symm
    exact fun c hc => upper_plain c (upperCount_full z (by omega) (by omega) c hc)
  · cases h

end time
namespace time

theorem ofNat_digit_table : ∀ k : Fin 10,
    isDigitByte (Fin.ofNat (48 + k.val)) = true ∧ digitValue (Fin.ofNat (48 + k.val)) = k.val ∧
      plainByte (Fin.ofNat (48 + k.val)) = true := by
  decide

theorem isDigitByte_ofNat (n : Nat) : isDigitByte (Fin.ofNat (48 + n % 10)) = true :=
  (ofNat_digit_table ⟨n % 10, Nat.mod_lt n (by decide)⟩).1

theorem digitValue_ofNat (n : Nat) : digitValue (Fin.ofNat (48 + n % 10)) = n % 10 :=
  (ofNat_digit_table ⟨n % 10, Nat.mod_lt n (by decide)⟩).2.1

theorem plainByte_ofNat (n : Nat) : plainByte (Fin.ofNat (48 + n % 10)) = true :=
  (ofNat_digit_table ⟨n % 10, Nat.mod_lt n (by decide)⟩).2.2

theorem getYear_fourDigits (Y : Nat) (rest : GoString) (hY : Y ≤ 9999) :
    getYear (fourDigits Y ++ rest) = some (Y, rest) := by
  have e : Y / 1000 % 10 * 1000 + Y / 100 % 10 * 100 + Y / 10 % 10 * 10 + Y % 10 = Y := by omega
  simp only [fourDigits, List.cons_append, List.nil_append, getYear, isDigitByte_ofNat,
    digitValue_ofNat, Bool.and_self, if_true, e]

theorem getnum_twoDigits (n : Nat) (rest : GoString) ( fixed : Bool) (hn : n < 100) :
    getnum (twoDigits n ++ rest) fixed = some (n, rest) := by
  have e : n / 10 % 10 * 10 + n % 10 = n := by omega
  simp only [twoDigits, List.cons_append, List.nil_append, getnum, isDigitByte_ofNat,
    digitValue_ofNat, if_true, e, Bool.true_eq_false, if_false]

theorem parseDate_fields (Y m d : Nat) (rest : GoString) (hY : Y ≤ 9999) (hm1 : 1 ≤ m)
    (hm : m ≤ 12) (hd : d < 100) :
    parseDate (fourDigits Y ++ (45 : Byte) :: twoDigits m ++ (45 : Byte) :: twoDigits d ++ rest) =
      some (Y, m, d, rest) := by
  have h1 : ¬ (m = 0 ∨ 12 < m) := by omega
  simp only [parseDate, List.append_assoc, List.cons_append, getYear_fourDigits Y _ hY,
    Option.bind_some, Option.some_bind, skipByte, if_true, getnum_twoDigits m _ true (by omega),
    h1, if_false, getnum_twoDigits d _ true hd]

theorem parseClock_fields (h mi s : Nat) (rest : GoString) (hh : h < 24) (hmi : mi < 60)
    (hs : s < 60) :
    parseClock (twoDigits h ++ (58 : Byte) :: twoDigits mi ++ (58 : Byte) :: twoDigits s ++
        (32 : Byte) :: rest) = some (h, mi, s, 0, (32 : Byte) :: rest) := by
  have h1 : ¬ (24 ≤ h) := by omega
  have h2 : ¬ (60 ≤ mi) := by omega
  have h3 : ¬ (60 ≤ s) := by omega
  have hf : getFraction ((32 : Byte) :: rest) = (0, (32 : Byte) :: rest) := by
    cases rest with
    | nil => rfl
    | cons d r =>
      have hp : ¬ (((32 : Byte) = 46 ∨ (32 : Byte) = 44) ∧ isDigitByte d = true) := by
        intro hc; rcases hc.1 with hc | hc <;> exact absurd hc (by decide)
      simp only [getFraction, hp, if_false]
  simp only [parseClock, List.append_assoc, List.cons_append,
    getnum_twoDigits h _ false (by omega), Option.bind_some, Option.some_bind, h1, if_false,
    skipByte, if_true, getnum_twoDigits mi _ true (by omega), h2,
    getnum_twoDigits s _ true (by omega), h3, hf]

theorem cutspace_of_head (z : GoString) (hz : ∀ c ∈ z, c ≠ 32) : cutspace z = z := by
  cases z with
  | nil => rfl
  | cons a r => simp only [cutspace, hz a (List.mem_cons_self a r), if_false]

end time

theorem hasUnicode_plain (s : GoString) (h : ∀ c ∈ s, plainByte c = true) :
    json.hasUnicode (s ++ [(34 : Byte)]) = false := by
  induction s with
  | nil => rfl
  | cons a r ih =>
    have ha := h a (List.mem_cons_self a r)
    simp only [plainByte, decide_eq_true_eq] at ha
    have h92 : ¬ (a = 92) := ha.2.2.2
    have h128 : ¬ (128 ≤ a.val) := by omega
    rw [List.cons_append, json.hasUnicode.eq_def]
    simp only [h92, if_false, h128, decide_False, Bool.false_or]
    exact ih (fun c hc => h c (List.mem_cons_of_mem a hc))

theorem unquoteBody_plain (s : GoString) (h : ∀ c ∈ s, plainByte c = true) :
    json.unquoteBody (s ++ [(34 : Byte)]) = some s := by
  induction s with
  | nil => rfl
  | cons a r ih =>
    have ha := h a (List.mem_cons_self a r)
    simp only [plainByte, decide_eq_true_eq] at ha
    have h34 : ¬ (a = 34) := ha.2.2.1
    have h92 : ¬ (a = 92) := ha.2.2.2
    have h32 : ¬ (a.val < 32) := by omega
    rw [List.cons_append, json.unquoteBody.eq_def]
    simp only [h34, h92, h32, if_false,
      ih (fun c hc => h c (List.mem_cons_of_mem a hc)), Option.map_some']

theorem trim_quoted (s : GoString) : json.trim (quoted s) = quoted s := by
  have h1 : ∀ l : GoString, json.trimLeft ((34 : Byte) :: l) = (34 : Byte) :: l := by
    intro l
    have e : json.isSpace 34 = false := by decide
    simp only [json.trimLeft, e, Bool.false_eq_true, if_false]
  have h2 : (quoted s).reverse = (34 : Byte) :: (s.reverse ++ [(34 : Byte)]) := by
    simp [quoted]
  have h3 : json.trimLeft (quoted s) = quoted s := h1 _
  rw [json.trim, h3, h2, h1, ← h2, List.reverse_reverse]

theorem unmarshalString_quoted (rt : Runtime) (s : GoString)
    (h : ∀ c ∈ s, plainByte c = true) : unmarshalString rt (quoted s) = .ok s := by
  have hn : ¬ (quoted s = lit "null") := by
    intro e
    have := congrArg List.head? e
    exact absurd this (by simp [quoted]; decide)
  have e : json.unmarshalToString rt.unquoteUnicode (quoted s) = some s := by
    rw [json.unmarshalToString, trim_quoted]
    simp only [hn, if_false]
    rw [quoted]
    simp only [List.cons_append, if_true, hasUnicode_plain s h, Bool.false_eq_true, if_false,
      unquoteBody_plain s h]
  simp only [unmarshalString, e]

namespace time

set_option maxRecDepth 100000 in
theorem utc_plain : ∀ c ∈ lit "UTC", plainByte c = true ∧ c ≠ 32 := by
  decide

theorem cutspace_twoDigits (n : Nat) (rest : GoString) :
    cutspace (twoDigits n ++ rest) = twoDigits n ++ rest := by
  have h : ¬ ((Fin.ofNat (48 + n / 10 % 10) : Byte) = 32) := by
    intro e
    have := isDigitByte_ofNat (n / 10)
    rw [e] at this
    exact absurd this (by decide)
  simp only [twoDigits, List.cons_append, List.nil_append, cutspace, h, if_false]
  rfl

theorem cutspace_clock (h mi s : Nat) (rest : GoString) :
    cutspace (twoDigits h ++ (58 : Byte) :: twoDigits mi ++ (58 : Byte) :: twoDigits s ++
        (32 : Byte) :: rest) =
      twoDigits h ++ (58 : Byte) :: twoDigits mi ++ (58 : Byte) :: twoDigits s ++
        (32 : Byte) :: rest := by
  simp only [List.append_assoc, cutspace_twoDigits]

theorem zone_plain (st : Stamp) (hv : st.Valid) :
    ∀ c ∈ st.zone, plainByte c = true ∧ c ≠ 32 := by
  rcases hv.2.2.2.2.2.2.2.2 with hz | hz
  · rw [hz]; exact utc_plain
  · exact parseTimeZone_full st.zone hz.2

theorem Parse_render (l : LocalZone) (st : Stamp) (hv : st.Valid) :
    Parse l st.render =
      some (if st.zone = lit "UTC" then st.utcReading
        else withZoneName l st.utcReading st.zone) := by
  obtain ⟨hY, hm1, hm, hd1, hd, hh, hmi, hs, hz⟩ := hv
  have hd31 : st.day ≤ 31 :=
    le_trans hd (daysIn_table (isLeap (st.year : Int)) ⟨st.month, by omega⟩)
  have hzp := zone_plain st ⟨hY, hm1, hm, hd1, hd, hh, hmi, hs, hz⟩
  have hcut : cutspace st.zone = st.zone := cutspace_of_head _ (fun c hc => (hzp c hc).2)
  have hday : ¬ (st.day < 1 ∨ st.day > daysIn st.month (st.year : Int)) := by omega
  have hr : st.render =
      fourDigits st.year ++ (45 : Byte) :: twoDigits st.month ++ (45 : Byte) :: twoDigits st.day ++
        ((32 : Byte) :: (twoDigits st.hour ++ (58 : Byte) :: twoDigits st.min ++ (58 : Byte) ::
          twoDigits st.sec ++ (32 : Byte) :: st.zone)) := by
    simp only [Stamp.render, List.append_assoc, List.cons_append]
  have hP : Parse l st.render =
      parseZone l st.year st.month st.day st.hour st.min st.sec 0 st.zone := by
    rw [Parse, hr, parseDate_fields st.year st.month st.day _ hY hm1 hm (by omega)]
    simp only [Option.some_bind, skipSpace, if_true, cutspace_clock,
      parseClock_fields st.hour st.min st.sec _ hh hmi hs, hcut]
  rw [hP]
  rcases hz with hz | hz
  · have e1 : st.zone.take 3 = lit "UTC" := by rw [hz]; rfl
    have e2 : ¬ (st.zone.drop 3 ≠ []) := by rw [hz]; decide
    rw [if_pos hz]
    simp only [parseZone, e1, if_true, e2, if_false, hday, Stamp.utcReading]
  · have e3 : st.zone ≠ lit "UTC" := by
      intro e; rw [e] at hz; exact hz.1 rfl
    have e4 : ¬ (st.zone.drop st.zone.length ≠ []) := by simp
    simp only [parseZone, hz.1, if_false, hz.2, Option.bind_some, Option.some_bind, e4, hday,
      List.take_length, e3, Stamp.utcReading]

end time

theorem render_plain (st : Stamp) (hv : st.Valid) : ∀ c ∈ st.render, plainByte c = true := by
  intro c hc
  simp only [Stamp.render, fourDigits, twoDigits, List.cons_append, List.nil_append] at hc
  repeat
    rcases List.mem_cons.mp hc with rfl | hc'
    · first | exact time.plainByte_ofNat _ | decide
    clear hc; rename _ => hc
  exact (time.zone_plain st hv c hc).1

theorem zone_ne_nil (st : Stamp) (hv : st.Valid) : st.zone ≠ [] := by
  rcases hv.2.2.2.2.2.2.2.2 with hz | hz
  · rw [hz]; decide
  · intro e
    have h := hz.2
    rw [e] at h
    exact absurd h (by decide)

theorem Format_emptyTime (l : time.LocalZone) :
    time.Format l emptyTime = lit "0001-01-01 00:00:00 UTC" := by
  have h : time.zoneOf l emptyTime = (lit "UTC", 0) := rfl
  simp only [time.Format, h]
  rfl

theorem Format_render (l : time.LocalZone) (st : Stamp) (hv : st.Valid)
    (hz : st.ZoneReadsBack l) :
    time.Format l (if st.zone = lit "UTC" then st.utcReading
      else time.withZoneName l st.utcReading st.zone) = st.render := by
  have hn := zone_ne_nil st hv
  obtain ⟨hY, hm1, hm, hd1, hd, hh, hmi, hs, hzv⟩ := hv
  by_cases hu : st.zone = lit "UTC"
  · rw [if_pos hu]
    rw [time.Format_Date l st.year st.month st.day st.hour st.min st.sec hY hm1 hm hd1 hd hh hmi hs
      st.utcReading (lit "UTC") 0 rfl (by decide) (by simp [Stamp.utcReading])]
    rw [Stamp.render, hu]
  · rw [if_neg hu]
    rcases hz with hz | hz
    · exact absurd hz hu
    · unfold time.withZoneName
      cases hl : l.lookupName st.zone (st.utcReading.ext - time.unixToInternal) with
      | some offset =>
        rw [hl] at hz
        simp only at hz ⊢
        rw [time.Format_Date l st.year st.month st.day st.hour st.min st.sec hY hm1 hm hd1 hd hh
          hmi hs _ st.zone offset (by simp only [time.zoneOf]; exact hz) hn
          (by simp only [Stamp.utcReading]; omega)]
        rw [Stamp.render]
      | none =>
        rw [hl] at hz
        simp only at hz ⊢
        rw [time.Format_Date l st.year st.month st.day st.hour st.min st.sec hY hm1 hm hd1 hd hh
          hmi hs _ st.zone 0 (by simp only [time.zoneOf, hz]) hn
          (by simp only [Stamp.utcReading]; omega)]
        rw [Stamp.render]


/-- C4, amended: the round trip holds for every valid timestamp other than
`0001-01-01 00:00:00 UTC` whose zone reads back. For every timestamp
`YYYY-MM-DD HH:MM:SS ZONE` with a year of four digits, a month from 1 to 12, a day of
that month, an hour below 24, a minute and a second below 60, and a zone that is `UTC`
or an abbreviation that `time.Parse` accepts in full, such that the zone is `UTC`, or
the local zone of the host knows the abbreviation and has it in effect, with the same
offset, at the instant read, or the local zone does not know it and it is not `GMT`
with hours other than zero: `Time.UnmarshalJSON` of the quoted timestamp succeeds,
whatever the target held before, with the time of these fields in that zone, and
`Time.MarshalJSON` of that time gives exactly the quoted timestamp and no error. -/
theorem C4_valid_timestamp_round_trip (rt : Runtime) (t0 : Time) (st : Stamp)
    (hv : st.Valid) (hz : st.ZoneReadsBack rt.localZone)
    (hne : st.render ≠ lit "0001-01-01 00:00:00 UTC") :
    Time.UnmarshalJSON rt t0 (quoted st.render) =
      (if st.zone = lit "UTC" then st.utcReading
        else time.withZoneName rt.localZone st.utcReading st.zone, none) ∧
    Time.MarshalJSON rt (if st.zone = lit "UTC" then st.utcReading
        else time.withZoneName rt.localZone st.utcReading st.zone) =
      (quoted st.render, none) := by
  have hu := unmarshalString_quoted rt st.render (render_plain st hv)
  have hp := time.Parse_render rt.localZone st hv
  have hF := Format_render rt.localZone st hv hz
  have hr : st.render ≠ [] := by
    simp [Stamp.render, fourDigits]
  constructor
  · simp only [Time.UnmarshalJSON, hu, hr, if_false, hp]
  · have ht : ¬ ((if st.zone = lit "UTC" then st.utcReading
        else time.withZoneName rt.localZone st.utcReading st.zone) = emptyTime) := by
      intro e
      rw [e, Format_emptyTime] at hF
      exact hne hF.symm
    simp only [Time.MarshalJSON, ht, if_false, hF, quoted]

set_option maxRecDepth 100000 in
/-- C4 at the first timestamp of the tests, `2006-01-02 15:04:05 EST`, on a host whose
local zone does not know `EST`. -/
theorem C4_valid_timestamp_round_trip_witness :
    Time.UnmarshalJSON sampleRuntime emptyTime (lit "\"2006-01-02 15:04:05 EST\"") =
      ({ wall := 0, ext := 63271811045, loc := some (.Fixed (lit "EST") 0) }, none) ∧
    Time.MarshalJSON sampleRuntime
        { wall := 0, ext := 63271811045, loc := some (.Fixed (lit "EST") 0) } =
      (lit "\"2006-01-02 15:04:05 EST\"", none) :=
  C4_valid_timestamp_round_trip sampleRuntime emptyTime
    { year := 2006, month := 1, day := 2, hour := 15, min := 4, sec := 5, zone := lit "EST" }
    ⟨by decide, by decide, by decide, by decide, by decide, by decide, by decide, by decide,
      Or.inr ⟨by decide, by decide⟩⟩
    (Or.inr rfl) (by decide)


/-- A zone `GMT` with hours other than zero does not read back on a host whose local
zone does not know it: the time is taken as UTC and shown in the zone made up for the
abbreviation, five hours later for `GMT+5`. -/
theorem GMT_hours_shift_the_clock :
    Time.UnmarshalJSON sampleRuntime emptyTime (lit "\"2006-01-02 15:04:05 GMT+5\"") =
      ({ wall := 0, ext := 63271811045, loc := some (.Fixed (lit "GMT+5") 18000) }, none) ∧
    Time.MarshalJSON sampleRuntime
        { wall := 0, ext := 63271811045, loc := some (.Fixed (lit "GMT+5") 18000) } =
      (lit "\"2006-01-02 20:04:05 GMT+5\"", none) := by
  exact ⟨rfl, rfl⟩

namespace time

theorem cutspace_inv (v : GoString) :
    ∃ k, v = List.replicate k (32 : Byte) ++ cutspace v := by
  induction v with
  | nil => exact ⟨0, rfl⟩
  | cons c r ih =>
    by_cases hc : c = 32
    · obtain ⟨k, hk⟩ := ih
      refine ⟨k + 1, ?_⟩
      simp only [cutspace, hc, if_true, List.replicate_succ, List.cons_append]
      rw [← hk]
    · exact ⟨0, by simp [cutspace, hc]⟩

theorem skipSpace_inv (v w : GoString) (h : skipSpace v = some w) (hw : w ≠ []) :
    ∃ k, v = (32 : Byte) :: List.replicate k (32 : Byte) ++ w := by
  cases v with
  | nil =>
    simp only [skipSpace, Option.some.injEq] at h
    exact absurd h.symm hw
  | cons c r =>
    simp only [skipSpace] at h
    split_ifs at h with hc
    simp only [Option.some.injEq] at h
    obtain ⟨k, hk⟩ := cutspace_inv r
    refine ⟨k, ?_⟩
    rw [hc, ← h, List.cons_append, ← hk]

theorem getnum_loose_inv (s rest : GoString) (n : Nat) (h : getnum s false = some (n, rest)) :
    (s = twoDigits n ++ rest ∧ n < 100) ∨
      (n < 10 ∧ s = (Fin.ofNat (48 + n % 10) : Byte) :: rest) := by
  match s, h with
  | [a], h =>
    simp only [getnum] at h
    split_ifs at h with ha
    simp only [Bool.false_eq_true, if_false, Option.some.injEq, Prod.mk.injEq] at h
    have ha2 : isDigitByte a = true := by simpa using ha
    have la := digitValue_lt a ha2
    obtain ⟨hn, hr⟩ := h
    subst hn hr
    right
    refine ⟨la, ?_⟩
    rw [Nat.mod_eq_of_lt la, digit_ofNat a ha2]
  | a :: b :: r, h =>
    simp only [getnum] at h
    split_ifs at h with ha hb
    · simp only [Option.some.injEq, Prod.mk.injEq] at h
      obtain ⟨hn, hr⟩ := h
      have ha2 : isDigitByte a = true := by simpa using ha
      have la := digitValue_lt a ha2
      have lb := digitValue_lt b hb
      subst hr
      subst hn
      left
      refine ⟨?_, by omega⟩
      have e1 : (digitValue a * 10 + digitValue b) / 10 % 10 = digitValue a := by omega
      have e2 : (digitValue a * 10 + digitValue b) % 10 = digitValue b := by omega
      simp only [twoDigits, e1, e2, digit_ofNat, ha2, hb, List.cons_append, List.nil_append]
    · simp only [Option.some.injEq, Prod.mk.injEq] at h
      obtain ⟨hn, hr⟩ := h
      have ha2 : isDigitByte a = true := by simpa using ha
      have la := digitValue_lt a ha2
      subst hn hr
      right
      refine ⟨la, ?_⟩
      rw [Nat.mod_eq_of_lt la, digit_ofNat a ha2]

theorem leadingDigits_split (l : GoString) :
    leadingDigits l ++ l.drop (leadingDigits l).length = l ∧
      (leadingDigits l).all isDigitByte = true := by
  induction l with
  | nil => exact ⟨rfl, rfl⟩
  | cons a r ih =>
    by_cases ha : isDigitByte a = true
    · simp only [leadingDigits, ha, if_true, List.length_cons, List.drop_succ_cons,
        List.cons_append, ih.1, List.all_cons, ih.2, Bool.and_self, and_self]
    · simp [leadingDigits, ha]

theorem leadingDigits_length_le (l : GoString) : (leadingDigits l).length ≤ l.length := by
  have h := congrArg List.length (leadingDigits_split l).1
  rw [List.length_append] at h
  omega

theorem getFraction_inv (v : GoString) :
    ∃ f, isFraction f = true ∧ v = f ++ (getFraction v).2 := by
  match v with
  | [] => exact ⟨[], rfl, rfl⟩
  | [p] => exact ⟨[], rfl, rfl⟩
  | p :: d :: rest =>
    by_cases hc : (p = 46 ∨ p = 44) ∧ isDigitByte d = true
    · refine ⟨p :: leadingDigits (d :: rest), ?_, ?_⟩
      · have h1 := (leadingDigits_split (d :: rest)).2
        have h2 : leadingDigits (d :: rest) ≠ [] := by simp [leadingDigits, hc.2]
        have h3 : (decide (p = 46) || decide (p = 44)) = true := by simpa using hc.1
        simp only [isFraction, h1, h3, Bool.and_true, Bool.true_and, Bool.not_eq_true',
          List.isEmpty_eq_false, ne_eq]
        exact h2
      · simp only [getFraction, hc, and_self, if_true, List.cons_append,
          (leadingDigits_split (d :: rest)).1]
    · refine ⟨[], rfl, ?_⟩
      simp only [getFraction, hc, if_false, List.nil_append]

theorem parseClock_inv (v rest : GoString) (h mi s ns : Nat)
    (hp : parseClock v = some (h, mi, s, ns, rest)) :
    ∃ (short : Bool) (f : GoString),
      v = (if short = true then [(Fin.ofNat (48 + h % 10) : Byte)] else twoDigits h) ++
        (58 : Byte) :: twoDigits mi ++ (58 : Byte) :: twoDigits s ++ f ++ rest ∧
      h < 24 ∧ mi < 60 ∧ s < 60 ∧ (short = true → h < 10) ∧ isFraction f = true := by
  simp only [parseClock, Option.bind_eq_some] at hp
  obtain ⟨⟨h1, v7⟩, g1, hp⟩ := hp
  simp only at hp
  split_ifs at hp with hh
  simp only [Option.bind_eq_some] at hp
  obtain ⟨v8, g2, ⟨mi1, v9⟩, g3, hp⟩ := hp
  simp only at hp
  split_ifs at hp with hmi
  simp only [Option.bind_eq_some] at hp
  obtain ⟨v10, g4, ⟨s1, v11⟩, g5, hp⟩ := hp
  simp only at hp
  split_ifs at hp with hs
  simp only [Option.some.injEq, Prod.mk.injEq] at hp
  obtain ⟨e1, e2, e3, _, e5⟩ := hp
  subst e1 e2 e3
  have i2 := skipByte_inv _ _ _ g2
  have i3 := getnum_fixed_inv _ _ _ g3
  have i4 := skipByte_inv _ _ _ g4
  have i5 := getnum_fixed_inv _ _ _ g5
  obtain ⟨f, hf, hv⟩ := getFraction_inv v11
  rw [e5] at hv
  rcases getnum_loose_inv _ _ _ g1 with i1 | i1
  · refine ⟨false, f, ?_, by omega, by omega, by omega, by simp, hf⟩
    rw [i1.1, i2, i3.1, i4, i5.1, hv]
    simp only [Bool.false_eq_true, if_false, List.append_assoc, List.cons_append]
  · refine ⟨true, f, ?_, by omega, by omega, by omega, fun _ => i1.1, hf⟩
    rw [i1.2, i2, i3.1, i4, i5.1, hv]
    simp only [if_true, List.append_assoc, List.cons_append, List.nil_append]

end time
namespace time

theorem parseSignedOffset_le (r : GoString) : parseSignedOffset r ≤ r.length := by
  cases r with
  | nil => simp [parseSignedOffset]
  | cons sign rest =>
    have h := leadingDigits_length_le rest
    simp only [parseSignedOffset, List.length_cons]
    split_ifs <;> omega

theorem upperCount_le (v : GoString) : upperCount v ≤ v.length := by
  have h1 : ((v.take 6).takeWhile isUpperByte).length ≤ (v.take 6).length :=
    (List.takeWhile_prefix _).length_le
  have h2 : (v.take 6).length ≤ v.length := by
    rw [List.length_take]; omega
  exact le_trans h1 h2

theorem parseTimeZone_le (v : GoString) (n : Nat) (h : parseTimeZone v = some n) :
    n ≤ v.length := by
  unfold parseTimeZone at h
  by_cases h0 : v.length < 3
  · rw [if_pos h0] at h; cases h
  rw [if_neg h0] at h
  by_cases h1 : v.take 4 = lit "ChST" ∨ v.take 4 = lit "MeST"
  · rw [if_pos h1] at h
    have hn : n = 4 := (Option.some.inj h).symm
    have hl : (v.take 4).length = 4 := by
      rcases h1 with h1 | h1 <;> rw [h1] <;> rfl
    rw [List.length_take] at hl
    omega
  rw [if_neg h1] at h
  by_cases h2 : v.take 3 = lit "GMT"
  · rw [if_pos h2] at h
    have hn : parseGMT v = n := Option.some.inj h
    unfold parseGMT at hn
    have hd : (v.drop 3).length = v.length - 3 := List.length_drop 3 v
    have hs := parseSignedOffset_le (v.drop 3)
    split_ifs at hn <;> omega
  rw [if_neg h2] at h
  by_cases h4 : v.head? = some 43 ∨ v.head? = some 45
  · rw [if_pos h4] at h
    have hs := parseSignedOffset_le v
    split_ifs at h
    have hn := Option.some.inj h
    omega
  rw [if_neg h4] at h
  have hu := upperCount_le v
  split at h
  · split_ifs at h
    have hn := Option.some.inj h
    omega
  · split_ifs at h
    have hn := Option.some.inj h
    omega
  · have hn := Option.some.inj h
    omega
  · cases h

theorem parseZone_inv (l : LocalZone) (Y mo d h mi s ns : Nat) (v : GoString) (t : Time)
    (hp : parseZone l Y mo d h mi s ns v = some t) :
    1 ≤ d ∧ d ≤ daysIn mo (Y : Int) ∧
      (v = lit "UTC" ∨ (v.take 3 ≠ lit "UTC" ∧ parseTimeZone v = some v.length)) := by
  unfold parseZone at hp
  by_cases hu : v.take 3 = lit "UTC"
  · rw [if_pos hu] at hp
    by_cases hd : v.drop 3 ≠ []
    · rw [if_pos hd] at hp; cases hp
    · rw [if_neg hd] at hp
      by_cases hday : d < 1 ∨ d > daysIn mo (Y : Int)
      · rw [if_pos hday] at hp; cases hp
      · refine ⟨by omega, by omega, Or.inl ?_⟩
        have hd2 : v.drop 3 = [] := by simpa using hd
        rw [← List.take_append_drop 3 v, hu, hd2, List.append_nil]
  · rw [if_neg hu] at hp
    simp only [Option.bind_eq_some] at hp
    obtain ⟨n, hn, hp⟩ := hp
    by_cases hd : v.drop n ≠ []
    · rw [if_pos hd] at hp; cases hp
    · rw [if_neg hd] at hp
      by_cases hday : d < 1 ∨ d > daysIn mo (Y : Int)
      · rw [if_pos hday] at hp; cases hp
      · refine ⟨by omega, by omega, Or.inr ⟨hu, ?_⟩⟩
        have hd2 : v.drop n = [] := by simpa using hd
        have hle := parseTimeZone_le v n hn
        have hge : v.length ≤ n := List.drop_eq_nil_iff.mp hd2
        rw [hn]
        congr 1
        omega

theorem parseZone_nil (l : LocalZone) (Y mo d h mi s ns : Nat) :
    parseZone l Y mo d h mi s ns [] = none := rfl

/-- A value that `Parse` accepts is a valid timestamp written with the liberties of
`LooseStamp`. -/
theorem Parse_loose_inv (l : LocalZone) (str : GoString) (t : Time)
    (hp : Parse l str = some t) : ∃ ls : LooseStamp, ls.Valid ∧ ls.render = str := by
  simp only [Parse, Option.bind_eq_some] at hp
  obtain ⟨⟨Y, mo, d, v5⟩, h1, v6, h2, ⟨h, mi, s, ns, v11⟩, h3, v12, h4, h5⟩ := hp
  simp only at h2 h3 h4 h5
  have i1 := parseDate_inv _ _ _ _ _ h1
  have hv6 : v6 ≠ [] := by
    intro e; rw [e, parseClock_nil] at h3; cases h3
  have hv12 : v12 ≠ [] := by
    intro e; rw [e, parseZone_nil] at h5; cases h5
  obtain ⟨k1, i2⟩ := skipSpace_inv _ _ h2 hv6
  obtain ⟨short, f, i3, hh, hmi, hs, hshort, hf⟩ := parseClock_inv _ _ _ _ _ _ h3
  obtain ⟨k2, i4⟩ := skipSpace_inv _ _ h4 hv12
  obtain ⟨hd1, hd, hz⟩ := parseZone_inv _ _ _ _ _ _ _ _ _ _ h5
  refine ⟨{ stamp := { year := Y, month := mo, day := d, hour := h, min := mi, sec := s,
                       zone := v12 },
            shortHour := short, gap1 := k1, gap2 := k2, fraction := f }, ?_, ?_⟩
  · exact ⟨⟨i1.2.1, i1.2.2.1, i1.2.2.2.1, hd1, hd, hh, hmi, hs, hz⟩, hshort, hf⟩
  · rw [i1.1, i2, i3, i4]
    simp only [LooseStamp.render, LooseStamp.hourText, List.append_assoc, List.cons_append]

end time
namespace time

theorem cutspace_replicate (k : Nat) (c : Byte) (r : GoString) (hc : c ≠ 32) :
    cutspace (List.replicate k (32 : Byte) ++ c :: r) = c :: r := by
  induction k with
  | zero => simp only [List.replicate_zero, List.nil_append, cutspace, hc, if_false]
  | succ k ih =>
    simp only [List.replicate_succ, List.cons_append, cutspace, if_true]
    exact ih

theorem leadingDigits_append (ds rest : GoString) (h : ds.all isDigitByte = true) :
    leadingDigits (ds ++ (32 : Byte) :: rest) = ds := by
  induction ds with
  | nil =>
    have e : isDigitByte 32 = false := by decide
    simp only [List.nil_append, leadingDigits, e, Bool.false_eq_true, if_false]
  | cons a r ih =>
    simp only [List.all_cons, Bool.and_eq_true] at h
    have h2 := ih h.2
    simp only [List.cons_append, leadingDigits, h.1, if_true]
    exact congrArg (List.cons a) h2

theorem getFraction_fraction (f rest : GoString) (hf : isFraction f = true) :
    (getFraction (f ++ (32 : Byte) :: rest)).2 = (32 : Byte) :: rest := by
  match f, hf with
  | [], _ =>
    cases rest with
    | nil => rfl
    | cons d r =>
      have hp : ¬ (((32 : Byte) = 46 ∨ (32 : Byte) = 44) ∧ isDigitByte d = true) := by
        intro hc; rcases hc.1 with hc | hc <;> exact absurd hc (by decide)
      simp only [List.nil_append, getFraction, hp, if_false]
  | [p], hf => simp [isFraction] at hf
  | p :: d :: ds, hf =>
    simp only [isFraction, Bool.and_eq_true, Bool.or_eq_true, decide_eq_true_eq,
      List.all_cons] at hf
    obtain ⟨⟨hp, _⟩, hd, hds⟩ := hf
    have hall : (d :: ds).all isDigitByte = true := by
      simp only [List.all_cons, hd, hds, Bool.and_self]
    have hl := leadingDigits_append (d :: ds) rest hall
    simp only [List.cons_append] at hl ⊢
    simp only [getFraction, hp, hd, and_self, if_true, hl, List.length_cons]
    simp

theorem getnum_hourText (ls : LooseStamp) (rest : GoString) (hh : ls.stamp.hour < 24)
    (hs : ls.shortHour = true → ls.stamp.hour < 10) :
    getnum (ls.hourText ++ (58 : Byte) :: rest) false =
      some (ls.stamp.hour, (58 : Byte) :: rest) := by
  unfold LooseStamp.hourText
  by_cases h : ls.shortHour = true
  · have e : ls.stamp.hour % 10 = ls.stamp.hour := Nat.mod_eq_of_lt (hs h)
    have e58 : isDigitByte 58 = false := by decide
    simp only [h, if_true, List.cons_append, List.nil_append, getnum, isDigitByte_ofNat,
      digitValue_ofNat, e58, Bool.false_eq_true, if_false, Bool.true_eq_false]
    rw [e]
  · simp only [h, if_false]
    exact getnum_twoDigits _ _ false (by omega)

theorem hourText_cons (ls : LooseStamp) :
    ∃ c r, ls.hourText = c :: r ∧ c ≠ 32 := by
  have hne : ∀ n : Nat, (Fin.ofNat (48 + n % 10) : Byte) ≠ 32 := by
    intro n e
    have := isDigitByte_ofNat n
    rw [e] at this
    exact absurd this (by decide)
  unfold LooseStamp.hourText
  by_cases h : ls.shortHour = true
  · exact ⟨Fin.ofNat (48 + ls.stamp.hour % 10), [], by simp only [h, if_true], hne _⟩
  · exact ⟨Fin.ofNat (48 + ls.stamp.hour / 10 % 10), [Fin.ofNat (48 + ls.stamp.hour % 10)],
      by simp only [h, if_false, twoDigits, Bool.false_eq_true], hne _⟩

theorem parseClock_loose (ls : LooseStamp) (rest : GoString) (hh : ls.stamp.hour < 24)
    (hmi : ls.stamp.min < 60) (hs : ls.stamp.sec < 60)
    (hshort : ls.shortHour = true → ls.stamp.hour < 10) (hf : isFraction ls.fraction = true) :
    parseClock (ls.hourText ++ ((58 : Byte) :: (twoDigits ls.stamp.min ++ ((58 : Byte) ::
        (twoDigits ls.stamp.sec ++ (ls.fraction ++ (32 : Byte) :: rest)))))) =
      some (ls.stamp.hour, ls.stamp.min, ls.stamp.sec,
        (getFraction (ls.fraction ++ (32 : Byte) :: rest)).1, (32 : Byte) :: rest) := by
  have h1 : ¬ (24 ≤ ls.stamp.hour) := by omega
  have h2 : ¬ (60 ≤ ls.stamp.min) := by omega
  have h3 : ¬ (60 ≤ ls.stamp.sec) := by omega
  simp only [parseClock, getnum_hourText ls _ hh hshort, Option.some_bind, h1, if_false,
    skipByte, if_true, getnum_twoDigits ls.stamp.min _ true (by omega), h2,
    getnum_twoDigits ls.stamp.sec _ true (by omega), h3, getFraction_fraction _ _ hf]

theorem parseZone_valid (l : LocalZone) (st : Stamp) (ns : Nat) (hv : st.Valid) :
    ∃ t, parseZone l st.year st.month st.day st.hour st.min st.sec ns st.zone = some t := by
  obtain ⟨hY, hm1, hm, hd1, hd, hh, hmi, hs, hz⟩ := hv
  have hday : ¬ (st.day < 1 ∨ st.day > daysIn st.month (st.year : Int)) := by omega
  rcases hz with hz | hz
  · have e1 : st.zone.take 3 = lit "UTC" := by rw [hz]; rfl
    have e2 : ¬ (st.zone.drop 3 ≠ []) := by rw [hz]; decide
    exact ⟨Date (st.year : Int) st.month st.day st.hour st.min st.sec ns,
      by simp only [parseZone, e1, if_true, e2, if_false, hday]⟩
  · have e4 : ¬ (st.zone.drop st.zone.length ≠ []) := by simp
    exact ⟨withZoneName l (Date (st.year : Int) st.month st.day st.hour st.min st.sec ns)
        (st.zone.take st.zone.length),
      by simp only [parseZone, hz.1, if_false, hz.2, Option.some_bind, e4, hday]⟩

/-- A valid timestamp written with the liberties of `LooseStamp` is accepted by
`Parse`. -/
theorem Parse_loose (l : LocalZone) (ls : LooseStamp) (hv : ls.Valid) :
    ∃ t, Parse l ls.render = some t := by
  obtain ⟨hst, hshort, hf⟩ := hv
  obtain ⟨t, ht⟩ := parseZone_valid l ls.stamp
    (getFraction (ls.fraction ++ (32 : Byte) ::
      (List.replicate ls.gap2 (32 : Byte) ++ ls.stamp.zone))).1 hst
  have hzp := zone_plain ls.stamp hst
  obtain ⟨hY, hm1, hm, hd1, hd, hh, hmi, hs, hz⟩ := hst
  have hd31 : ls.stamp.day ≤ 31 :=
    le_trans hd (daysIn_table (isLeap (ls.stamp.year : Int)) ⟨ls.stamp.month, by omega⟩)
  obtain ⟨zc, zr, hzc⟩ : ∃ c r, ls.stamp.zone = c :: r := by
    cases hzz : ls.stamp.zone with
    | nil =>
      rcases hz with hz | hz
      · rw [hzz] at hz; exact absurd hz (by decide)
      · have h2 := hz.2
        rw [hzz] at h2
        exact absurd h2 (by decide)
    | cons c r => exact ⟨c, r, rfl⟩
  have hzc32 : zc ≠ 32 := (hzp zc (by rw [hzc]; exact List.mem_cons_self _ _)).2
  obtain ⟨hc, hrest, hhc, hhc32⟩ := hourText_cons ls
  have hr : ls.render =
      fourDigits ls.stamp.year ++ (45 : Byte) :: twoDigits ls.stamp.month ++ (45 : Byte) ::
        twoDigits ls.stamp.day ++
        ((32 : Byte) :: (List.replicate ls.gap1 (32 : Byte) ++ (ls.hourText ++ ((58 : Byte) ::
          (twoDigits ls.stamp.min ++ ((58 : Byte) :: (twoDigits ls.stamp.sec ++ (ls.fraction ++
            (32 : Byte) :: (List.replicate ls.gap2 (32 : Byte) ++ ls.stamp.zone))))))))) := by
    simp only [LooseStamp.render, List.append_assoc, List.cons_append]
  have hcut1 : ∀ rest : GoString,
      cutspace (List.replicate ls.gap1 (32 : Byte) ++ (ls.hourText ++ rest)) =
        ls.hourText ++ rest := by
    intro rest
    rw [hhc, List.cons_append, cutspace_replicate _ _ _ hhc32]
  have hcut2 : cutspace (List.replicate ls.gap2 (32 : Byte) ++ ls.stamp.zone) = ls.stamp.zone := by
    rw [hzc, cutspace_replicate _ _ _ hzc32]
  refine ⟨t, ?_⟩
  rw [Parse, hr, parseDate_fields _ _ _ _ hY hm1 hm (by omega)]
  simp only [Option.some_bind, skipSpace, if_true, hcut1,
    parseClock_loose ls _ hh hmi hs hshort hf, hcut2]
  exact ht

end time

/-- Without liberties a `LooseStamp` is written as its timestamp,
`YYYY-MM-DD HH:MM:SS ZONE`. -/
theorem render_strict (st : Stamp) :
    LooseStamp.render { stamp := st, shortHour := false, gap1 := 0, gap2 := 0, fraction := [] } =
      st.render := by
  simp only [LooseStamp.render, LooseStamp.hourText, Stamp.render, Bool.false_eq_true, if_false,
    List.replicate_zero, List.append_nil, List.nil_append, List.append_assoc, List.cons_append]

/-- C13, amended: `Time.UnmarshalJSON` decodes with Go's `time.Parse` for the layout
`2006-01-02 15:04:05 MST`, which accepts the valid timestamps of the form
`YYYY-MM-DD HH:MM:SS ZONE` and, besides, the same written with an hour of one digit,
with more than one space between the date and the clock or between the clock and the
zone, or with a fractional second after the seconds, and nothing else. For every JSON
text that holds a non-empty string: if the string is not a valid timestamp of that form
or one of these variants, `Time.UnmarshalJSON` returns the error of the parser and leaves
the target as it was; if it is one, `Time.UnmarshalJSON` returns no error. -/
theorem C13_rejected_value_is_an_error (rt : Runtime) (t : Time) (b str : GoString)
    (hb : unmarshalString rt b = .ok str) (hs : str ≠ []) :
    ((¬ ∃ ls : LooseStamp, ls.Valid ∧ ls.render = str) →
      Time.UnmarshalJSON rt t b = (t, some (.foreign (rt.timeErrorText str)))) ∧
    ((∃ ls : LooseStamp, ls.Valid ∧ ls.render = str) →
      ∃ v, time.Parse rt.localZone str = some v ∧ Time.UnmarshalJSON rt t b = (v, none)) := by
  constructor
  · intro hn
    cases hp : time.Parse rt.localZone str with
    | none => simp only [Time.UnmarshalJSON, hb, hs, if_false, hp]
    | some v => exact absurd (time.Parse_loose_inv _ _ _ hp) hn
  · rintro ⟨ls, hv, hr⟩
    obtain ⟨v, hp⟩ := time.Parse_loose rt.localZone ls hv
    rw [hr] at hp
    exact ⟨v, hp, by simp only [Time.UnmarshalJSON, hb, hs, if_false, hp]⟩

/-- C13 at the RFC 3339 timestamp of the tests, `2006-01-02T15:04:05-07:00`: it is not
a timestamp of the form, in any of its variants, and it is rejected. -/
theorem C13_rejected_value_is_an_error_witness :
    (¬ ∃ ls : LooseStamp, ls.Valid ∧ ls.render = lit "2006-01-02T15:04:05-07:00") ∧
    Time.UnmarshalJSON sampleRuntime emptyTime (lit "\"2006-01-02T15:04:05-07:00\"") =
      (emptyTime, some (.foreign (sampleRuntime.timeErrorText (lit "2006-01-02T15:04:05-07:00")))) :=
  have h := C13_rejected_value_is_an_error sampleRuntime emptyTime
    (lit "\"2006-01-02T15:04:05-07:00\"") (lit "2006-01-02T15:04:05-07:00") rfl (by decide)
  have hn : ¬ ∃ ls : LooseStamp, ls.Valid ∧ ls.render = lit "2006-01-02T15:04:05-07:00" :=
    fun hex => by
      obtain ⟨v, hp, _⟩ := h.2 hex
      have e : time.Parse sampleRuntime.localZone (lit "2006-01-02T15:04:05-07:00") = none := rfl
      rw [e] at hp
      cases hp
  ⟨hn, h.1 hn⟩

/-- A timestamp of the form whose hour, minute, second or day is out of range, and one
with text after the zone, are rejected. -/
theorem out_of_range_is_rejected :
    time.Parse sampleRuntime.localZone (lit "2006-01-02 24:04:05 UTC") = none ∧
    time.Parse sampleRuntime.localZone (lit "2006-01-02 15:60:05 UTC") = none ∧
    time.Parse sampleRuntime.localZone (lit "2006-01-02 15:04:60 UTC") = none ∧
    time.Parse sampleRuntime.localZone (lit "2006-02-31 15:04:05 UTC") = none ∧
    time.Parse sampleRuntime.localZone (lit "2006-01-02 15:04:05 UTCX") = none ∧
    time.Parse sampleRuntime.localZone (lit "2006-01-02 15:04:05") = none :=
  ⟨rfl, rfl, rfl, rfl, rfl, rfl⟩

/-- The liberties of `LooseStamp` are taken by the parser: a timestamp with two spaces
before the clock, one with two spaces before the zone and one with a fractional second
are decoded without error. -/
theorem liberties_are_accepted :
    (Time.UnmarshalJSON sampleRuntime emptyTime (lit "\"2006-01-02  15:04:05 UTC\"")).2 = none ∧
    (Time.UnmarshalJSON sampleRuntime emptyTime (lit "\"2006-01-02 15:04:05  UTC\"")).2 = none ∧
    (Time.UnmarshalJSON sampleRuntime emptyTime (lit "\"2006-01-02 15:04:05.25 UTC\"")).2 = none ∧
    (Time.UnmarshalJSON sampleRuntime emptyTime (lit "\"2006-01-02 15:04:05,25 UTC\"")).2 = none :=
  ⟨rfl, rfl, rfl, rfl⟩


end Whois
